import Mathlib

/-!
# Successor-set inference engine of `badnext`

A shallow embedding of `src/next.go` (the cursor primitives, the position
mapper, the statement walker and the file driver) and of `PosSet.Contains`
from `src/check.go`, followed by theorems about them.

Modelling conventions.

* A Go `map[K]V` is an association list with at most one entry per key
  (`mapGet`, `mapSet`).  Go maps are reference values; in `next.go` every
  `PosSet.Set` map is created inside `addsucc` / `addqsucc` for one key of one
  table and is never stored under a second key, so value semantics loses
  nothing.
* The tables `S`, `Sq`, `G` are the non-nil maps that `FindSuccessors`
  creates before any primitive runs.
* `token.Pos` and `int` are `Int`; `uint64` is `Nat` reduced modulo `2^64`
  where the code does arithmetic on it.
* A Go slice is a `List`; `nil` and the empty slice are both `[]` (the code
  only ranges over, appends to and takes the length of its slices).
* `token.FileSet` belongs to the Go standard library.  It is a parameter:
  the function sending an offset to the `(Filename, Line)` of its
  `Position`.
-/

/-! ## Data model -/

/-- Canonical line coordinate, `type Pos struct { File string; Line int }` of `main.go`. -/
structure Pos where
  File : String
  Line : Int
deriving DecidableEq, Repr

/-- Lookup in a Go map: `none` when the key is absent. -/
def mapGet {κ ν : Type} [DecidableEq κ] : List (κ × ν) → κ → Option ν
  | [], _ => none
  | (k', v) :: m, k => if k = k' then some v else mapGet m k

/-- Assignment `m[k] = v` on a Go map: overwrite the entry of `k` or add one. -/
def mapSet {κ ν : Type} [DecidableEq κ] : List (κ × ν) → κ → ν → List (κ × ν)
  | [], k, v => [(k, v)]
  | (k', v') :: m, k, v => if k = k' then (k', v) :: m else (k', v') :: mapSet m k v

/-- Set of positions, `type PosSet struct { Set map[Pos]bool; Any bool }`; `Set = none` is the nil map. -/
structure PosSet where
  Set : Option (List (Pos × Bool))
  Any : Bool
deriving DecidableEq, Repr

/-- Value of `m[p]` for a table `m : map[Pos]PosSet`: the zero `PosSet` when `p` is absent. -/
def tableGet (m : List (Pos × PosSet)) (p : Pos) : PosSet :=
  (mapGet m p).getD (PosSet.mk none false)

/-- Membership test `func (set *PosSet) Contains(p Pos) bool` of `check.go`. -/
def PosSet.Contains (set : PosSet) (p : Pos) : Bool :=
  match set.Set with
  | none => false
  | some m => (mapGet m p).getD false

/-- Offset-to-position function of the file set: `Filename` and `Line` of `fset.Position(pos)`. -/
abbrev FileSet := Int → Pos

/-- Engine state, `type Successors struct` without the file set. -/
structure Successors where
  S : List (Pos × PosSet)
  Sq : List (Pos × PosSet)
  G : List (Pos × Nat)
  curfnend : Pos
  curpos : List Pos
  curgroup : Nat
deriving DecidableEq, Repr

/-- Return sentinel `Pos{File: "", Line: -1}`. -/
def sentinel : Pos := Pos.mk "" (-1)

/-- Increment of the `uint64` group counter, `s.curgroup++`. -/
def bumpGroup (s : Successors) : Successors :=
  { s with curgroup := (s.curgroup + 1) % 2 ^ 64 }

/-! ## Cursor engine -/

/-- Loop `for _, pos := range vpos { if pos != curpos { set.Set[pos] = true } }`. -/
def insertSuccs (curpos : Pos) (vpos : List Pos) (m : List (Pos × Bool)) : List (Pos × Bool) :=
  vpos.foldl (fun m pos => if pos ≠ curpos then mapSet m pos true else m) m

/-- Body of `addsucc` / `addqsucc` on the looked-up `PosSet`: make the map if nil, insert. -/
def addToSet (set : PosSet) (curpos : Pos) (vpos : List Pos) : PosSet :=
  let m := match set.Set with
    | none => []
    | some m => m
  PosSet.mk (some (insertSuccs curpos vpos m)) set.Any

/-- Method `func (s *Successors) addsucc(curpos Pos, vpos ...Pos)`. -/
def addsucc (s : Successors) (curpos : Pos) (vpos : List Pos) : Successors :=
  { s with S := mapSet s.S curpos (addToSet (tableGet s.S curpos) curpos vpos) }

/-- Method `func (s *Successors) addqsucc(curpos Pos, vpos ...Pos)`. -/
def addqsucc (s : Successors) (curpos : Pos) (vpos : List Pos) : Successors :=
  { s with Sq := mapSet s.Sq curpos (addToSet (tableGet s.Sq curpos) curpos vpos) }

/-- Method `func (s *Successors) setGroup(vpos ...Pos)`: assign the current group where none is set. -/
def setGroup (s : Successors) (vpos : List Pos) : Successors :=
  vpos.foldl (fun s pos =>
    match mapGet s.G pos with
    | some _ => s
    | none => { s with G := mapSet s.G pos s.curgroup }) s

/-- Method `func (s *Successors) cont(setPos bool, pos ...Pos)`. -/
def cont (s : Successors) (setPos : Bool) (pos : List Pos) : Successors :=
  let s1 := if setPos then setGroup s pos else s
  let s2 := s1.curpos.foldl (fun t c => addsucc t c pos) s1
  { s2 with curpos := pos }

/-- Method `func (s *Successors) quasiAcceptableCont(pos ...Pos)`. -/
def quasiAcceptableCont (s : Successors) (pos : List Pos) : Successors :=
  s.curpos.foldl (fun t c => addqsucc t c pos) s

/-- Method `func (s *Successors) alsoCont(setGroup bool, pos ...Pos)`. -/
def alsoCont (s : Successors) (setGrp : Bool) (pos : List Pos) : Successors :=
  let s1 := if setGrp then setGroup s pos else s
  let s2 := s1.curpos.foldl (fun t c => addsucc t c pos) s1
  { s2 with curpos := s2.curpos ++ pos }

/-- Method `func (s *Successors) contAny()`. -/
def contAny (s : Successors) : Successors :=
  s.curpos.foldl (fun t c => { t with S := mapSet t.S c (PosSet.mk none true) }) s

/-- Method `func (s *Successors) curposSave() []Pos`: a copy of the cursor. -/
def curposSave (s : Successors) : List Pos := s.curpos

/-! ## Position mapper -/

/-- AST node as seen by `allPositions`: the offsets `x.Pos()` and `x.End()`. -/
structure Node where
  pos : Int
  end_ : Int
deriving DecidableEq, Repr

/-- Method `func (s *Successors) ToPos(pos token.Pos) Pos`. -/
def ToPos (fset : FileSet) (pos : Int) : Pos := fset pos

/-- Loop of `allPositions`: `n` iterations left, next offset `p`, last position `last`,
result so far `r`. -/
def allPositionsLoop (fset : FileSet) : Nat → Int → Pos → List Pos → List Pos
  | 0, _, _, r => r
  | n + 1, p, last, r =>
    let cur := ToPos fset p
    if cur ≠ last then
      if last.File ≠ "" ∧ cur.File ≠ last.File then []
      else allPositionsLoop fset n (p + 1) cur (r ++ [cur])
    else allPositionsLoop fset n (p + 1) last r

/-- Method `func (s *Successors) allPositions(x ast.Node) []Pos`; `none` is the nil node,
offset `0` is `token.NoPos`. -/
def allPositions (fset : FileSet) (x : Option Node) : List Pos :=
  match x with
  | none => []
  | some x =>
    if x.pos = 0 ∨ x.end_ = 0 then []
    else allPositionsLoop fset (x.end_ - x.pos).toNat x.pos (Pos.mk "" 0) []

/-! ## Syntax trees

Only what the walker reads is kept.  Expressions, value specs and the
statements in `Init`, `Post`, `Comm` and `Assign` position are used through
`allPositions` alone, so they are `Node`s; `Option Node` is a field that may
be nil.  A `BlockStmt` is spelled out as `Lbrace`, `Rbrace` and its statement
list. -/

/-- Declaration keyword of a `GenDecl` (`decl.Tok`). -/
inductive Token where
  | IMPORT
  | CONST
  | TYPE
  | VAR
deriving DecidableEq, Repr

mutual
/-- Statement kinds dispatched by `findSuccStmt`; `Unknown` stands for every kind that
reaches its `default` case (a bare block, a bad statement). -/
inductive Stmt where
  | DeclStmt (Tok : Token) (Specs : List Node)
  | GoStmt (x : Node)
  | SendStmt (x : Node)
  | DeferStmt (x : Node)
  | EmptyStmt
  | ExprStmt (x : Node)
  | AssignStmt (x : Node)
  | IncDecStmt (x : Node)
  | ForStmt (For : Int) (Init Cond Post : Option Node) (Lbrace Rbrace : Int) (Body : List Stmt)
  | RangeStmt (For : Int) (X : Node) (Lbrace Rbrace : Int) (Body : List Stmt)
  | IfStmt (x : IfChain)
  | LabeledStmt (Colon : Int) (Stmt : Stmt)
  | SelectStmt (Select : Int) (Rbrace : Int) (Clauses : List Clause)
  | SwitchStmt (Switch : Int) (Init Tag : Option Node) (Rbrace : Int) (Clauses : List Clause)
  | TypeSwitchStmt (Switch : Int) (Init : Option Node) (Assign : Node) (Rbrace : Int)
      (Clauses : List Clause)
  | BranchStmt (x : Node)
  | ReturnStmt (x : Node)
  | Unknown (x : Node)
/-- Values taken by the loop variable `ifstmt` of `findSuccIf`: an `*ast.IfStmt`, the
`*ast.BlockStmt` of a terminal else, or nil. -/
inductive IfChain where
  | nil
  | If (Init : Option Node) (Cond : Node) (Lbrace Rbrace : Int) (Body : List Stmt)
      (Else : IfChain)
  | Block (Lbrace Rbrace : Int) (Body : List Stmt)
/-- Element of the body of a switch or select: `*ast.CaseClause` or `*ast.CommClause`;
`Case` is `stmt.Pos()`. -/
inductive Clause where
  | CaseClause (Case : Int) (Exprs : List Node) (Colon : Int) (Body : List Stmt)
  | CommClause (Case : Int) (Comm : Option Node) (Colon : Int) (Body : List Stmt)
end

/-! ## Statement walker -/

/-- Method `findSuccExpr`. -/
def findSuccExpr (fset : FileSet) (s : Successors) (x : Node) : Successors :=
  let positions := allPositions fset (some x)
  let s1 := positions.foldl (fun t pos => addsucc t pos positions) s
  cont s1 true positions

/-- Method `findSuccReturn`. -/
def findSuccReturn (fset : FileSet) (s : Successors) (x : Node) : Successors :=
  let positions := allPositions fset (some x) ++ [s.curfnend, sentinel]
  let s1 := addsucc s s.curfnend positions
  let s2 := positions.foldl (fun t pos => addsucc t pos positions) s1
  cont s2 true positions

/-- Conditional `if ps := s.allPositions(x); len(ps) > 0 { s.cont(setPos, ps...) }`. -/
def contNonEmpty (s : Successors) (setPos : Bool) (ps : List Pos) : Successors :=
  if ps.length > 0 then cont s setPos ps else s

/-- Clause prologue of `findSuccSwitch`: empty the cursor, then for each header node set
the group of its positions and append them to the cursor. -/
def clauseHeaderLoop (fset : FileSet) (s : Successors) (clauseHeader : List (Option Node)) :
    Successors :=
  clauseHeader.foldl (fun t x =>
    let vpos := allPositions fset x
    let t1 := setGroup t vpos
    { t1 with curpos := t1.curpos ++ vpos }) { s with curpos := [] }

/-- Final loop of `findSuccSwitch` over `clausePositions`: the direct write of `G`, then
`addsucc` and `addqsucc`. -/
def clauseFinalLoop (s : Successors) (groupHeader : Nat) (clausePositions tagPositions : List Pos) :
    Successors :=
  clausePositions.foldl (fun t pos =>
    let t1 := { t with G := mapSet t.G pos groupHeader }
    let t2 := addsucc t1 pos clausePositions
    addqsucc t2 pos tagPositions) s

/-- First half of `findSuccBody`: `s.curgroup++; s.alsoCont(true, s.ToPos(lbrace))`. -/
def bodyOpen (fset : FileSet) (lbrace : Int) (s : Successors) : Successors :=
  alsoCont (bumpGroup s) true [ToPos fset lbrace]

/-- Second half of `findSuccBody`: `s.alsoCont(true, s.ToPos(rbrace)); s.curgroup++`. -/
def bodyClose (fset : FileSet) (rbrace : Int) (s : Successors) : Successors :=
  bumpGroup (alsoCont s true [ToPos fset rbrace])

/-- Local variable `tagPositions` of `findSuccSwitch`. -/
def switchTagPositions (fset : FileSet) (key : Int) (tag : Option Node) : List Pos :=
  allPositions fset tag ++ [ToPos fset key]

/-- Part of `findSuccSwitch` before the clause loop: bump the group, walk `init` and the
tag.  The result is the state in which `groupHeader` and `curposHeader` are read. -/
def switchHeader (fset : FileSet) (key : Int) (init tag : Option Node) (s : Successors) :
    Successors :=
  let s1 := bumpGroup s
  let s2 := contNonEmpty s1 true (allPositions fset init)
  cont s2 true (switchTagPositions fset key tag)

/-- Part of `findSuccSwitch` after the clause loop; `h` is the state after the header and
`r` the outcome of the clause loop (state, `clausePositions`, `curposBlockends`). -/
def switchFinish (fset : FileSet) (key : Int) (tag : Option Node) (rbrace : Int)
    (h : Successors) (r : Successors × List Pos × List Pos) : Successors :=
  let tagPositions := switchTagPositions fset key tag
  let groupHeader := h.curgroup
  let curposHeader := curposSave h
  let clausePositions := r.2.1
  let curposBlockends := r.2.2
  let s4 := clauseFinalLoop r.1 groupHeader clausePositions tagPositions
  let s5 := { s4 with curpos := curposHeader }
  let s6 := alsoCont s5 false clausePositions
  let s7 := alsoCont s6 false [ToPos fset rbrace]
  { s7 with curpos := s7.curpos ++ curposBlockends }

/-- Clause prologue of `findSuccSwitch` up to the optional `cont(false, assign)`: returns
the state on entry to the clause body and the cursor that is appended to
`clausePositions`.  `clauseHeader` is the local of that name (the case expressions, or
the one communication statement of a select clause) and `stmtPos` is `stmt.Pos()`. -/
def clauseEnter (fset : FileSet) (assign : Option Node) (s : Successors)
    (clauseHeader : List (Option Node)) (stmtPos : Int) : Successors × List Pos :=
  let s1 := clauseHeaderLoop fset s clauseHeader
  let clausePos := ToPos fset stmtPos
  let s2 := setGroup s1 [clausePos]
  let s3 := { s2 with curpos := s2.curpos ++ [clausePos] }
  let s4 := match assign with
    | some a => cont s3 false (allPositions fset (some a))
    | none => s3
  (s4, s3.curpos)

mutual
/-- Method `findSuccStmt`, with `findSuccFor`, `findSuccRange`, `findSuccIf` and
`findSuccSwitch` unfolded at their call sites and `findSuccBody` written as
`bodyClose (findSuccStmts ..) (bodyOpen ..)`. -/
def findSuccStmt (fset : FileSet) : Stmt → Successors → Successors
  | .DeclStmt Tok Specs, s =>
    if Tok = Token.VAR then
      Specs.foldl (fun t spec => cont t true (allPositions fset (some spec))) s
    else s
  | .GoStmt x, s => cont s true [ToPos fset x.pos, ToPos fset x.end_]
  | .SendStmt x, s => cont s true [ToPos fset x.pos, ToPos fset x.end_]
  | .DeferStmt x, s =>
    alsoCont (cont s true [ToPos fset x.pos, ToPos fset x.end_]) false [sentinel]
  | .EmptyStmt, s => s
  | .ExprStmt x, s => findSuccExpr fset s x
  | .AssignStmt x, s => findSuccExpr fset s x
  | .IncDecStmt x, s => findSuccExpr fset s x
  | .ForStmt For Init Cond Post Lbrace Rbrace Body, s =>
    -- findSuccFor
    let s1 := bumpGroup s
    let condPositions := allPositions fset Cond ++ [ToPos fset For]
    let s2 := contNonEmpty s1 true (allPositions fset Init)
    let s3 := cont s2 true condPositions
    let s4 := setGroup s3 (allPositions fset Post)
    let s5 := bodyClose fset Rbrace (findSuccStmts fset Body (bodyOpen fset Lbrace s4))
    let s6 := contNonEmpty s5 false (allPositions fset Post)
    let s7 := alsoCont s6 false condPositions
    let s8 := alsoCont s7 false [ToPos fset Rbrace]
    bumpGroup s8
  | .RangeStmt For X Lbrace Rbrace Body, s =>
    -- findSuccRange
    let s1 := bumpGroup s
    let s2 := setGroup s1 (allPositions fset (some X))
    let s3 := cont s2 true (allPositions fset (some X))
    let s4 := bodyClose fset Rbrace (findSuccStmts fset Body (bodyOpen fset Lbrace s3))
    alsoCont s4 false [ToPos fset For]
  | .IfStmt x, s =>
    -- findSuccIf
    let s1 := bumpGroup s
    findSuccIfLoop fset x [] [] [] s1
  | .LabeledStmt Colon st, s =>
    findSuccStmt fset st (alsoCont s true [ToPos fset Colon])
  | .SelectStmt Select Rbrace Clauses, s =>
    -- findSuccSwitch(x.Select, nil, nil, nil, x.Body)
    let h := switchHeader fset Select none none s
    switchFinish fset Select none Rbrace h
      (findSuccClauses fset none Rbrace (switchTagPositions fset Select none) Clauses [] [] h)
  | .SwitchStmt Switch Init Tag Rbrace Clauses, s =>
    -- findSuccSwitch(x.Switch, x.Init, x.Tag, nil, x.Body)
    let h := switchHeader fset Switch Init Tag s
    switchFinish fset Switch Tag Rbrace h
      (findSuccClauses fset none Rbrace (switchTagPositions fset Switch Tag) Clauses [] [] h)
  | .TypeSwitchStmt Switch Init Assign Rbrace Clauses, s =>
    -- findSuccSwitch(x.Switch, x.Init, nil, x.Assign, x.Body)
    let h := switchHeader fset Switch Init none s
    switchFinish fset Switch none Rbrace h
      (findSuccClauses fset (some Assign) Rbrace (switchTagPositions fset Switch none)
        Clauses [] [] h)
  | .BranchStmt x, s => contAny (cont s true (allPositions fset (some x)))
  | .ReturnStmt x, s => findSuccReturn fset s x
  | .Unknown _, s => s
/-- Loop `for _, stmt := range list { s.findSuccStmt(stmt) }` of `findSuccBody`. -/
def findSuccStmts (fset : FileSet) : List Stmt → Successors → Successors
  | [], s => s
  | stmt :: list, s => findSuccStmts fset list (findSuccStmt fset stmt s)
/-- Loop `for ifstmt != nil` of `findSuccIf` with its locals `headerPositions`,
`lastIfCond` and `curposBlockends`, followed by the two appends that end the method. -/
def findSuccIfLoop (fset : FileSet) :
    IfChain → List Pos → List Pos → List Pos → Successors → Successors
  | .nil, headerPositions, _, curposBlockends, s =>
    { s with curpos := (s.curpos ++ curposBlockends) ++ headerPositions }
  | .If Init Cond Lbrace Rbrace Body Else, headerPositions, _, curposBlockends, s =>
    let condPositions := allPositions fset (some Cond)
    let s1 := contNonEmpty s true (allPositions fset Init)
    let s2 := cont s1 true condPositions
    let curposLastcond := curposSave s2
    let s3 := bodyClose fset Rbrace (findSuccStmts fset Body (bodyOpen fset Lbrace s2))
    let s4 := quasiAcceptableCont s3 curposLastcond
    findSuccIfLoop fset Else (headerPositions ++ condPositions) condPositions
      (curposBlockends ++ s3.curpos) { s4 with curpos := curposLastcond }
  | .Block Lbrace Rbrace Body, headerPositions, lastIfCond, curposBlockends, s =>
    let s1 := bodyClose fset Rbrace (findSuccStmts fset Body (bodyOpen fset Lbrace s))
    let s2 := quasiAcceptableCont s1 lastIfCond
    let s3 := { s2 with curpos := [] }
    { s3 with curpos := (s3.curpos ++ (curposBlockends ++ s1.curpos)) ++ headerPositions }
/-- Clause loop `for _, stmt := range body.List` of `findSuccSwitch`; returns the state
with the locals `clausePositions` and `curposBlockends`. -/
def findSuccClauses (fset : FileSet) (assign : Option Node) (rbrace : Int)
    (tagPositions : List Pos) :
    List Clause → List Pos → List Pos → Successors → Successors × List Pos × List Pos
  | [], clausePositions, curposBlockends, s => (s, clausePositions, curposBlockends)
  | .CaseClause Case Exprs Colon Body :: rest, clausePositions, curposBlockends, s =>
    let e := clauseEnter fset assign s (Exprs.map some) Case
    let s5 := bodyClose fset rbrace (findSuccStmts fset Body (bodyOpen fset Colon e.1))
    let s6 := quasiAcceptableCont s5 tagPositions
    findSuccClauses fset assign rbrace tagPositions rest (clausePositions ++ e.2)
      (curposBlockends ++ s5.curpos) s6
  | .CommClause Case Comm Colon Body :: rest, clausePositions, curposBlockends, s =>
    let e := clauseEnter fset assign s [Comm] Case
    let s5 := bodyClose fset rbrace (findSuccStmts fset Body (bodyOpen fset Colon e.1))
    let s6 := quasiAcceptableCont s5 tagPositions
    findSuccClauses fset assign rbrace tagPositions rest (clausePositions ++ e.2)
      (curposBlockends ++ s5.curpos) s6
end

/-- Method `findSuccBody`. -/
def findSuccBody (fset : FileSet) (lbrace rbrace : Int) (list : List Stmt) (s : Successors) :
    Successors :=
  bodyClose fset rbrace (findSuccStmts fset list (bodyOpen fset lbrace s))

/-- Method `findSuccSwitch(key, init, tag, assign, body)`; `body` is given by its `Rbrace`
and its clause list. -/
def findSuccSwitch (fset : FileSet) (key : Int) (init tag assign : Option Node) (rbrace : Int)
    (clauses : List Clause) (s : Successors) : Successors :=
  let h := switchHeader fset key init tag s
  switchFinish fset key tag rbrace h
    (findSuccClauses fset assign rbrace (switchTagPositions fset key tag) clauses [] [] h)

/-- Method `findSuccIf`. -/
def findSuccIf (fset : FileSet) (ifstmt : IfChain) (s : Successors) : Successors :=
  findSuccIfLoop fset ifstmt [] [] [] (bumpGroup s)

/-! ## Function driver -/

/-- Body of `FindSuccessors` for one function declaration that matched the filter and has
a body: `pos` and `end_` are `x.Pos()` and `x.End()`, the rest is `x.Body`. -/
def findSuccFunc (fset : FileSet) (s : Successors) (pos end_ : Int) (lbrace rbrace : Int)
    (body : List Stmt) : Successors :=
  let s1 := { s with curpos := [ToPos fset pos] }
  let s2 := { s1 with curfnend := ToPos fset end_ }
  let s3 := setGroup s2 [ToPos fset pos]
  let s4 := findSuccBody fset lbrace rbrace body s3
  let s5 := cont s4 false [sentinel]
  { s5 with curgroup := (((s5.curgroup / 2 ^ 32) + 1) * 2 ^ 32) % 2 ^ 64 }

/-- State with empty tables, before the first function is analysed. -/
def emptyState : Successors :=
  { S := [], Sq := [], G := [], curfnend := Pos.mk "" 0, curpos := [], curgroup := 0 }

/-! ## Auxiliary definitions used by the theorems -/

/-- Table-level effect of `addsucc` / `addqsucc` repeated over a cursor `cs`. -/
def addAll (m : List (Pos × PosSet)) (cs pos : List Pos) : List (Pos × PosSet) :=
  cs.foldl (fun m c => mapSet m c (addToSet (tableGet m c) c pos)) m

/-- Table-level effect of `setGroup`. -/
def setGroupAll (g : List (Pos × Nat)) (cur : Nat) (vpos : List Pos) : List (Pos × Nat) :=
  vpos.foldl (fun g pos =>
    match mapGet g pos with
    | some _ => g
    | none => mapSet g pos cur) g

/-! ## Specification-side definitions -/

/-- Drop every element equal to its predecessor, `last` being the predecessor of the head. -/
def dedupFrom : Pos → List Pos → List Pos
  | _, [] => []
  | last, a :: rest => if a = last then dedupFrom last rest else a :: dedupFrom a rest

/-- A sequence of positions "with consecutive repeats collapsed": of each run of equal
neighbours only the first is kept. -/
def collapseRepeats : List Pos → List Pos
  | [] => []
  | a :: rest => a :: dedupFrom a rest

/-- The sequence `to_pos(begin), to_pos(begin+1), ..., to_pos(end-1)` of a node. -/
def offsetPositions (fset : FileSet) (x : Node) : List Pos :=
  (List.range (x.end_ - x.pos).toNat).map (fun (i : Nat) => ToPos fset (x.pos + (i : Int)))

/-- File set of a source whose line directives name no file at first and `a.go` later:
offset 1 is at `("", 7)`, every other offset at `("a.go", 1)`. -/
def fsetDirective : FileSet := fun p => if p = 1 then Pos.mk "" 7 else Pos.mk "a.go" 1

/-- File set of a single file `f.go` with ten bytes per line. -/
def fsetTenPerLine : FileSet := fun p => Pos.mk "f.go" (p / 10)

/-- Positions that one clause contributes to `clausePositions` in `findSuccSwitch`: the
positions of its header nodes followed by the position of the clause itself. -/
def clauseHeadPositions (fset : FileSet) (clauseHeader : List (Option Node)) (stmtPos : Int) :
    List Pos :=
  clauseHeader.foldl (fun acc x => acc ++ allPositions fset x) [] ++ [ToPos fset stmtPos]

/-- Value of `clausePositions` after the clause loop of `findSuccSwitch` over `clauses`. -/
def clausePositionsOf (fset : FileSet) : List Clause → List Pos
  | [] => []
  | .CaseClause Case Exprs _ _ :: rest =>
    clauseHeadPositions fset (Exprs.map some) Case ++ clausePositionsOf fset rest
  | .CommClause Case Comm _ _ :: rest =>
    clauseHeadPositions fset [Comm] Case ++ clausePositionsOf fset rest

mutual
/-- Clause positions of every switch, select and type switch inside a statement, the
statement itself included. -/
def stmtClausePos (fset : FileSet) : Stmt → List Pos
  | .ForStmt _ _ _ _ _ _ Body => stmtsClausePos fset Body
  | .RangeStmt _ _ _ _ Body => stmtsClausePos fset Body
  | .IfStmt x => ifClausePos fset x
  | .LabeledStmt _ st => stmtClausePos fset st
  | .SelectStmt _ _ Clauses => clausesClausePos fset Clauses
  | .SwitchStmt _ _ _ _ Clauses => clausesClausePos fset Clauses
  | .TypeSwitchStmt _ _ _ _ Clauses => clausesClausePos fset Clauses
  | _ => []
/-- Clause positions inside a statement list. -/
def stmtsClausePos (fset : FileSet) : List Stmt → List Pos
  | [] => []
  | stmt :: list => stmtClausePos fset stmt ++ stmtsClausePos fset list
/-- Clause positions inside the bodies of an if chain. -/
def ifClausePos (fset : FileSet) : IfChain → List Pos
  | .nil => []
  | .If _ _ _ _ Body Else => stmtsClausePos fset Body ++ ifClausePos fset Else
  | .Block _ _ Body => stmtsClausePos fset Body
/-- Clause positions of a clause list: those of the clauses themselves and those inside
their bodies. -/
def clausesClausePos (fset : FileSet) : List Clause → List Pos
  | [] => []
  | .CaseClause Case Exprs _ Body :: rest =>
    clauseHeadPositions fset (Exprs.map some) Case ++ stmtsClausePos fset Body
      ++ clausesClausePos fset rest
  | .CommClause Case Comm _ Body :: rest =>
    clauseHeadPositions fset [Comm] Case ++ stmtsClausePos fset Body
      ++ clausesClausePos fset rest
end

/-- Closure conditions on a state predicate `P`: it survives every elementary update the
engine performs, the direct write `s.G[pos] = g` being restricted to positions in `X`. -/
structure Preserved (P : Successors → Prop) (X : Pos → Prop) : Prop where
  onAddsucc : ∀ s c v, P s → P (addsucc s c v)
  onAddqsucc : ∀ s c v, P s → P (addqsucc s c v)
  onSetGroup : ∀ s v, P s → P (setGroup s v)
  onWriteG : ∀ s p g, X p → P s → P { s with G := mapSet s.G p g }
  onSetAny : ∀ s c, P s → P { s with S := mapSet s.S c (PosSet.mk none true) }
  onCurpos : ∀ s l, P s → P { s with curpos := l }
  onCurgroup : ∀ s g, P s → P { s with curgroup := g }
  onCurfnend : ∀ s e, P s → P { s with curfnend := e }

/-- Self-loop freedom: no position is a member of its own `S` or `Sq` entry. -/
def SelfLoopFree (s : Successors) : Prop :=
  ∀ p, (tableGet s.S p).Contains p = false ∧ (tableGet s.Sq p).Contains p = false

/-- States the engine can be in: any state with empty `S` and `Sq`, closed under the cursor
primitives (with saving and restoring the cursor), the statement walker and the function
driver, for arbitrary arguments. -/
inductive Reachable (fset : FileSet) : Successors → Prop where
  | init (s : Successors) (hS : s.S = []) (hSq : s.Sq = []) : Reachable fset s
  | cont (s : Successors) (setPos : Bool) (ps : List Pos) :
      Reachable fset s → Reachable fset (cont s setPos ps)
  | alsoCont (s : Successors) (setGrp : Bool) (ps : List Pos) :
      Reachable fset s → Reachable fset (alsoCont s setGrp ps)
  | quasiAcceptableCont (s : Successors) (ps : List Pos) :
      Reachable fset s → Reachable fset (quasiAcceptableCont s ps)
  | contAny (s : Successors) : Reachable fset s → Reachable fset (contAny s)
  | setGroup (s : Successors) (ps : List Pos) :
      Reachable fset s → Reachable fset (setGroup s ps)
  | restore (s : Successors) (saved : List Pos) :
      Reachable fset s → Reachable fset { s with curpos := saved }
  | stmt (s : Successors) (st : Stmt) :
      Reachable fset s → Reachable fset (findSuccStmt fset st s)
  | body (s : Successors) (lbrace rbrace : Int) (list : List Stmt) :
      Reachable fset s → Reachable fset (findSuccBody fset lbrace rbrace list s)
  | ifChain (s : Successors) (x : IfChain) :
      Reachable fset s → Reachable fset (findSuccIf fset x s)
  | switch (s : Successors) (key : Int) (init tag assign : Option Node) (rbrace : Int)
      (clauses : List Clause) :
      Reachable fset s → Reachable fset (findSuccSwitch fset key init tag assign rbrace clauses s)
  | func (s : Successors) (pos end_ lbrace rbrace : Int) (body : List Stmt) :
      Reachable fset s → Reachable fset (findSuccFunc fset s pos end_ lbrace rbrace body)

/-- Condition `a.Contains(end) || a.Any` under which `checkTransition` (`check.go`) accepts
`end` as a successor recorded in `a := s.S[start]`. -/
def acceptsSuccessor (a : PosSet) (end_ : Pos) : Bool :=
  a.Contains end_ || a.Any

/-- State of the function driver on entry to the statements of a function whose
declaration and opening brace are on line 1 of `f.go`. -/
def stateInBody : Successors :=
  bodyOpen fsetTenPerLine 18
    (setGroup { emptyState with curpos := [ToPos fsetTenPerLine 10] } [ToPos fsetTenPerLine 10])

/-- Statement `switch x { case 1: }` written on line 1: keyword at offset 11, tag `x` at
`[12, 13)`, clause at offset 15 with expression `[16, 17)`, closing brace at offset 19. -/
def switchOnLineOne : Stmt :=
  .SwitchStmt 11 none (some (Node.mk 12 13)) 19 [.CaseClause 15 [Node.mk 16 17] 17 []]

/-- Statement `switch x { case 1: case 2: }` on lines 2 to 5: keyword and tag on line 2, the
clauses on lines 3 and 4, closing brace on line 5. -/
def switchOnLinesTwoToFive : Stmt :=
  .SwitchStmt 20 none (some (Node.mk 27 28)) 50
    [.CaseClause 30 [Node.mk 35 36] 36 [], .CaseClause 40 [Node.mk 45 46] 46 []]

/-- State in which the cursor is the single position `("f.go", 1)` and the tables are
empty. -/
def stateAtLineOne : Successors :=
  { emptyState with curpos := [Pos.mk "f.go" 1] }

/-! ## File driver -/

/-- Sign-faithful model of `strings.Index(s, "<")` for a one-character separator: the index
of the first occurrence of `c` in `s` (counted in characters), or `-1` when there is none. -/
def stringsIndex (s : String) (c : Char) : Int :=
  if s.toList.indexOf c < s.toList.length then (s.toList.indexOf c : Int) else -1

/-- Library function `strings.HasSuffix(s, suffix)`:
`len(s) >= len(suffix) && s[len(s)-len(suffix):] == suffix`. -/
def stringsHasSuffix (s suffix : String) : Bool :=
  decide (s.toList.length ≥ suffix.toList.length) &&
    decide (s.toList.drop (s.toList.length - suffix.toList.length) = suffix.toList)

/-- Function `acceptedFile(path string) bool`. -/
def acceptedFile (path : String) : Bool :=
  decide (path ≠ "") && decide (stringsIndex path '<' < 0) && stringsHasSuffix path ".go"

/-- Function declaration `*ast.FuncDecl` as read by `FindSuccessors`: `Recv` is the printed
receiver type when `x.Recv != nil`, `Name` is `x.Name.Name`, `pos` and `end_` are `x.Pos()`
and `x.End()`, `Body` is `x.Body` (nil for a declaration without body) given by its
`Lbrace`, `Rbrace` and statement list. -/
structure FuncDecl where
  Recv : Option String
  Name : String
  pos : Int
  end_ : Int
  Body : Option (Int × Int × List Stmt)

/-- Top-level declaration: a function declaration or anything else. -/
inductive Decl where
  | FuncDecl (x : FuncDecl)
  | Other

/-- Parsed file `*ast.File`: package name `n.Name.Name` and `n.Decls`. -/
structure SourceFile where
  Name : String
  Decls : List Decl

/-- Qualified name that `FindSuccessors` builds for a declaration `x` of package
`packageName`. -/
def qualifiedName (packageName : String) (x : FuncDecl) : String :=
  let name := packageName
  let name := match x.Recv with
    | some r => name ++ ".(" ++ r ++ ")"
    | none => name
  name ++ "." ++ x.Name

/-- Body of the loop `for _, decl := range n.Decls` of `FindSuccessors`; `funcs` holds the
`Name` fields of the `[]Function` argument.  A declaration is walked unless
`!found || x.Body == nil`. -/
def findSuccDecl (fset : FileSet) (packageName : String) (funcs : List String)
    (s : Successors) : Decl → Successors
  | .FuncDecl x =>
    let name := qualifiedName packageName x
    let found := funcs.any (fun f => stringsHasSuffix f name)
    match found, x.Body with
    | true, some (lbrace, rbrace, list) => findSuccFunc fset s x.pos x.end_ lbrace rbrace list
    | _, _ => s
  | .Other => s

/-- Method `func (s *Successors) FindSuccessors(path string, funcs []Function)`.  The
parser is a parameter: `parse path` is the file returned by `parser.ParseFile`, `none` when
it reports an error.  The assignment of `funcs[i].Decl` is outside the engine state and is
not modelled. -/
def FindSuccessors (fset : FileSet) (parse : String → Option SourceFile) (s : Successors)
    (path : String) (funcs : List String) : Successors :=
  if !acceptedFile path then s
  else
    match parse path with
    | none => s
    | some n => n.Decls.foldl (findSuccDecl fset n.Name funcs) s

/-! ## Reading the tables -/

/-- Position `q` is recorded as a successor of `c`: `s.S[c].Contains(q)`. -/
def inS (s : Successors) (c q : Pos) : Bool := (tableGet s.S c).Contains q

/-- Position `q` is recorded as a quasi-successor of `c`: `s.Sq[c].Contains(q)`. -/
def inSq (s : Successors) (c q : Pos) : Bool := (tableGet s.Sq c).Contains q

/-! ## Example programs -/

/-- State on entry to the statements of a function of `f.go` that is declared on line 1 and
ends on line `endLine`. -/
def stateInBodyEndingAt (endLine : Int) : Successors :=
  { stateInBody with curfnend := Pos.mk "f.go" endLine }

/-- State after `defer g()` on line 2 has been walked as the first statement of a function
that ends on line 4. -/
def stateAfterDefer : Successors :=
  findSuccStmt fsetTenPerLine (.DeferStmt (Node.mk 20 29)) (stateInBodyEndingAt 4)

/-! ## Straight-line code -/

/-- Body of the function on lines 1 `func f() {`, 2 `if c {`, 3 `x()`, 4 `}`, 5 `y()`,
6 `}` of `f.go`, ten bytes per line. -/
def ifWithoutElseBody : List Stmt :=
  [.IfStmt (.If none (Node.mk 23 24) 25 40 [.ExprStmt (Node.mk 30 33)] .nil),
   .ExprStmt (Node.mk 50 53)]

/-- Tables after the driver has analysed the function of `ifWithoutElseBody`. -/
def ifWithoutElseResult : Successors :=
  findSuccFunc fsetTenPerLine emptyState 10 61 18 60 ifWithoutElseBody

/-! ## Branches of an if chain -/

/-- State in which the then-body of `if Init; Cond { Body }` has just been walked, the if
being reached in state `s`: its cursor is the final frontier of the then-body. -/
def ifArmState (fset : FileSet) (Init : Option Node) (Cond : Node) (Lbrace Rbrace : Int)
    (Body : List Stmt) (s : Successors) : Successors :=
  findSuccBody fset Lbrace Rbrace Body
    (cont (contNonEmpty s true (allPositions fset Init)) true (allPositions fset (some Cond)))

/-- State in which the walker goes on to the else part of `if Init; Cond { Body }`: the
quasi-successors are recorded and the cursor is back at the condition. -/
def ifArmNext (fset : FileSet) (Init : Option Node) (Cond : Node) (Lbrace Rbrace : Int)
    (Body : List Stmt) (s : Successors) : Successors :=
  { quasiAcceptableCont (ifArmState fset Init Cond Lbrace Rbrace Body s)
      (allPositions fset (some Cond)) with curpos := allPositions fset (some Cond) }

/-- Branches of an if chain reached in state `s`: for every then-body its final frontier
with the condition positions of its if, and for a terminal else block its final frontier
with the condition positions `lastCond` of the last if before it. -/
def ifArms (fset : FileSet) : IfChain → List Pos → Successors → List (List Pos × List Pos)
  | .nil, _, _ => []
  | .If Init Cond Lbrace Rbrace Body Else, _, s =>
    ((ifArmState fset Init Cond Lbrace Rbrace Body s).curpos, allPositions fset (some Cond)) ::
      ifArms fset Else (allPositions fset (some Cond))
        (ifArmNext fset Init Cond Lbrace Rbrace Body s)
  | .Block Lbrace Rbrace Body, lastCond, s =>
    [((findSuccBody fset Lbrace Rbrace Body s).curpos, lastCond)]

/-- Condition positions of every if of a chain. -/
def ifConds (fset : FileSet) : IfChain → List Pos
  | .nil => []
  | .If _ Cond _ _ _ Else => allPositions fset (some Cond) ++ ifConds fset Else
  | .Block _ _ _ => []

/-! ## Clauses of a switch -/

/-- Local `condPositions` of `findSuccFor`: the condition lines and the line of the `for`
keyword. -/
def forCondPositions (fset : FileSet) (For : Int) (Cond : Option Node) : List Pos :=
  allPositions fset Cond ++ [ToPos fset For]

/-- State in which `findSuccFor` enters the loop body: group bumped, `init` and the
condition walked, the group of the post positions set. -/
def forHeaderState (fset : FileSet) (For : Int) (Init Cond Post : Option Node)
    (s : Successors) : Successors :=
  setGroup
    (cont (contNonEmpty (bumpGroup s) true (allPositions fset Init)) true
      (forCondPositions fset For Cond))
    (allPositions fset Post)

/-- State in which the body of a for loop has just been walked: its cursor is the final
frontier of the body. -/
def forBodyState (fset : FileSet) (For : Int) (Init Cond Post : Option Node)
    (Lbrace Rbrace : Int) (Body : List Stmt) (s : Successors) : Successors :=
  findSuccBody fset Lbrace Rbrace Body (forHeaderState fset For Init Cond Post s)

/-- Body of the function on lines 1 `func f(){`, 2 `for i:=0; i<n; i++ {`, 3 `g()`, 4 `}`,
5 `}` of `f.go`, ten bytes per line. -/
def forLoopBody : List Stmt :=
  [.ForStmt 20 (some (Node.mk 21 23)) (some (Node.mk 24 26)) (some (Node.mk 27 28)) 29 40
    [.ExprStmt (Node.mk 30 33)]]

/-- Tables after the driver has analysed the function of `forLoopBody`. -/
def forLoopResult : Successors :=
  findSuccFunc fsetTenPerLine emptyState 10 51 18 50 forLoopBody

/-- Statement `for ; i < n;` on line 2 continued by `i++ { switch { default: } }` on line 3:
condition on line 2, post statement, braces, switch keyword and clause on line 3. -/
def forWithSwitchOnPostLine : Stmt :=
  .ForStmt 20 none (some (Node.mk 24 26)) (some (Node.mk 30 33)) 34 39
    [.SwitchStmt 35 none none 38 [.CaseClause 36 [] 37 []]]

/-! ## Transition check

`checkTransition` of `check.go` grades one observed step `start → end` of a
debugger against the tables.  Its diagnostic output on standard error is not
modelled; the program counter `pc` is only printed. -/

/-- Constant `OutOfOrderPenalty`: moves to a different line but in the same group of lines. -/
def OutOfOrderPenalty : Nat := 1

/-- Constant `OutOfGroupPenalty`: moves to a different line, not in the expected group. -/
def OutOfGroupPenalty : Nat := 10

/-- Constant `OutOfFunctionPenalty`: moves to a different line, in a different function. -/
def OutOfFunctionPenalty : Nat := 100

/-- Map read `s.G[p]`: a missing key reads as the zero value. -/
def groupOf (s : Successors) (p : Pos) : Nat := (mapGet s.G p).getD 0

/-- Keys visited by `for k := range set.Set`; a nil map has none. -/
def PosSet.keys (set : PosSet) : List Pos :=
  match set.Set with
  | none => []
  | some m => m.map Prod.fst

/-- Value of `p` computed in the body of the loop of `checkTransition` for the key `k`. -/
def transitionGrade (s : Successors) (endgroup : Nat) (k : Pos) : Nat :=
  if groupOf s k = endgroup then OutOfOrderPenalty
  else if groupOf s k / 2 ^ 32 = endgroup / 2 ^ 32 then OutOfGroupPenalty
  else OutOfFunctionPenalty

/-- Method `func (s *Successors) checkTransition(start, end Pos, pc uint64) int`. -/
def checkTransition (s : Successors) (start end_ : Pos) (_pc : Nat) : Nat :=
  if !acceptedFile start.File then 0
  else if (tableGet s.S start).Contains end_ || (tableGet s.S start).Any then 0
  else
    let endgroup := groupOf s end_
    if (tableGet s.Sq start).Contains end_ then 0
    else
      let penalty :=
        if end_.File = "" ∧ end_.Line = -1 then OutOfGroupPenalty else OutOfFunctionPenalty
      let penalty := (tableGet s.S start).keys.foldl
        (fun penalty k =>
          let p := transitionGrade s endgroup k
          if p < penalty then p else penalty) penalty
      let penalty :=
        if (tableGet s.Sq start).Contains end_ then
          if penalty > OutOfOrderPenalty then OutOfOrderPenalty else penalty
        else penalty
      penalty

/-- Cap of the penalty in the words of the specification: 10 when the step ends at the
sentinel, 100 otherwise. -/
def penaltyCap (end_ : Pos) : Nat := if end_ = sentinel then 10 else 100

/-- Grade of one recorded successor in the words of the specification, from the group `gk`
of the successor and the group `ge` of the line the step ended on. -/
def penaltyGrade (gk ge : Nat) : Nat :=
  if gk = ge then 1 else if gk / 2 ^ 32 = ge / 2 ^ 32 then 10 else 100

/-- Group of a position in the words of the specification: its entry in `G`, a position
without a group counting as group 0. -/
def groupOrZero (G : List (Pos × Nat)) (p : Pos) : Nat :=
  match mapGet G p with
  | some g => g
  | none => 0

/-- State with one function on lines 1 to 4 whose line 2 is followed by line 3. -/
def stateForCheck : Successors :=
  findSuccFunc fsetTenPerLine emptyState 10 41 18 40
    [.AssignStmt (Node.mk 20 25), .AssignStmt (Node.mk 30 35)]

/-- State with two functions, on lines 1 to 4 and on lines 5 to 8, each with two
assignments. -/
def stateTwoFunctions : Successors :=
  findSuccFunc fsetTenPerLine stateForCheck 50 81 58 80
    [.AssignStmt (Node.mk 60 65), .AssignStmt (Node.mk 70 75)]

/-! ## Layouts outside the common case -/

/-- Tables of a function whose type switch has its assignment on two lines:
```
func f(y interface{}) {      // line 1
	switch v := g(           // line 2
		y).(type) {          // line 3
	case int:                // line 4
		_ = v                // line 5
	}                        // line 6
}                            // line 7
``` -/
def typeSwitchOnTwoLines : Successors :=
  findSuccFunc fsetTenPerLine emptyState 10 71 18 70
    [.TypeSwitchStmt 20 none (Node.mk 27 38) 60
      [.CaseClause 40 [Node.mk 45 48] 48 [.AssignStmt (Node.mk 50 55)]]]

/-- File set of a source with a line directive inside a statement: offsets below 35 are on
line `offset / 10` of `f.go`, the directive `//line g.go:1` puts offsets 35 to 39 on line 1
of `g.go` and the following lines after it.
```
func f() {                   // f.go:1
	a := 1                   // f.go:2
	g(                       // f.go:3
//line g.go:1
		a)                   // g.go:1
                             // g.go:2
	b := 2                   // g.go:3
}                            // g.go:4
``` -/
def fsetCrossFile : FileSet :=
  fun p => if p < 35 then Pos.mk "f.go" (p / 10) else Pos.mk "g.go" ((p - 30) / 10 + 1)

/-- State before the call `g(a)` of the source of `fsetCrossFile` is walked: `a := 1` was
the first statement of the body. -/
def stateBeforeCrossFile : Successors :=
  findSuccStmt fsetCrossFile (.AssignStmt (Node.mk 20 26)) stateInBody

/-- One step of a chain of successors: `q` is a member of `S[p]` or of `Sq[p]`, a set with
`Any` counting as containing every position. -/
def chainStep (s : Successors) (p q : Pos) : Prop :=
  inS s p q = true ∨ inSq s p q = true ∨
    (tableGet s.S p).Any = true ∨ (tableGet s.Sq p).Any = true

/-- There is a finite chain `p = p0, p1, ..., pn = q` of successors. -/
def chainTo (s : Successors) (p q : Pos) : Prop :=
  Relation.ReflTransGen (chainStep s) p q

/-! ## Chains of successors -/

mutual
/-- Nodes whose positions replace the cursor when the statement is walked: the nodes of
simple statements, variable specs and branch statements, the conditions of if
statements, the range expressions and the assignments of type switches, through all
nested bodies. -/
def stmtCursorNodes : Stmt → List Node
  | .DeclStmt Tok Specs => if Tok = Token.VAR then Specs else []
  | .ExprStmt x => [x]
  | .AssignStmt x => [x]
  | .IncDecStmt x => [x]
  | .ForStmt _ _ _ _ _ _ Body => stmtsCursorNodes Body
  | .RangeStmt _ X _ _ Body => X :: stmtsCursorNodes Body
  | .IfStmt x => ifCursorNodes x
  | .LabeledStmt _ st => stmtCursorNodes st
  | .SelectStmt _ _ Clauses => clausesCursorNodes Clauses
  | .SwitchStmt _ _ _ _ Clauses => clausesCursorNodes Clauses
  | .TypeSwitchStmt _ _ Assign _ Clauses => Assign :: clausesCursorNodes Clauses
  | .BranchStmt x => [x]
  | _ => []
/-- Cursor nodes of a statement list. -/
def stmtsCursorNodes : List Stmt → List Node
  | [] => []
  | stmt :: list => stmtCursorNodes stmt ++ stmtsCursorNodes list
/-- Cursor nodes of an if chain: its conditions and the cursor nodes of its bodies. -/
def ifCursorNodes : IfChain → List Node
  | .nil => []
  | .If _ Cond _ _ Body Else => Cond :: (stmtsCursorNodes Body ++ ifCursorNodes Else)
  | .Block _ _ Body => stmtsCursorNodes Body
/-- Cursor nodes inside the bodies of a clause list. -/
def clausesCursorNodes : List Clause → List Node
  | [] => []
  | .CaseClause _ _ _ Body :: rest => stmtsCursorNodes Body ++ clausesCursorNodes rest
  | .CommClause _ _ _ Body :: rest => stmtsCursorNodes Body ++ clausesCursorNodes rest
end

/-- Position `p` has an entry in `G`. -/
def hasGroup (s : Successors) (p : Pos) : Prop := ∃ g, mapGet s.G p = some g

/-- Position `p` has a chain of successors to a member of the list `l`. -/
def flowsTo (s : Successors) (p : Pos) (l : List Pos) : Prop := ∃ w ∈ l, chainTo s p w

/-- Every chain step of `s` is a chain step of `t`. -/
def ChainMono (s t : Successors) : Prop := ∀ a b, chainStep s a b → chainStep t a b

/-- Relation between the states before and after a piece of the walk: chain steps are
kept, every position of the old cursor has a chain to the new cursor, and so has every
position that got its group in between. -/
structure CursorFlow (s t : Successors) : Prop where
  mono : ChainMono s t
  fwd : ∀ w ∈ s.curpos, flowsTo t w t.curpos
  fresh : ∀ p, hasGroup t p → hasGroup s p ∨ flowsTo t p t.curpos

/-! ## Group coverage -/

/-- Positions that a switch, select or type switch records without giving them a group:
the closing brace when there is no clause (no clause body sets its group), the lines of
the type-switch assignment otherwise (`cont(false, allPositions(assign))`). -/
def switchUngrouped (fset : FileSet) (assign : Option Node) (rbrace : Int)
    (clauses : List Clause) : List Pos :=
  match clauses with
  | [] => [ToPos fset rbrace]
  | _ :: _ => allPositions fset assign

mutual
/-- Positions that the walk of a statement records with `set_group = false` and without
setting their group elsewhere: the line of the `for` keyword of every range statement
(`alsoCont(false, For)`) and the positions `switchUngrouped` of every switch, through all
nested bodies. -/
def stmtUngrouped (fset : FileSet) : Stmt → List Pos
  | .ForStmt _ _ _ _ _ _ Body => stmtsUngrouped fset Body
  | .RangeStmt For _ _ _ Body => ToPos fset For :: stmtsUngrouped fset Body
  | .IfStmt x => ifUngrouped fset x
  | .LabeledStmt _ st => stmtUngrouped fset st
  | .SelectStmt _ Rbrace Clauses =>
    switchUngrouped fset none Rbrace Clauses ++ clausesUngrouped fset Clauses
  | .SwitchStmt _ _ _ Rbrace Clauses =>
    switchUngrouped fset none Rbrace Clauses ++ clausesUngrouped fset Clauses
  | .TypeSwitchStmt _ _ Assign Rbrace Clauses =>
    switchUngrouped fset (some Assign) Rbrace Clauses ++ clausesUngrouped fset Clauses
  | _ => []
/-- Ungrouped positions of a statement list. -/
def stmtsUngrouped (fset : FileSet) : List Stmt → List Pos
  | [] => []
  | stmt :: list => stmtUngrouped fset stmt ++ stmtsUngrouped fset list
/-- Ungrouped positions inside the bodies of an if chain. -/
def ifUngrouped (fset : FileSet) : IfChain → List Pos
  | .nil => []
  | .If _ _ _ _ Body Else => stmtsUngrouped fset Body ++ ifUngrouped fset Else
  | .Block _ _ Body => stmtsUngrouped fset Body
/-- Ungrouped positions inside the bodies of a clause list. -/
def clausesUngrouped (fset : FileSet) : List Clause → List Pos
  | [] => []
  | .CaseClause _ _ _ Body :: rest => stmtsUngrouped fset Body ++ clausesUngrouped fset rest
  | .CommClause _ _ _ Body :: rest => stmtsUngrouped fset Body ++ clausesUngrouped fset rest
end

/-- Position `p` is referenced in the tables: it is a key of `S` or `Sq`, or a member of
some `S[c]` or `Sq[c]`. -/
def recorded (s : Successors) (p : Pos) : Prop :=
  (mapGet s.S p).isSome = true ∨ (mapGet s.Sq p).isSome = true ∨
    (∃ c, inS s c p = true) ∨ (∃ c, inSq s c p = true)

/-- Position `p` is the sentinel, has a group, or is one of the exceptions `exc`. -/
def covered (exc : List Pos) (s : Successors) (p : Pos) : Prop :=
  p = sentinel ∨ hasGroup s p ∨ p ∈ exc

/-- Group coverage of a state, cursor included. -/
def Coverage (exc : List Pos) (s : Successors) : Prop :=
  ∀ p, recorded s p ∨ p ∈ s.curpos → covered exc s p

/-- Every position with a group in `s` has one in `t`. -/
def GroupMono (s t : Successors) : Prop := ∀ p, hasGroup s p → hasGroup t p

/-! # Theorems -/

/-! ## Lemmas on maps -/

theorem mapGet_mapSet {κ ν : Type} [DecidableEq κ] (m : List (κ × ν)) (k k' : κ) (v : ν) :
    mapGet (mapSet m k v) k' = if k' = k then some v else mapGet m k' := by
  induction m with
  | nil => simp [mapSet, mapGet]
  | cons e m ih =>
    obtain ⟨a, b⟩ := e
    by_cases h : k = a
    · subst h
      by_cases h' : k' = k <;> simp [mapSet, mapGet, h']
    · by_cases h' : k' = a
      · subst h'
        have : ¬ k' = k := fun e => h e.symm
        simp [mapSet, mapGet, h, this]
      · simp [mapSet, mapGet, h, h', ih]

theorem mapGet_mapSet_self {κ ν : Type} [DecidableEq κ] (m : List (κ × ν)) (k : κ) (v : ν) :
    mapGet (mapSet m k v) k = some v := by
  simp [mapGet_mapSet]

theorem mapGet_mapSet_ne {κ ν : Type} [DecidableEq κ] (m : List (κ × ν)) (k k' : κ) (v : ν)
    (h : k' ≠ k) : mapGet (mapSet m k v) k' = mapGet m k' := by
  simp [mapGet_mapSet, h]

theorem tableGet_mapSet (m : List (Pos × PosSet)) (k k' : Pos) (v : PosSet) :
    tableGet (mapSet m k v) k' = if k' = k then v else tableGet m k' := by
  unfold tableGet
  rw [mapGet_mapSet]
  by_cases h : k' = k <;> simp [h]

/-- Membership after the insertion loop of `addsucc`. -/
theorem insertSuccs_getD (c : Pos) (vpos : List Pos) (m : List (Pos × Bool)) (q : Pos) :
    (mapGet (insertSuccs c vpos m) q).getD false
      = ((mapGet m q).getD false || decide (q ∈ vpos ∧ q ≠ c)) := by
  unfold insertSuccs
  induction vpos generalizing m with
  | nil => simp
  | cons p ps ih =>
    rw [List.foldl_cons, ih]
    by_cases hp : p = c
    · subst hp
      by_cases hq : q = p
      · subst hq; simp
      · simp [hq]
    · by_cases hq : q = p
      · subst hq
        simp [hp, mapGet_mapSet]
      · simp [hp, hq, mapGet_mapSet]

theorem addToSet_Contains (set : PosSet) (c : Pos) (vpos : List Pos) (q : Pos) :
    (addToSet set c vpos).Contains q = (set.Contains q || decide (q ∈ vpos ∧ q ≠ c)) := by
  unfold addToSet PosSet.Contains
  cases h : set.Set with
  | none => simp [insertSuccs_getD, mapGet]
  | some m => simp [insertSuccs_getD]

theorem addToSet_Any (set : PosSet) (c : Pos) (vpos : List Pos) :
    (addToSet set c vpos).Any = set.Any := rfl

/-! ## Lemmas on the cursor primitives -/

theorem foldl_addsucc_eq (s : Successors) (cs pos : List Pos) :
    cs.foldl (fun t c => addsucc t c pos) s = { s with S := addAll s.S cs pos } := by
  unfold addAll
  induction cs generalizing s with
  | nil => rfl
  | cons c cs ih => rw [List.foldl_cons, ih]; rfl

theorem foldl_addqsucc_eq (s : Successors) (cs pos : List Pos) :
    cs.foldl (fun t c => addqsucc t c pos) s = { s with Sq := addAll s.Sq cs pos } := by
  unfold addAll
  induction cs generalizing s with
  | nil => rfl
  | cons c cs ih => rw [List.foldl_cons, ih]; rfl

theorem addAll_mapGet_of_not_mem (m : List (Pos × PosSet)) (cs pos : List Pos) (c : Pos)
    (h : c ∉ cs) : mapGet (addAll m cs pos) c = mapGet m c := by
  unfold addAll
  induction cs generalizing m with
  | nil => rfl
  | cons d cs ih =>
    rw [List.foldl_cons, ih _ (fun hc => h (List.mem_cons_of_mem _ hc))]
    exact mapGet_mapSet_ne _ _ _ _ (fun e => h (e ▸ List.mem_cons_self _ _))

theorem addAll_Contains (m : List (Pos × PosSet)) (cs pos : List Pos) (c q : Pos) :
    (tableGet (addAll m cs pos) c).Contains q
      = ((tableGet m c).Contains q || (decide (c ∈ cs) && decide (q ∈ pos ∧ q ≠ c))) := by
  unfold addAll
  induction cs generalizing m with
  | nil => simp
  | cons d cs ih =>
    rw [List.foldl_cons, ih, tableGet_mapSet]
    by_cases hd : c = d
    · subst hd
      simp [addToSet_Contains, Bool.or_assoc]
      cases (tableGet m c).Contains q <;> cases decide (c ∈ cs) <;> simp
    · have hd' : ¬ d = c := fun e => hd e.symm
      simp [hd, hd']

theorem addAll_Any (m : List (Pos × PosSet)) (cs pos : List Pos) (c : Pos) :
    (tableGet (addAll m cs pos) c).Any = (tableGet m c).Any := by
  unfold addAll
  induction cs generalizing m with
  | nil => rfl
  | cons d cs ih =>
    rw [List.foldl_cons, ih, tableGet_mapSet]
    by_cases hd : c = d
    · subst hd; simp [addToSet_Any]
    · simp [hd]

theorem setGroup_eq (s : Successors) (vpos : List Pos) :
    setGroup s vpos = { s with G := setGroupAll s.G s.curgroup vpos } := by
  unfold setGroup setGroupAll
  induction vpos generalizing s with
  | nil => rfl
  | cons p ps ih =>
    rw [List.foldl_cons, List.foldl_cons, ih]
    cases h : mapGet s.G p <;> simp

theorem setGroupAll_mapGet (g : List (Pos × Nat)) (cur : Nat) (vpos : List Pos) (p : Pos) :
    mapGet (setGroupAll g cur vpos) p =
      match mapGet g p with
      | some v => some v
      | none => if p ∈ vpos then some cur else none := by
  unfold setGroupAll
  induction vpos generalizing g with
  | nil => cases h : mapGet g p <;> simp [h]
  | cons a ps ih =>
    rw [List.foldl_cons, ih]
    cases ha : mapGet g a with
    | some v =>
      simp only []
      cases hp : mapGet g p with
      | some w => rfl
      | none =>
        have : p ≠ a := fun e => by rw [e, ha] at hp; cases hp
        simp [this]
    | none =>
      simp only [mapGet_mapSet]
      by_cases hpa : p = a
      · subst hpa; simp [ha]
      · simp [hpa]

theorem foldl_setAny_eq (s : Successors) (cs : List Pos) :
    cs.foldl (fun t c => { t with S := mapSet t.S c (PosSet.mk none true) }) s
      = { s with S := cs.foldl (fun m c => mapSet m c (PosSet.mk none true)) s.S } := by
  induction cs generalizing s with
  | nil => rfl
  | cons c cs ih => rw [List.foldl_cons, ih]; rfl

theorem contAny_eq (s : Successors) :
    contAny s
      = { s with S := s.curpos.foldl (fun m c => mapSet m c (PosSet.mk none true)) s.S } :=
  foldl_setAny_eq s s.curpos

theorem foldl_setAny_mapGet (m : List (Pos × PosSet)) (cs : List Pos) (c : Pos) :
    mapGet (cs.foldl (fun m c => mapSet m c (PosSet.mk none true)) m) c
      = if c ∈ cs then some (PosSet.mk none true) else mapGet m c := by
  induction cs generalizing m with
  | nil => simp
  | cons d cs ih =>
    rw [List.foldl_cons, ih, mapGet_mapSet]
    by_cases h1 : c ∈ cs
    · simp [h1]
    · by_cases h2 : c = d
      · simp [h2]
      · simp [h1, h2]

/-! ## Cursor primitives (C1 to C4) -/

theorem cont_eq (s : Successors) (setPos : Bool) (ps : List Pos) :
    cont s setPos ps =
      { s with
        S := addAll s.S s.curpos ps
        G := if setPos then setGroupAll s.G s.curgroup ps else s.G
        curpos := ps } := by
  unfold cont
  cases setPos <;> simp [foldl_addsucc_eq, setGroup_eq]

theorem alsoCont_eq (s : Successors) (setGrp : Bool) (ps : List Pos) :
    alsoCont s setGrp ps =
      { s with
        S := addAll s.S s.curpos ps
        G := if setGrp then setGroupAll s.G s.curgroup ps else s.G
        curpos := s.curpos ++ ps } := by
  unfold alsoCont
  cases setGrp <;> simp [foldl_addsucc_eq, setGroup_eq]

theorem quasiAcceptableCont_eq (s : Successors) (ps : List Pos) :
    quasiAcceptableCont s ps = { s with Sq := addAll s.Sq s.curpos ps } := by
  unfold quasiAcceptableCont
  rw [foldl_addqsucc_eq]

/-- C1: `cont(set_group, ps)` replaces the cursor by `ps` (also when `ps` is empty); for
every `c` of the old cursor the members of `S[c]` become the old members plus every `p` in
`ps` with `p != c` (the `Any` flag of every entry is kept); `S` of a position outside the
old cursor and the whole of `Sq` are unchanged; `G` is unchanged when `set_group` is false,
and when it is true `G` keeps every existing entry and gives the current group exactly to
the positions of `ps` that had none; the group counter and `curfnend` are unchanged. -/
theorem cont_spec (s : Successors) (setPos : Bool) (ps : List Pos) :
    (cont s setPos ps).curpos = ps ∧
    (∀ c, c ∈ s.curpos → ∀ q, (tableGet (cont s setPos ps).S c).Contains q
        = ((tableGet s.S c).Contains q || decide (q ∈ ps ∧ q ≠ c))) ∧
    (∀ c, (tableGet (cont s setPos ps).S c).Any = (tableGet s.S c).Any) ∧
    (∀ c, c ∉ s.curpos → mapGet (cont s setPos ps).S c = mapGet s.S c) ∧
    (cont s setPos ps).Sq = s.Sq ∧
    (setPos = false → (cont s setPos ps).G = s.G) ∧
    (setPos = true → ∀ p, mapGet (cont s setPos ps).G p =
        match mapGet s.G p with
        | some g => some g
        | none => if p ∈ ps then some s.curgroup else none) ∧
    (cont s setPos ps).curgroup = s.curgroup ∧
    (cont s setPos ps).curfnend = s.curfnend := by
  rw [cont_eq]
  refine ⟨rfl, ?_, ?_, ?_, rfl, ?_, ?_, rfl, rfl⟩
  · intro c hc q
    simp only [addAll_Contains, hc, decide_True, Bool.true_and]
  · intro c
    exact addAll_Any _ _ _ _
  · intro c hc
    exact addAll_mapGet_of_not_mem _ _ _ _ hc
  · intro h
    simp [h]
  · intro h p
    simp only [h, if_true]
    exact setGroupAll_mapGet _ _ _ _

/-- C2: `also_cont(set_group, ps)` yields the same `S`, `Sq` and `G` (and group counter and
`curfnend`) as `cont(set_group, ps)` from the same state; its cursor is the old cursor
followed by `ps`, nothing dropped and nothing merged. -/
theorem alsoCont_spec (s : Successors) (setGrp : Bool) (ps : List Pos) :
    (alsoCont s setGrp ps).S = (cont s setGrp ps).S ∧
    (alsoCont s setGrp ps).Sq = (cont s setGrp ps).Sq ∧
    (alsoCont s setGrp ps).G = (cont s setGrp ps).G ∧
    (alsoCont s setGrp ps).curgroup = (cont s setGrp ps).curgroup ∧
    (alsoCont s setGrp ps).curfnend = (cont s setGrp ps).curfnend ∧
    (alsoCont s setGrp ps).curpos = s.curpos ++ ps ∧
    (cont s setGrp ps).curpos = ps := by
  rw [cont_eq, alsoCont_eq]
  exact ⟨rfl, rfl, rfl, rfl, rfl, rfl, rfl⟩

/-- C3: `quasi_cont(ps)` adds to `Sq[c]`, for each `c` of the cursor, every `p` in `ps`
with `p != c` (members only grow by these, the `Any` flag is kept, `Sq` of a position
outside the cursor is untouched) and leaves `S`, `G`, the group counter, `curfnend` and
the cursor as they were. -/
theorem quasiAcceptableCont_spec (s : Successors) (ps : List Pos) :
    (∀ c, c ∈ s.curpos → ∀ q, (tableGet (quasiAcceptableCont s ps).Sq c).Contains q
        = ((tableGet s.Sq c).Contains q || decide (q ∈ ps ∧ q ≠ c))) ∧
    (∀ c, (tableGet (quasiAcceptableCont s ps).Sq c).Any = (tableGet s.Sq c).Any) ∧
    (∀ c, c ∉ s.curpos → mapGet (quasiAcceptableCont s ps).Sq c = mapGet s.Sq c) ∧
    (quasiAcceptableCont s ps).S = s.S ∧
    (quasiAcceptableCont s ps).G = s.G ∧
    (quasiAcceptableCont s ps).curgroup = s.curgroup ∧
    (quasiAcceptableCont s ps).curfnend = s.curfnend ∧
    (quasiAcceptableCont s ps).curpos = s.curpos := by
  rw [quasiAcceptableCont_eq]
  refine ⟨?_, ?_, ?_, rfl, rfl, rfl, rfl, rfl⟩
  · intro c hc q
    simp only [addAll_Contains, hc, decide_True, Bool.true_and]
  · intro c
    exact addAll_Any _ _ _ _
  · intro c hc
    exact addAll_mapGet_of_not_mem _ _ _ _ hc

/-- C4: `cont_any()` makes `S[c]` the value `PosSet{Any: true}` (nil `Set`: the successors
recorded so far are dropped) for every `c` of the cursor, and leaves `S` of every position
outside the cursor, `Sq`, `G`, the group counter, `curfnend` and the cursor unchanged. -/
theorem contAny_spec (s : Successors) :
    (∀ c, c ∈ s.curpos → mapGet (contAny s).S c = some (PosSet.mk none true)) ∧
    (∀ c, c ∉ s.curpos → mapGet (contAny s).S c = mapGet s.S c) ∧
    (contAny s).Sq = s.Sq ∧
    (contAny s).G = s.G ∧
    (contAny s).curgroup = s.curgroup ∧
    (contAny s).curfnend = s.curfnend ∧
    (contAny s).curpos = s.curpos := by
  rw [contAny_eq]
  refine ⟨?_, ?_, rfl, rfl, rfl, rfl, rfl⟩
  · intro c hc
    simp [foldl_setAny_mapGet, hc]
  · intro c hc
    simp [foldl_setAny_mapGet, hc]

/-- C1, witness: `cont(true, line 2)` with cursor `[line 1]` and empty tables. -/
theorem cont_spec_witness :
    (cont stateAtLineOne true [Pos.mk "f.go" 2]).curpos = [Pos.mk "f.go" 2] ∧
    (tableGet (cont stateAtLineOne true [Pos.mk "f.go" 2]).S (Pos.mk "f.go" 1)).Contains
      (Pos.mk "f.go" 2) = true ∧
    mapGet (cont stateAtLineOne true [Pos.mk "f.go" 2]).G (Pos.mk "f.go" 2) = some 0 :=
  have h := cont_spec stateAtLineOne true [Pos.mk "f.go" 2]
  ⟨h.1, (h.2.1 (Pos.mk "f.go" 1) (by decide) (Pos.mk "f.go" 2)).trans (by decide),
    (h.2.2.2.2.2.2.1 rfl (Pos.mk "f.go" 2)).trans (by decide)⟩

/-- C2, witness: `also_cont` after `cont`, the cursor grows to `[line 2, line 2]`. -/
theorem alsoCont_spec_witness :
    (alsoCont (cont stateAtLineOne true [Pos.mk "f.go" 2]) false [Pos.mk "f.go" 2]).curpos
      = [Pos.mk "f.go" 2, Pos.mk "f.go" 2] :=
  (alsoCont_spec (cont stateAtLineOne true [Pos.mk "f.go" 2]) false
    [Pos.mk "f.go" 2]).2.2.2.2.2.1.trans (by decide)

/-- C3, witness: `quasi_cont(line 2)` with cursor `[line 1]` puts line 2 into `Sq[line 1]`
and leaves `S` empty. -/
theorem quasiAcceptableCont_spec_witness :
    (tableGet (quasiAcceptableCont stateAtLineOne [Pos.mk "f.go" 2]).Sq (Pos.mk "f.go" 1)).Contains
      (Pos.mk "f.go" 2) = true ∧
    (quasiAcceptableCont stateAtLineOne [Pos.mk "f.go" 2]).S = [] :=
  have h := quasiAcceptableCont_spec stateAtLineOne [Pos.mk "f.go" 2]
  ⟨(h.1 (Pos.mk "f.go" 1) (by decide) (Pos.mk "f.go" 2)).trans (by decide), h.2.2.2.1⟩

/-- C4, witness: `cont_any` after `cont(true, line 2)` makes `S[line 2]` the `Any` value
and keeps `S[line 1]`. -/
theorem contAny_spec_witness :
    mapGet (contAny (cont stateAtLineOne true [Pos.mk "f.go" 2])).S (Pos.mk "f.go" 2)
      = some (PosSet.mk none true) ∧
    mapGet (contAny (cont stateAtLineOne true [Pos.mk "f.go" 2])).S (Pos.mk "f.go" 1)
      = some (PosSet.mk (some [(Pos.mk "f.go" 2, true)]) false) :=
  have h := contAny_spec (cont stateAtLineOne true [Pos.mk "f.go" 2])
  ⟨h.1 (Pos.mk "f.go" 2) (by decide),
    (h.2.1 (Pos.mk "f.go" 1) (by decide)).trans (by decide)⟩

/-! ## Position mapper (C9, C10) -/

theorem dedupFrom_subset (last : Pos) (l : List Pos) (a : Pos) (h : a ∈ dedupFrom last l) :
    a ∈ l := by
  induction l generalizing last with
  | nil => simp [dedupFrom] at h
  | cons b rest ih =>
    unfold dedupFrom at h
    split at h
    · exact List.mem_cons_of_mem _ (ih _ h)
    · rcases List.mem_cons.1 h with h | h
      · exact h ▸ List.mem_cons_self _ _
      · exact List.mem_cons_of_mem _ (ih _ h)

theorem mem_dedupFrom (last : Pos) (l : List Pos) (a : Pos) (h : a ∈ l) :
    a = last ∨ a ∈ dedupFrom last l := by
  induction l generalizing last with
  | nil => cases h
  | cons b rest ih =>
    unfold dedupFrom
    by_cases hb : b = last
    · rw [if_pos hb]
      rcases List.mem_cons.1 h with h | h
      · exact Or.inl (h.trans hb)
      · exact ih _ h
    · rw [if_neg hb]
      rcases List.mem_cons.1 h with h | h
      · exact Or.inr (h ▸ List.mem_cons_self _ _)
      · rcases ih b h with h' | h'
        · exact Or.inr (h' ▸ List.mem_cons_self _ _)
        · exact Or.inr (List.mem_cons_of_mem _ h')

theorem mem_collapseRepeats (l : List Pos) (a : Pos) : a ∈ collapseRepeats l ↔ a ∈ l := by
  cases l with
  | nil => simp [collapseRepeats]
  | cons b rest =>
    unfold collapseRepeats
    constructor
    · intro h
      rcases List.mem_cons.1 h with h | h
      · exact h ▸ List.mem_cons_self _ _
      · exact List.mem_cons_of_mem _ (dedupFrom_subset _ _ _ h)
    · intro h
      rcases List.mem_cons.1 h with h | h
      · exact h ▸ List.mem_cons_self _ _
      · rcases mem_dedupFrom b rest a h with h' | h'
        · exact h' ▸ List.mem_cons_self _ _
        · exact List.mem_cons_of_mem _ h'

/-- In one file and with non-decreasing lines, collapsing leaves strictly increasing lines. -/
theorem dedupFrom_sorted (f : String) (l : List Pos) (last : Pos)
    (hf : ∀ a ∈ l, a.File = f) (hlast : last.File = f)
    (hle : ∀ a ∈ l, last.Line ≤ a.Line)
    (hs : l.Pairwise (fun a b => a.Line ≤ b.Line)) :
    (dedupFrom last l).Pairwise (fun a b => a.Line < b.Line) ∧
      ∀ a ∈ dedupFrom last l, last.Line < a.Line := by
  induction l generalizing last with
  | nil => simp [dedupFrom]
  | cons b rest ih =>
    have hs' := List.pairwise_cons.1 hs
    have hfr : ∀ a ∈ rest, a.File = f := fun a ha => hf a (List.mem_cons_of_mem _ ha)
    unfold dedupFrom
    by_cases hb : b = last
    · rw [if_pos hb]
      exact ih last hfr hlast (fun a ha => hle a (List.mem_cons_of_mem _ ha)) hs'.2
    · rw [if_neg hb]
      have hbf : b.File = f := hf b (List.mem_cons_self _ _)
      have hlt : last.Line < b.Line := by
        have h1 := hle b (List.mem_cons_self _ _)
        rcases lt_or_eq_of_le h1 with h2 | h2
        · exact h2
        · exfalso
          apply hb
          cases b; cases last
          simp only [Pos.mk.injEq]
          exact ⟨hbf.trans hlast.symm, h2.symm⟩
      obtain ⟨h3, h4⟩ := ih b hfr hbf hs'.1 hs'.2
      refine ⟨List.pairwise_cons.2 ⟨h4, h3⟩, ?_⟩
      intro a ha
      rcases List.mem_cons.1 ha with h | h
      · rw [h]; exact hlt
      · exact lt_trans hlt (h4 a h)

/-- The loop of `allPositions` on a run of offsets that stay in one file. -/
theorem allPositionsLoop_one_file (fset : FileSet) (f : String) (n : Nat) (p : Int)
    (last : Pos) (r : List Pos)
    (hf : ∀ i : Nat, i < n → (fset (p + (i : Int))).File = f)
    (hlast : last.File = "" ∨ last.File = f) :
    allPositionsLoop fset n p last r
      = r ++ dedupFrom last ((List.range n).map (fun (i : Nat) => ToPos fset (p + (i : Int)))) := by
  induction n generalizing p last r with
  | zero => simp [allPositionsLoop, dedupFrom]
  | succ n ih =>
    have h0 : (fset p).File = f := by simpa using hf 0 (Nat.succ_pos _)
    have hf' : ∀ i : Nat, i < n → (fset (p + 1 + (i : Int))).File = f := by
      intro i hi
      have := hf (i + 1) (Nat.succ_lt_succ hi)
      rw [show p + 1 + (i : Int) = p + ((i + 1 : Nat) : Int) by push_cast; ring]
      exact this
    have hmap : (List.range (n + 1)).map (fun (i : Nat) => ToPos fset (p + (i : Int)))
        = ToPos fset p :: (List.range n).map (fun (i : Nat) => ToPos fset (p + 1 + (i : Int))) := by
      rw [List.range_succ_eq_map, List.map_cons, List.map_map]
      simp only [Nat.cast_zero, add_zero, List.cons.injEq, true_and]
      apply List.map_congr_left
      intro i _
      simp only [Function.comp, Nat.succ_eq_add_one]
      rw [show p + ((i + 1 : Nat) : Int) = p + 1 + (i : Int) by push_cast; ring]
    rw [hmap]
    unfold allPositionsLoop dedupFrom
    simp only [ToPos]
    by_cases hc : fset p = last
    · simp only [hc, ne_eq, not_true_eq_false, if_false, if_true]
      rw [ih (p + 1) last r hf' hlast]
      simp only [ToPos]
    · have hguard : ¬ (last.File ≠ "" ∧ (fset p).File ≠ last.File) := by
        rintro ⟨h1, h2⟩
        rcases hlast with h | h
        · exact h1 h
        · exact h2 (h0.trans h.symm)
      simp only [ne_eq, hc, not_false_eq_true, if_true, if_false]
      rw [if_neg (by simpa using hguard)]
      rw [ih (p + 1) (fset p) (r ++ [fset p]) hf' (Or.inr h0)]
      simp only [ToPos, List.append_assoc, List.singleton_append]

theorem offsetPositions_eq_cons (fset : FileSet) (x : Node) (hlt : x.pos < x.end_) :
    ∃ rest, offsetPositions fset x = ToPos fset x.pos :: rest := by
  unfold offsetPositions
  obtain ⟨m, hm⟩ : ∃ m, (x.end_ - x.pos).toNat = m + 1 :=
    ⟨(x.end_ - x.pos).toNat - 1, by omega⟩
  rw [hm, List.range_succ_eq_map, List.map_cons]
  refine ⟨(List.range m).map (fun (i : Nat) => ToPos fset (x.pos + ((i + 1 : Nat) : Int))), ?_⟩
  simp only [Nat.cast_zero, add_zero, List.map_map]
  rfl

theorem mem_offsetPositions (fset : FileSet) (x : Node) (a : Pos) :
    a ∈ offsetPositions fset x ↔ ∃ p, x.pos ≤ p ∧ p < x.end_ ∧ ToPos fset p = a := by
  unfold offsetPositions
  simp only [List.mem_map, List.mem_range]
  constructor
  · rintro ⟨i, hi, rfl⟩
    exact ⟨x.pos + (i : Int), by omega, by omega, rfl⟩
  · rintro ⟨p, h1, h2, rfl⟩
    refine ⟨(p - x.pos).toNat, by omega, ?_⟩
    congr 1
    omega

theorem offsetPositions_sorted (fset : FileSet) (x : Node)
    (hmono : ∀ p q, x.pos ≤ p → p ≤ q → q < x.end_ →
      (ToPos fset p).Line ≤ (ToPos fset q).Line) :
    (offsetPositions fset x).Pairwise (fun a b => a.Line ≤ b.Line) := by
  unfold offsetPositions
  rw [List.pairwise_map]
  refine List.Pairwise.imp_of_mem ?_ (List.pairwise_lt_range _)
  intro i j hi hj hij
  rw [List.mem_range] at hi hj
  exact hmono _ _ (by omega) (by omega) (by omega)

theorem allPositions_eq_loop (fset : FileSet) (x : Node) (hpos : x.pos ≠ 0) (hend : x.end_ ≠ 0) :
    allPositions fset (some x)
      = allPositionsLoop fset (x.end_ - x.pos).toNat x.pos (Pos.mk "" 0) [] := by
  simp [allPositions, hpos, hend]

/-- C9: for a node with valid offsets `begin < end` that all map into one file `f` (the
first of them to a real position, not to the zero `Pos` that an offset outside every file
yields), `all_positions` is the sequence `to_pos(begin), ..., to_pos(end-1)` with
consecutive repeats collapsed; if moreover the line of `to_pos` is non-decreasing over the
range, the result has no position twice, has strictly increasing lines, starts with
`to_pos(begin)`, and contains the position of every offset of the range. -/
theorem allPositions_spec (fset : FileSet) (x : Node) (f : String)
    (hpos : x.pos ≠ 0) (hend : x.end_ ≠ 0) (hlt : x.pos < x.end_)
    (hfile : ∀ p, x.pos ≤ p → p < x.end_ → (ToPos fset p).File = f)
    (hreal : ToPos fset x.pos ≠ Pos.mk "" 0) :
    allPositions fset (some x) = collapseRepeats (offsetPositions fset x) ∧
    ((∀ p q, x.pos ≤ p → p ≤ q → q < x.end_ → (ToPos fset p).Line ≤ (ToPos fset q).Line) →
      (allPositions fset (some x)).Nodup ∧
      (allPositions fset (some x)).Pairwise (fun a b => a.Line < b.Line) ∧
      (allPositions fset (some x)).head? = some (ToPos fset x.pos) ∧
      ∀ p, x.pos ≤ p → p < x.end_ → ToPos fset p ∈ allPositions fset (some x)) := by
  have hmain : allPositions fset (some x) = collapseRepeats (offsetPositions fset x) := by
    rw [allPositions_eq_loop fset x hpos hend,
      allPositionsLoop_one_file fset f _ x.pos (Pos.mk "" 0) []
        (fun i hi => hfile _ (by omega) (by omega)) (Or.inl rfl)]
    obtain ⟨rest, hrest⟩ := offsetPositions_eq_cons fset x hlt
    have hrest' := hrest
    unfold offsetPositions at hrest'
    rw [hrest', hrest]
    simp only [List.nil_append, collapseRepeats, dedupFrom]
    rw [if_neg hreal]
  refine ⟨hmain, fun hmono => ?_⟩
  have hall : ∀ a ∈ offsetPositions fset x, a.File = f := by
    intro a ha
    obtain ⟨p, h1, h2, rfl⟩ := (mem_offsetPositions fset x a).1 ha
    exact hfile p h1 h2
  have hsorted := offsetPositions_sorted fset x hmono
  obtain ⟨rest, hrest⟩ := offsetPositions_eq_cons fset x hlt
  have hpw : (allPositions fset (some x)).Pairwise (fun a b => a.Line < b.Line) := by
    rw [hmain, hrest]
    rw [hrest] at hall hsorted
    have hs' := List.pairwise_cons.1 hsorted
    obtain ⟨h3, h4⟩ := dedupFrom_sorted f rest (ToPos fset x.pos)
      (fun a ha => hall a (List.mem_cons_of_mem _ ha)) (hall _ (List.mem_cons_self _ _))
      hs'.1 hs'.2
    exact List.pairwise_cons.2 ⟨h4, h3⟩
  refine ⟨?_, hpw, ?_, ?_⟩
  · exact hpw.imp (fun h e => by rw [e] at h; exact lt_irrefl _ h)
  · rw [hmain, hrest]; rfl
  · intro p h1 h2
    rw [hmain, mem_collapseRepeats, mem_offsetPositions]
    exact ⟨p, h1, h2, rfl⟩

theorem allPositionsLoop_succ (fset : FileSet) (n : Nat) (p : Int) (last : Pos) (r : List Pos) :
    allPositionsLoop fset (n + 1) p last r =
      if fset p ≠ last then
        if last.File ≠ "" ∧ (fset p).File ≠ last.File then []
        else allPositionsLoop fset n (p + 1) (fset p) (r ++ [fset p])
      else allPositionsLoop fset n (p + 1) last r := rfl

/-- One iteration of the loop of `allPositions` either returns the empty result or goes on
with the position of the offset just read as `last`. -/
theorem allPositionsLoop_step (fset : FileSet) (n : Nat) (p : Int) (last : Pos) (r : List Pos) :
    allPositionsLoop fset (n + 1) p last r = [] ∨
      ∃ r', allPositionsLoop fset (n + 1) p last r = allPositionsLoop fset n (p + 1) (fset p) r' := by
  rw [allPositionsLoop_succ]
  by_cases hc : fset p = last
  · right
    refine ⟨r, ?_⟩
    rw [if_neg (not_not.2 hc), hc]
  · by_cases hg : last.File ≠ "" ∧ (fset p).File ≠ last.File
    · left
      rw [if_pos hc, if_pos hg]
    · right
      refine ⟨r ++ [fset p], ?_⟩
      rw [if_pos hc, if_neg hg]

/-- The loop returns the empty result when the next offset leaves the non-empty file of
`last`. -/
theorem allPositionsLoop_break (fset : FileSet) (n : Nat) (p : Int) (last : Pos) (r : List Pos)
    (h1 : last.File ≠ "") (h2 : (fset p).File ≠ last.File) :
    allPositionsLoop fset (n + 1) p last r = [] := by
  have hc : fset p ≠ last := fun e => h2 (by rw [e])
  rw [allPositionsLoop_succ, if_pos hc, if_pos ⟨h1, h2⟩]

/-- The loop returns the empty result when two neighbouring offsets of its range are in
different files, the first in a file with a name. -/
theorem allPositionsLoop_adjacent (fset : FileSet) (n : Nat) (p : Int) (last : Pos)
    (r : List Pos) (k : Nat) (hk : k + 1 < n)
    (h1 : (fset (p + (k : Int))).File ≠ "")
    (h2 : (fset (p + (k : Int) + 1)).File ≠ (fset (p + (k : Int))).File) :
    allPositionsLoop fset n p last r = [] := by
  induction k generalizing n p last r with
  | zero =>
    obtain ⟨m, rfl⟩ : ∃ m, n = m + 2 := ⟨n - 2, by omega⟩
    simp only [Nat.cast_zero, add_zero] at h1 h2
    rcases allPositionsLoop_step fset (m + 1) p last r with h | ⟨r', h⟩
    · exact h
    · rw [h]
      exact allPositionsLoop_break fset m (p + 1) (fset p) r' h1 h2
  | succ k ih =>
    obtain ⟨m, rfl⟩ : ∃ m, n = m + 1 := ⟨n - 1, by omega⟩
    rcases allPositionsLoop_step fset m p last r with h | ⟨r', h⟩
    · exact h
    · rw [h]
      apply ih m (p + 1) (fset p) r' (by omega)
      · rw [show p + 1 + (k : Int) = p + ((k + 1 : Nat) : Int) by push_cast; ring]
        exact h1
      · rw [show p + 1 + (k : Int) = p + ((k + 1 : Nat) : Int) by push_cast; ring]
        exact h2

/-- Between an offset in a named file and a later offset in another file there are two
neighbouring offsets in different files, the first still in the named file. -/
theorem exists_adjacent_break (file : Nat → String) (i : Nat) (d : Nat)
    (h1 : file i ≠ "") (h2 : file (i + d + 1) ≠ file i) :
    ∃ k, i ≤ k ∧ k ≤ i + d ∧ file k ≠ "" ∧ file (k + 1) ≠ file k := by
  induction d with
  | zero => exact ⟨i, le_refl _, le_refl _, h1, h2⟩
  | succ d ih =>
    by_cases h : file (i + d + 1) = file i
    · refine ⟨i + d + 1, by omega, by omega, by rw [h]; exact h1, ?_⟩
      rw [h]
      exact h2
    · obtain ⟨k, hk1, hk2, hk3, hk4⟩ := ih h
      exact ⟨k, hk1, by omega, hk3, hk4⟩

/-- C10, as amended: `all_positions(node)` is the empty sequence when the node's begin or
end offset is invalid, or when two offsets `i < j` of its half-open range map to different
files and the earlier one, `i`, maps to a file with a non-empty name. -/
theorem allPositions_empty (fset : FileSet) (x : Node)
    (h : x.pos = 0 ∨ x.end_ = 0 ∨
      ∃ i j, x.pos ≤ i ∧ i < j ∧ j < x.end_ ∧
        (ToPos fset i).File ≠ "" ∧ (ToPos fset j).File ≠ (ToPos fset i).File) :
    allPositions fset (some x) = [] := by
  by_cases hv : x.pos = 0 ∨ x.end_ = 0
  · simp [allPositions, hv]
  · have hi : ∃ i j, x.pos ≤ i ∧ i < j ∧ j < x.end_ ∧
        (ToPos fset i).File ≠ "" ∧ (ToPos fset j).File ≠ (ToPos fset i).File := by
      rcases h with h | h | h
      · exact absurd (Or.inl h) hv
      · exact absurd (Or.inr h) hv
      · exact h
    obtain ⟨i, j, hi1, hij, hj, hne, hdiff⟩ := hi
    push_neg at hv
    rw [allPositions_eq_loop fset x hv.1 hv.2]
    simp only [ToPos] at hne hdiff
    obtain ⟨k, hk1, hk2, hk3, hk4⟩ :=
      exists_adjacent_break (fun (n : Nat) => (fset (x.pos + (n : Int))).File)
        (i - x.pos).toNat ((j - i).toNat - 1)
        (by
          simp only
          rw [show x.pos + (((i - x.pos).toNat : Nat) : Int) = i by omega]
          exact hne)
        (by
          simp only
          rw [show x.pos + (((i - x.pos).toNat + ((j - i).toNat - 1) + 1 : Nat) : Int) = j by omega,
            show x.pos + (((i - x.pos).toNat : Nat) : Int) = i by omega]
          exact hdiff)
    have hk3' : (fset (x.pos + (k : Int))).File ≠ "" := hk3
    have hk4' : (fset (x.pos + ((k + 1 : Nat) : Int))).File ≠ (fset (x.pos + (k : Int))).File :=
      hk4
    apply allPositionsLoop_adjacent fset _ x.pos _ _ k (by omega) hk3'
    rw [show x.pos + (k : Int) + 1 = x.pos + ((k + 1 : Nat) : Int) by push_cast; ring]
    exact hk4'

/-- C10, witness: in `f.go` followed by `g.go` the span from line 1 to the other file is
empty. -/
theorem allPositions_empty_witness :
    allPositions (fun p => if p < 20 then Pos.mk "f.go" 1 else Pos.mk "g.go" 1)
      (some (Node.mk 10 30)) = [] :=
  allPositions_empty _ _ (Or.inr (Or.inr ⟨10, 20, by decide, by decide, by decide,
    by decide, by decide⟩))

/-- C10, counterexample: offsets 1 and 2 map to the different files `""` and `a.go`, and
`all_positions` of the node `[1, 3)` returns both positions instead of nothing. -/
theorem allPositions_cross_file_counterexample :
    (ToPos fsetDirective 1).File ≠ (ToPos fsetDirective 2).File ∧
    allPositions fsetDirective (some (Node.mk 1 3)) = [Pos.mk "" 7, Pos.mk "a.go" 1] := by
  decide

/-- C9, witness: the node `[10, 45)` of `f.go`, ten bytes per line, covers lines 1 to 4. -/
theorem allPositions_spec_witness :
    allPositions fsetTenPerLine (some (Node.mk 10 45))
        = collapseRepeats (offsetPositions fsetTenPerLine (Node.mk 10 45)) ∧
    (allPositions fsetTenPerLine (some (Node.mk 10 45))).Nodup ∧
    (allPositions fsetTenPerLine (some (Node.mk 10 45))).Pairwise (fun a b => a.Line < b.Line) ∧
    (allPositions fsetTenPerLine (some (Node.mk 10 45))).head? = some (Pos.mk "f.go" 1) ∧
    Pos.mk "f.go" 4 ∈ allPositions fsetTenPerLine (some (Node.mk 10 45)) :=
  have h := allPositions_spec fsetTenPerLine (Node.mk 10 45) "f.go" (by decide) (by decide)
    (by decide) (fun _ _ _ => rfl) (by decide)
  have h2 := h.2 (fun p q _ hpq _ => Int.ediv_le_ediv (by decide) hpq)
  ⟨h.1, h2.1, h2.2.1, h2.2.2.1, h2.2.2.2 40 (by decide) (by decide)⟩

/-! ## Invariants of the walker -/

theorem pres_foldl_addsucc {P : Successors → Prop} {X : Pos → Prop} (hP : Preserved P X)
    (cs pos : List Pos) (s : Successors) (h : P s) :
    P (cs.foldl (fun t c => addsucc t c pos) s) := by
  induction cs generalizing s with
  | nil => exact h
  | cons c cs ih => exact ih _ (hP.onAddsucc s c pos h)

theorem pres_cont {P : Successors → Prop} {X : Pos → Prop} (hP : Preserved P X)
    (s : Successors) (b : Bool) (ps : List Pos) (h : P s) : P (cont s b ps) := by
  unfold cont
  apply hP.onCurpos
  apply pres_foldl_addsucc hP
  cases b
  · exact h
  · exact hP.onSetGroup _ _ h

theorem pres_alsoCont {P : Successors → Prop} {X : Pos → Prop} (hP : Preserved P X)
    (s : Successors) (b : Bool) (ps : List Pos) (h : P s) : P (alsoCont s b ps) := by
  unfold alsoCont
  apply hP.onCurpos
  apply pres_foldl_addsucc hP
  cases b
  · exact h
  · exact hP.onSetGroup _ _ h

theorem pres_quasiAcceptableCont {P : Successors → Prop} {X : Pos → Prop}
    (hP : Preserved P X) (s : Successors) (ps : List Pos) (h : P s) :
    P (quasiAcceptableCont s ps) := by
  unfold quasiAcceptableCont
  generalize s.curpos = cs
  induction cs generalizing s with
  | nil => exact h
  | cons c cs ih => exact ih _ (hP.onAddqsucc s c ps h)

theorem pres_contAny {P : Successors → Prop} {X : Pos → Prop} (hP : Preserved P X)
    (s : Successors) (h : P s) : P (contAny s) := by
  unfold contAny
  generalize s.curpos = cs
  induction cs generalizing s with
  | nil => exact h
  | cons c cs ih => exact ih _ (hP.onSetAny s c h)

theorem pres_bumpGroup {P : Successors → Prop} {X : Pos → Prop} (hP : Preserved P X)
    (s : Successors) (h : P s) : P (bumpGroup s) :=
  hP.onCurgroup s _ h

theorem pres_contNonEmpty {P : Successors → Prop} {X : Pos → Prop} (hP : Preserved P X)
    (s : Successors) (b : Bool) (ps : List Pos) (h : P s) : P (contNonEmpty s b ps) := by
  unfold contNonEmpty
  split
  · exact pres_cont hP s b ps h
  · exact h

theorem pres_findSuccExpr {P : Successors → Prop} {X : Pos → Prop} (hP : Preserved P X)
    (fset : FileSet) (s : Successors) (x : Node) (h : P s) : P (findSuccExpr fset s x) := by
  unfold findSuccExpr
  apply pres_cont hP
  generalize hps : allPositions fset (some x) = ps
  have : ∀ (l : List Pos) (t : Successors), P t → P (l.foldl (fun t pos => addsucc t pos ps) t) := by
    intro l
    induction l with
    | nil => intro t ht; exact ht
    | cons a l ih => intro t ht; exact ih _ (hP.onAddsucc t a ps ht)
  exact this ps s h

theorem pres_findSuccReturn {P : Successors → Prop} {X : Pos → Prop} (hP : Preserved P X)
    (fset : FileSet) (s : Successors) (x : Node) (h : P s) : P (findSuccReturn fset s x) := by
  unfold findSuccReturn
  apply pres_cont hP
  generalize allPositions fset (some x) ++ [s.curfnend, sentinel] = ps
  have : ∀ (l : List Pos) (t : Successors), P t → P (l.foldl (fun t pos => addsucc t pos ps) t) := by
    intro l
    induction l with
    | nil => intro t ht; exact ht
    | cons a l ih => intro t ht; exact ih _ (hP.onAddsucc t a ps ht)
  exact this ps _ (hP.onAddsucc s _ ps h)

theorem pres_bodyOpen {P : Successors → Prop} {X : Pos → Prop} (hP : Preserved P X)
    (fset : FileSet) (lbrace : Int) (s : Successors) (h : P s) : P (bodyOpen fset lbrace s) :=
  pres_alsoCont hP _ _ _ (pres_bumpGroup hP s h)

theorem pres_bodyClose {P : Successors → Prop} {X : Pos → Prop} (hP : Preserved P X)
    (fset : FileSet) (rbrace : Int) (s : Successors) (h : P s) : P (bodyClose fset rbrace s) :=
  pres_bumpGroup hP _ (pres_alsoCont hP _ _ _ h)

theorem pres_switchHeader {P : Successors → Prop} {X : Pos → Prop} (hP : Preserved P X)
    (fset : FileSet) (key : Int) (init tag : Option Node) (s : Successors) (h : P s) :
    P (switchHeader fset key init tag s) :=
  pres_cont hP _ _ _ (pres_contNonEmpty hP _ _ _ (pres_bumpGroup hP s h))

theorem pres_clauseHeaderLoop_aux {P : Successors → Prop} {X : Pos → Prop}
    (hP : Preserved P X) (fset : FileSet) (hdr : List (Option Node)) (t : Successors)
    (h : P t) :
    P (hdr.foldl (fun t x =>
      { setGroup t (allPositions fset x) with
        curpos := (setGroup t (allPositions fset x)).curpos ++ allPositions fset x }) t) := by
  induction hdr generalizing t with
  | nil => exact h
  | cons x hdr ih => exact ih _ (hP.onCurpos _ _ (hP.onSetGroup _ _ h))

theorem pres_clauseHeaderLoop {P : Successors → Prop} {X : Pos → Prop} (hP : Preserved P X)
    (fset : FileSet) (s : Successors) (hdr : List (Option Node)) (h : P s) :
    P (clauseHeaderLoop fset s hdr) :=
  pres_clauseHeaderLoop_aux hP fset hdr _ (hP.onCurpos s [] h)

theorem pres_clauseEnter {P : Successors → Prop} {X : Pos → Prop} (hP : Preserved P X)
    (fset : FileSet) (assign : Option Node) (s : Successors) (hdr : List (Option Node))
    (stmtPos : Int) (h : P s) : P (clauseEnter fset assign s hdr stmtPos).1 := by
  have h3 : P { setGroup (clauseHeaderLoop fset s hdr) [ToPos fset stmtPos] with
      curpos := (setGroup (clauseHeaderLoop fset s hdr) [ToPos fset stmtPos]).curpos
        ++ [ToPos fset stmtPos] } :=
    hP.onCurpos _ _ (hP.onSetGroup _ _ (pres_clauseHeaderLoop hP fset s hdr h))
  unfold clauseEnter
  cases assign with
  | none => exact h3
  | some a => exact pres_cont hP _ _ _ h3

theorem pres_clauseFinalLoop {P : Successors → Prop} {X : Pos → Prop} (hP : Preserved P X)
    (s : Successors) (groupHeader : Nat) (clausePositions tagPositions : List Pos)
    (hX : ∀ p ∈ clausePositions, X p) (h : P s) :
    P (clauseFinalLoop s groupHeader clausePositions tagPositions) := by
  unfold clauseFinalLoop
  have : ∀ (l : List Pos) (t : Successors), (∀ p ∈ l, X p) → P t →
      P (l.foldl (fun t pos =>
        addqsucc (addsucc { t with G := mapSet t.G pos groupHeader } pos clausePositions)
          pos tagPositions) t) := by
    intro l
    induction l with
    | nil => intro t _ ht; exact ht
    | cons a l ih =>
      intro t hl ht
      exact ih _ (fun p hp => hl p (List.mem_cons_of_mem _ hp))
        (hP.onAddqsucc _ _ _ (hP.onAddsucc _ _ _
          (hP.onWriteG t a groupHeader (hl a (List.mem_cons_self _ _)) ht)))
  exact this clausePositions s hX h

theorem pres_switchFinish {P : Successors → Prop} {X : Pos → Prop} (hP : Preserved P X)
    (fset : FileSet) (key : Int) (tag : Option Node) (rbrace : Int) (h : Successors)
    (r : Successors × List Pos × List Pos) (hX : ∀ p ∈ r.2.1, X p) (hr : P r.1) :
    P (switchFinish fset key tag rbrace h r) := by
  unfold switchFinish
  apply hP.onCurpos
  apply pres_alsoCont hP
  apply pres_alsoCont hP
  apply hP.onCurpos
  exact pres_clauseFinalLoop hP _ _ _ _ hX hr

theorem setGroup_curpos (s : Successors) (vpos : List Pos) :
    (setGroup s vpos).curpos = s.curpos := by
  rw [setGroup_eq]

theorem clauseHeaderLoop_curpos_aux (fset : FileSet) (hdr : List (Option Node))
    (t : Successors) :
    (hdr.foldl (fun t x =>
      { setGroup t (allPositions fset x) with
        curpos := (setGroup t (allPositions fset x)).curpos ++ allPositions fset x }) t).curpos
      = hdr.foldl (fun acc x => acc ++ allPositions fset x) t.curpos := by
  induction hdr generalizing t with
  | nil => rfl
  | cons x hdr ih =>
    rw [List.foldl_cons, List.foldl_cons, ih]
    simp only [setGroup_curpos]

theorem clauseEnter_snd (fset : FileSet) (assign : Option Node) (s : Successors)
    (hdr : List (Option Node)) (stmtPos : Int) :
    (clauseEnter fset assign s hdr stmtPos).2 = clauseHeadPositions fset hdr stmtPos := by
  show (setGroup (clauseHeaderLoop fset s hdr) [ToPos fset stmtPos]).curpos
      ++ [ToPos fset stmtPos] = _
  rw [setGroup_curpos]
  unfold clauseHeaderLoop
  rw [clauseHeaderLoop_curpos_aux]
  rfl

theorem findSuccClauses_clausePositions (fset : FileSet) (assign : Option Node) (rbrace : Int)
    (tagPositions : List Pos) (clauses : List Clause) (cp cb : List Pos) (s : Successors) :
    (findSuccClauses fset assign rbrace tagPositions clauses cp cb s).2.1
      = cp ++ clausePositionsOf fset clauses := by
  induction clauses generalizing cp cb s with
  | nil => simp [findSuccClauses, clausePositionsOf]
  | cons c rest ih =>
    cases c with
    | CaseClause Case Exprs Colon Body =>
      rw [findSuccClauses]
      simp only [ih, clauseEnter_snd, clausePositionsOf, List.append_assoc]
    | CommClause Case Comm Colon Body =>
      rw [findSuccClauses]
      simp only [ih, clauseEnter_snd, clausePositionsOf, List.append_assoc]

theorem clausePositionsOf_subset (fset : FileSet) (clauses : List Clause) (p : Pos)
    (h : p ∈ clausePositionsOf fset clauses) : p ∈ clausesClausePos fset clauses := by
  induction clauses with
  | nil => simp [clausePositionsOf] at h
  | cons c rest ih =>
    cases c with
    | CaseClause Case Exprs Colon Body =>
      rw [clausePositionsOf, List.mem_append] at h
      rw [clausesClausePos]
      simp only [List.mem_append]
      rcases h with h | h
      · exact Or.inl (Or.inl h)
      · exact Or.inr (ih h)
    | CommClause Case Comm Colon Body =>
      rw [clausePositionsOf, List.mem_append] at h
      rw [clausesClausePos]
      simp only [List.mem_append]
      rcases h with h | h
      · exact Or.inl (Or.inl h)
      · exact Or.inr (ih h)

mutual
/-- The statement walker preserves every predicate that the elementary updates preserve,
provided the clause positions of the switches it walks are in `X`. -/
theorem pres_findSuccStmt {P : Successors → Prop} {X : Pos → Prop} (hP : Preserved P X)
    (fset : FileSet) :
    ∀ (stmt : Stmt) (s : Successors), (∀ p ∈ stmtClausePos fset stmt, X p) → P s →
      P (findSuccStmt fset stmt s)
  | .DeclStmt Tok Specs, s, _, h => by
    rw [findSuccStmt]
    split
    · have : ∀ (l : List Node) (t : Successors), P t →
          P (l.foldl (fun t spec => cont t true (allPositions fset (some spec))) t) := by
        intro l
        induction l with
        | nil => intro t ht; exact ht
        | cons a l ih => intro t ht; exact ih _ (pres_cont hP _ _ _ ht)
      exact this Specs s h
    · exact h
  | .GoStmt x, s, _, h => by rw [findSuccStmt]; exact pres_cont hP _ _ _ h
  | .SendStmt x, s, _, h => by rw [findSuccStmt]; exact pres_cont hP _ _ _ h
  | .DeferStmt x, s, _, h => by
    rw [findSuccStmt]; exact pres_alsoCont hP _ _ _ (pres_cont hP _ _ _ h)
  | .EmptyStmt, s, _, h => by rw [findSuccStmt]; exact h
  | .ExprStmt x, s, _, h => by rw [findSuccStmt]; exact pres_findSuccExpr hP fset s x h
  | .AssignStmt x, s, _, h => by rw [findSuccStmt]; exact pres_findSuccExpr hP fset s x h
  | .IncDecStmt x, s, _, h => by rw [findSuccStmt]; exact pres_findSuccExpr hP fset s x h
  | .ForStmt For Init Cond Post Lbrace Rbrace Body, s, hX, h => by
    rw [findSuccStmt]
    apply pres_bumpGroup hP
    apply pres_alsoCont hP
    apply pres_alsoCont hP
    apply pres_contNonEmpty hP
    apply pres_bodyClose hP
    apply pres_findSuccStmts hP fset Body _ (by rw [stmtClausePos] at hX; exact hX)
    apply pres_bodyOpen hP
    apply hP.onSetGroup
    apply pres_cont hP
    apply pres_contNonEmpty hP
    exact pres_bumpGroup hP s h
  | .RangeStmt For X' Lbrace Rbrace Body, s, hX, h => by
    rw [findSuccStmt]
    apply pres_alsoCont hP
    apply pres_bodyClose hP
    apply pres_findSuccStmts hP fset Body _ (by rw [stmtClausePos] at hX; exact hX)
    apply pres_bodyOpen hP
    apply pres_cont hP
    apply hP.onSetGroup
    exact pres_bumpGroup hP s h
  | .IfStmt x, s, hX, h => by
    rw [findSuccStmt]
    exact pres_findSuccIfLoop hP fset x _ _ _ _ (by rw [stmtClausePos] at hX; exact hX)
      (pres_bumpGroup hP s h)
  | .LabeledStmt Colon st, s, hX, h => by
    rw [findSuccStmt]
    exact pres_findSuccStmt hP fset st _ (by rw [stmtClausePos] at hX; exact hX)
      (pres_alsoCont hP _ _ _ h)
  | .SelectStmt Select Rbrace Clauses, s, hX, h => by
    rw [findSuccStmt]
    rw [stmtClausePos] at hX
    apply pres_switchFinish hP
    · intro p hp
      rw [findSuccClauses_clausePositions] at hp
      exact hX p (clausePositionsOf_subset fset Clauses p (by simpa using hp))
    · exact pres_findSuccClauses hP fset _ _ _ Clauses _ _ _ hX (pres_switchHeader hP _ _ _ _ s h)
  | .SwitchStmt Switch Init Tag Rbrace Clauses, s, hX, h => by
    rw [findSuccStmt]
    rw [stmtClausePos] at hX
    apply pres_switchFinish hP
    · intro p hp
      rw [findSuccClauses_clausePositions] at hp
      exact hX p (clausePositionsOf_subset fset Clauses p (by simpa using hp))
    · exact pres_findSuccClauses hP fset _ _ _ Clauses _ _ _ hX (pres_switchHeader hP _ _ _ _ s h)
  | .TypeSwitchStmt Switch Init Assign Rbrace Clauses, s, hX, h => by
    rw [findSuccStmt]
    rw [stmtClausePos] at hX
    apply pres_switchFinish hP
    · intro p hp
      rw [findSuccClauses_clausePositions] at hp
      exact hX p (clausePositionsOf_subset fset Clauses p (by simpa using hp))
    · exact pres_findSuccClauses hP fset _ _ _ Clauses _ _ _ hX (pres_switchHeader hP _ _ _ _ s h)
  | .BranchStmt x, s, _, h => by
    rw [findSuccStmt]; exact pres_contAny hP _ (pres_cont hP _ _ _ h)
  | .ReturnStmt x, s, _, h => by rw [findSuccStmt]; exact pres_findSuccReturn hP fset s x h
  | .Unknown x, s, _, h => by rw [findSuccStmt]; exact h
/-- The statement loop of a body preserves such a predicate. -/
theorem pres_findSuccStmts {P : Successors → Prop} {X : Pos → Prop} (hP : Preserved P X)
    (fset : FileSet) :
    ∀ (list : List Stmt) (s : Successors), (∀ p ∈ stmtsClausePos fset list, X p) → P s →
      P (findSuccStmts fset list s)
  | [], s, _, h => by rw [findSuccStmts]; exact h
  | stmt :: list, s, hX, h => by
    rw [findSuccStmts]
    rw [stmtsClausePos] at hX
    exact pres_findSuccStmts hP fset list _
      (fun p hp => hX p (List.mem_append_right _ hp))
      (pres_findSuccStmt hP fset stmt s (fun p hp => hX p (List.mem_append_left _ hp)) h)
/-- The loop of `findSuccIf` preserves such a predicate. -/
theorem pres_findSuccIfLoop {P : Successors → Prop} {X : Pos → Prop} (hP : Preserved P X)
    (fset : FileSet) :
    ∀ (x : IfChain) (hp lic cb : List Pos) (s : Successors),
      (∀ p ∈ ifClausePos fset x, X p) → P s → P (findSuccIfLoop fset x hp lic cb s)
  | .nil, hp, lic, cb, s, _, h => by rw [findSuccIfLoop]; exact hP.onCurpos _ _ h
  | .If Init Cond Lbrace Rbrace Body Else, hp, lic, cb, s, hX, h => by
    rw [findSuccIfLoop]
    rw [ifClausePos] at hX
    apply pres_findSuccIfLoop hP fset Else _ _ _ _
      (fun p hp => hX p (List.mem_append_right _ hp))
    apply hP.onCurpos
    apply pres_quasiAcceptableCont hP
    apply pres_bodyClose hP
    apply pres_findSuccStmts hP fset Body _ (fun p hp => hX p (List.mem_append_left _ hp))
    apply pres_bodyOpen hP
    apply pres_cont hP
    exact pres_contNonEmpty hP _ _ _ h
  | .Block Lbrace Rbrace Body, hp, lic, cb, s, hX, h => by
    rw [findSuccIfLoop]
    rw [ifClausePos] at hX
    apply hP.onCurpos
    apply hP.onCurpos
    apply pres_quasiAcceptableCont hP
    apply pres_bodyClose hP
    apply pres_findSuccStmts hP fset Body _ hX
    exact pres_bodyOpen hP _ _ _ h
/-- The clause loop of `findSuccSwitch` preserves such a predicate. -/
theorem pres_findSuccClauses {P : Successors → Prop} {X : Pos → Prop} (hP : Preserved P X)
    (fset : FileSet) (assign : Option Node) (rbrace : Int) (tagPositions : List Pos) :
    ∀ (clauses : List Clause) (cp cb : List Pos) (s : Successors),
      (∀ p ∈ clausesClausePos fset clauses, X p) → P s →
      P (findSuccClauses fset assign rbrace tagPositions clauses cp cb s).1
  | [], cp, cb, s, _, h => by rw [findSuccClauses]; exact h
  | .CaseClause Case Exprs Colon Body :: rest, cp, cb, s, hX, h => by
    rw [findSuccClauses]
    rw [clausesClausePos] at hX
    apply pres_findSuccClauses hP fset assign rbrace tagPositions rest _ _ _
      (fun p hp => hX p (List.mem_append_right _ hp))
    apply pres_quasiAcceptableCont hP
    apply pres_bodyClose hP
    apply pres_findSuccStmts hP fset Body _
      (fun p hp => hX p (List.mem_append_left _ (List.mem_append_right _ hp)))
    apply pres_bodyOpen hP
    exact pres_clauseEnter hP _ _ _ _ _ h
  | .CommClause Case Comm Colon Body :: rest, cp, cb, s, hX, h => by
    rw [findSuccClauses]
    rw [clausesClausePos] at hX
    apply pres_findSuccClauses hP fset assign rbrace tagPositions rest _ _ _
      (fun p hp => hX p (List.mem_append_right _ hp))
    apply pres_quasiAcceptableCont hP
    apply pres_bodyClose hP
    apply pres_findSuccStmts hP fset Body _
      (fun p hp => hX p (List.mem_append_left _ (List.mem_append_right _ hp)))
    apply pres_bodyOpen hP
    exact pres_clauseEnter hP _ _ _ _ _ h
end

/-! ## Self-loop freedom and group stability (C5, C6) -/

theorem selfLoopFree_addsucc (s : Successors) (c : Pos) (v : List Pos) (h : SelfLoopFree s) :
    SelfLoopFree (addsucc s c v) := by
  intro p
  refine ⟨?_, (h p).2⟩
  show (tableGet (mapSet s.S c (addToSet (tableGet s.S c) c v)) p).Contains p = false
  rw [tableGet_mapSet]
  by_cases hp : p = c
  · subst hp
    rw [if_pos rfl, addToSet_Contains, (h p).1]
    simp
  · rw [if_neg hp]
    exact (h p).1

theorem selfLoopFree_addqsucc (s : Successors) (c : Pos) (v : List Pos) (h : SelfLoopFree s) :
    SelfLoopFree (addqsucc s c v) := by
  intro p
  refine ⟨(h p).1, ?_⟩
  show (tableGet (mapSet s.Sq c (addToSet (tableGet s.Sq c) c v)) p).Contains p = false
  rw [tableGet_mapSet]
  by_cases hp : p = c
  · subst hp
    rw [if_pos rfl, addToSet_Contains, (h p).2]
    simp
  · rw [if_neg hp]
    exact (h p).2

theorem selfLoopFree_preserved : Preserved SelfLoopFree (fun _ => True) where
  onAddsucc := selfLoopFree_addsucc
  onAddqsucc := selfLoopFree_addqsucc
  onSetGroup := fun s v h => by rw [setGroup_eq]; exact h
  onWriteG := fun _ _ _ _ h => h
  onSetAny := fun s c h => by
    intro p
    refine ⟨?_, (h p).2⟩
    show (tableGet (mapSet s.S c (PosSet.mk none true)) p).Contains p = false
    rw [tableGet_mapSet]
    by_cases hp : p = c
    · rw [if_pos hp]; rfl
    · rw [if_neg hp]; exact (h p).1
  onCurpos := fun _ _ h => h
  onCurgroup := fun _ _ h => h
  onCurfnend := fun _ _ h => h

theorem pres_findSuccBody {P : Successors → Prop} {X : Pos → Prop} (hP : Preserved P X)
    (fset : FileSet) (lbrace rbrace : Int) (list : List Stmt) (s : Successors)
    (hX : ∀ p ∈ stmtsClausePos fset list, X p) (h : P s) :
    P (findSuccBody fset lbrace rbrace list s) :=
  pres_bodyClose hP _ _ _ (pres_findSuccStmts hP fset list _ hX (pres_bodyOpen hP _ _ _ h))

theorem pres_findSuccSwitch {P : Successors → Prop} {X : Pos → Prop} (hP : Preserved P X)
    (fset : FileSet) (key : Int) (init tag assign : Option Node) (rbrace : Int)
    (clauses : List Clause) (s : Successors)
    (hX : ∀ p ∈ clausesClausePos fset clauses, X p) (h : P s) :
    P (findSuccSwitch fset key init tag assign rbrace clauses s) := by
  unfold findSuccSwitch
  apply pres_switchFinish hP
  · intro p hp
    rw [findSuccClauses_clausePositions] at hp
    exact hX p (clausePositionsOf_subset fset clauses p (by simpa using hp))
  · exact pres_findSuccClauses hP fset _ _ _ clauses _ _ _ hX (pres_switchHeader hP _ _ _ _ s h)

theorem pres_findSuccFunc {P : Successors → Prop} {X : Pos → Prop} (hP : Preserved P X)
    (fset : FileSet) (s : Successors) (pos end_ lbrace rbrace : Int) (body : List Stmt)
    (hX : ∀ p ∈ stmtsClausePos fset body, X p) (h : P s) :
    P (findSuccFunc fset s pos end_ lbrace rbrace body) := by
  unfold findSuccFunc
  apply hP.onCurgroup
  apply pres_cont hP
  apply pres_findSuccBody hP fset _ _ _ _ hX
  apply hP.onSetGroup
  apply hP.onCurfnend
  exact hP.onCurpos _ _ h

/-- C5: self-loop freedom is an invariant of the engine.  In every state reached from empty
`S` and `Sq` tables by any sequence of cursor primitives, statement-walker recipes (the
switch recipe with its direct writes included) and function-driver runs, no position `p`
is a member of `S[p]` or of `Sq[p]`, membership being the test `PosSet.Contains`. -/
theorem reachable_selfLoopFree (fset : FileSet) (s : Successors) (h : Reachable fset s) :
    ∀ p, (tableGet s.S p).Contains p = false ∧ (tableGet s.Sq p).Contains p = false := by
  have hP := selfLoopFree_preserved
  have key : SelfLoopFree s := by
    induction h with
    | init s hS hSq =>
      intro p
      rw [hS, hSq]
      exact ⟨rfl, rfl⟩
    | cont s b ps _ ih => exact pres_cont hP s b ps ih
    | alsoCont s b ps _ ih => exact pres_alsoCont hP s b ps ih
    | quasiAcceptableCont s ps _ ih => exact pres_quasiAcceptableCont hP s ps ih
    | contAny s _ ih => exact pres_contAny hP s ih
    | setGroup s ps _ ih => exact hP.onSetGroup s ps ih
    | restore s saved _ ih => exact hP.onCurpos s saved ih
    | stmt s st _ ih => exact pres_findSuccStmt hP fset st s (fun _ _ => trivial) ih
    | body s lb rb list _ ih =>
      exact pres_findSuccBody hP fset lb rb list s (fun _ _ => trivial) ih
    | ifChain s x _ ih =>
      exact pres_findSuccIfLoop hP fset x _ _ _ _ (fun _ _ => trivial) (pres_bumpGroup hP s ih)
    | switch s key init tag assign rb cl _ ih =>
      exact pres_findSuccSwitch hP fset key init tag assign rb cl s (fun _ _ => trivial) ih
    | func s pos e lb rb bd _ ih =>
      exact pres_findSuccFunc hP fset s pos e lb rb bd (fun _ _ => trivial) ih
  exact key

/-- C5, witness: after the switch on lines 2 to 5 is walked inside a function body, line 3
is in neither `S` nor `Sq` of line 3. -/
theorem reachable_selfLoopFree_witness :
    (tableGet (findSuccStmt fsetTenPerLine switchOnLinesTwoToFive stateInBody).S
        (Pos.mk "f.go" 3)).Contains (Pos.mk "f.go" 3) = false ∧
    (tableGet (findSuccStmt fsetTenPerLine switchOnLinesTwoToFive stateInBody).Sq
        (Pos.mk "f.go" 3)).Contains (Pos.mk "f.go" 3) = false :=
  reachable_selfLoopFree fsetTenPerLine _
    (Reachable.stmt _ switchOnLinesTwoToFive
      (Reachable.alsoCont _ true _
        (Reachable.init _ rfl rfl))) (Pos.mk "f.go" 3)

theorem groupKept_preserved (p : Pos) (g : Nat) :
    Preserved (fun t => mapGet t.G p = some g) (fun q => q ≠ p) where
  onAddsucc := fun _ _ _ h => h
  onAddqsucc := fun _ _ _ h => h
  onSetGroup := fun s v h => by
    rw [setGroup_eq]
    show mapGet (setGroupAll s.G s.curgroup v) p = some g
    rw [setGroupAll_mapGet, h]
  onWriteG := fun s q g' hq h => by
    show mapGet (mapSet s.G q g') p = some g
    rw [mapGet_mapSet_ne _ _ _ _ (fun e => hq e.symm)]
    exact h
  onSetAny := fun _ _ h => h
  onCurpos := fun _ _ h => h
  onCurgroup := fun _ _ h => h
  onCurfnend := fun _ _ h => h

/-- C6, as amended: a position `p` that has a group before a statement-walker operation
(any statement kind, or a whole body) keeps that value of `G[p]` across the operation,
provided `p` is not a clause position (a case-expression line or a clause-header line) of a
switch, select or type switch walked by the operation. -/
theorem group_stable (fset : FileSet) (s : Successors) (p : Pos) (g : Nat)
    (hg : mapGet s.G p = some g) :
    (∀ stmt, p ∉ stmtClausePos fset stmt → mapGet (findSuccStmt fset stmt s).G p = some g) ∧
    (∀ lbrace rbrace list, p ∉ stmtsClausePos fset list →
      mapGet (findSuccBody fset lbrace rbrace list s).G p = some g) := by
  constructor
  · intro stmt hp
    exact pres_findSuccStmt (groupKept_preserved p g) fset stmt s
      (fun q hq e => hp (e ▸ hq)) hg
  · intro lbrace rbrace list hp
    exact pres_findSuccBody (groupKept_preserved p g) fset lbrace rbrace list s
      (fun q hq e => hp (e ▸ hq)) hg

/-- C6, witness: line 1 keeps group 0 while the switch on lines 2 to 5 is walked. -/
theorem group_stable_witness :
    mapGet stateInBody.G (Pos.mk "f.go" 1) = some 0 ∧
    mapGet (findSuccStmt fsetTenPerLine switchOnLinesTwoToFive stateInBody).G (Pos.mk "f.go" 1)
      = some 0 :=
  ⟨by decide, (group_stable fsetTenPerLine stateInBody (Pos.mk "f.go" 1) 0 (by decide)).1
    switchOnLinesTwoToFive (by decide)⟩

/-- C6, counterexample: line 1 has group 0 before `switch x { case 1: }` written on that
same line is walked, and group 2 (the switch's header group) afterwards. -/
theorem group_overwritten_counterexample :
    mapGet stateInBody.G (Pos.mk "f.go" 1) = some 0 ∧
    mapGet (findSuccStmt fsetTenPerLine switchOnLineOne stateInBody).G (Pos.mk "f.go" 1)
      = some 2 := by
  decide

/-! ## `Any` sets (C7, C8) -/

/-- C7, as amended: for every position `c` to which `cont_any` has been applied and every
`q`, the test that `checkTransition` applies to `S[c]`, `Contains(S[c], q) || S[c].Any`,
is true; `PosSet.Contains(S[c], q)` itself is false, the `Set` of such an entry being nil. -/
theorem contAny_accepts (s : Successors) (c q : Pos) (hc : c ∈ s.curpos) :
    acceptsSuccessor (tableGet (contAny s).S c) q = true ∧
    (tableGet (contAny s).S c).Contains q = false := by
  have h : tableGet (contAny s).S c = PosSet.mk none true := by
    unfold tableGet
    rw [contAny_eq]
    show (mapGet (s.curpos.foldl (fun m c => mapSet m c (PosSet.mk none true)) s.S) c).getD _ = _
    rw [foldl_setAny_mapGet, if_pos hc]
    rfl
  rw [h]
  exact ⟨rfl, rfl⟩

/-- C7, witness: line 1 after `cont_any` with cursor `[line 1]`, asked about line 2. -/
theorem contAny_accepts_witness :
    acceptsSuccessor (tableGet (contAny stateAtLineOne).S (Pos.mk "f.go" 1)) (Pos.mk "f.go" 2)
      = true ∧
    (tableGet (contAny stateAtLineOne).S (Pos.mk "f.go" 1)).Contains (Pos.mk "f.go" 2) = false :=
  contAny_accepts stateAtLineOne (Pos.mk "f.go" 1) (Pos.mk "f.go" 2) (by decide)

/-- C7, counterexample: after `cont_any` with cursor `[line 1]`, `S[line 1]` is `Any` and
`PosSet.Contains(S[line 1], line 2)` returns false. -/
theorem contains_any_counterexample :
    (tableGet (contAny stateAtLineOne).S (Pos.mk "f.go" 1)).Any = true ∧
    (tableGet (contAny stateAtLineOne).S (Pos.mk "f.go" 1)).Contains (Pos.mk "f.go" 2)
      = false := by
  decide

/-- C8, as amended: when `S[c]` is `Any`, adding `ps` as successors of `c` (`addsucc`, hence
`cont` and `also_cont` with `c` in the cursor) keeps the `Any` flag of `S[c]`, so every `q`
is still accepted by `Contains(S[c], q) || S[c].Any`; the `Set` of `S[c]` does take the
insertion: afterwards `Contains(S[c], q)` holds exactly for the old members and for every
`q` in `ps` with `q != c`. -/
theorem addsucc_any (s : Successors) (c : Pos) (ps : List Pos)
    (hany : (tableGet s.S c).Any = true) :
    (tableGet (addsucc s c ps).S c).Any = true ∧
    (∀ q, acceptsSuccessor (tableGet (addsucc s c ps).S c) q = true) ∧
    (∀ q, (tableGet (addsucc s c ps).S c).Contains q
      = ((tableGet s.S c).Contains q || decide (q ∈ ps ∧ q ≠ c))) ∧
    (∀ b, (tableGet (cont s b ps).S c).Any = true) ∧
    (∀ b, (tableGet (alsoCont s b ps).S c).Any = true) := by
  have h : tableGet (addsucc s c ps).S c = addToSet (tableGet s.S c) c ps := by
    show tableGet (mapSet s.S c (addToSet (tableGet s.S c) c ps)) c = _
    rw [tableGet_mapSet, if_pos rfl]
  have h1 : (tableGet (addsucc s c ps).S c).Any = true := by
    rw [h, addToSet_Any]; exact hany
  refine ⟨h1, ?_, ?_, ?_, ?_⟩
  · intro q
    unfold acceptsSuccessor
    rw [h1, Bool.or_true]
  · intro q
    rw [h, addToSet_Contains]
  · intro b
    rw [cont_eq]
    show (tableGet (addAll s.S s.curpos ps) c).Any = true
    rw [addAll_Any]; exact hany
  · intro b
    rw [alsoCont_eq]
    show (tableGet (addAll s.S s.curpos ps) c).Any = true
    rw [addAll_Any]; exact hany

/-- C8, witness: line 2 added to the `Any` entry of line 1. -/
theorem addsucc_any_witness :
    (tableGet (addsucc (contAny stateAtLineOne) (Pos.mk "f.go" 1) [Pos.mk "f.go" 2]).S
      (Pos.mk "f.go" 1)).Any = true :=
  (addsucc_any (contAny stateAtLineOne) (Pos.mk "f.go" 1) [Pos.mk "f.go" 2] (by decide)).1

/-- C8, counterexample: `S[line 1]` is `Any` with a nil `Set`; after `addsucc(line 1, line 2)`
it is a different value, whose `Set` contains line 2. -/
theorem addsucc_any_counterexample :
    tableGet (contAny stateAtLineOne).S (Pos.mk "f.go" 1) = PosSet.mk none true ∧
    tableGet (addsucc (contAny stateAtLineOne) (Pos.mk "f.go" 1) [Pos.mk "f.go" 2]).S
      (Pos.mk "f.go" 1) = PosSet.mk (some [(Pos.mk "f.go" 2, true)]) true ∧
    tableGet (addsucc (contAny stateAtLineOne) (Pos.mk "f.go" 1) [Pos.mk "f.go" 2]).S
      (Pos.mk "f.go" 1) ≠ tableGet (contAny stateAtLineOne).S (Pos.mk "f.go" 1) := by
  decide

/-! ## Membership after the primitives -/

theorem inS_cont (s : Successors) (b : Bool) (ps : List Pos) (c q : Pos) :
    inS (cont s b ps) c q
      = (inS s c q || (decide (c ∈ s.curpos) && decide (q ∈ ps ∧ q ≠ c))) := by
  rw [cont_eq]
  exact addAll_Contains _ _ _ _ _

theorem inS_alsoCont (s : Successors) (b : Bool) (ps : List Pos) (c q : Pos) :
    inS (alsoCont s b ps) c q
      = (inS s c q || (decide (c ∈ s.curpos) && decide (q ∈ ps ∧ q ≠ c))) := by
  rw [alsoCont_eq]
  exact addAll_Contains _ _ _ _ _

theorem inS_foldl_addsucc (s : Successors) (cs pos : List Pos) (c q : Pos) :
    inS (cs.foldl (fun t p => addsucc t p pos) s) c q
      = (inS s c q || (decide (c ∈ cs) && decide (q ∈ pos ∧ q ≠ c))) := by
  rw [foldl_addsucc_eq]
  exact addAll_Contains _ _ _ _ _

theorem inS_addsucc (s : Successors) (c' : Pos) (v : List Pos) (c q : Pos) :
    inS (addsucc s c' v) c q
      = (inS s c q || (decide (c = c') && decide (q ∈ v ∧ q ≠ c))) := by
  have h := inS_foldl_addsucc s [c'] v c q
  simpa using h

theorem inS_contAny (s : Successors) (c q : Pos) :
    inS (contAny s) c q = if c ∈ s.curpos then false else inS s c q := by
  rw [contAny_eq]
  unfold inS tableGet
  show ((mapGet (s.curpos.foldl (fun m c => mapSet m c (PosSet.mk none true)) s.S) c).getD
    (PosSet.mk none false)).Contains q = _
  rw [foldl_setAny_mapGet]
  by_cases h : c ∈ s.curpos
  · rw [if_pos h, if_pos h]; rfl
  · rw [if_neg h, if_neg h]

theorem inSq_addqsucc (s : Successors) (c' : Pos) (v : List Pos) (c q : Pos) :
    inSq (addqsucc s c' v) c q
      = (inSq s c q || (decide (c = c') && decide (q ∈ v ∧ q ≠ c))) := by
  have h2 := addAll_Contains s.Sq [c'] v c q
  have h3 : (addqsucc s c' v).Sq = addAll s.Sq [c'] v := rfl
  unfold inSq
  rw [h3, h2]
  simp

theorem cont_curpos (s : Successors) (b : Bool) (ps : List Pos) : (cont s b ps).curpos = ps := by
  rw [cont_eq]

theorem alsoCont_curpos (s : Successors) (b : Bool) (ps : List Pos) :
    (alsoCont s b ps).curpos = s.curpos ++ ps := by
  rw [alsoCont_eq]

theorem cont_curgroup (s : Successors) (b : Bool) (ps : List Pos) :
    (cont s b ps).curgroup = s.curgroup := by
  rw [cont_eq]

theorem cont_G_true (s : Successors) (ps : List Pos) :
    (cont s true ps).G = setGroupAll s.G s.curgroup ps := by
  rw [cont_eq]; rfl

theorem cont_G_false (s : Successors) (ps : List Pos) : (cont s false ps).G = s.G := by
  rw [cont_eq]; rfl

theorem alsoCont_G_true (s : Successors) (ps : List Pos) :
    (alsoCont s true ps).G = setGroupAll s.G s.curgroup ps := by
  rw [alsoCont_eq]; rfl

theorem alsoCont_G_false (s : Successors) (ps : List Pos) : (alsoCont s false ps).G = s.G := by
  rw [alsoCont_eq]; rfl

/-- After `setGroup`, every listed position has a group. -/
theorem setGroupAll_isSome (g : List (Pos × Nat)) (cur : Nat) (vpos : List Pos) (p : Pos)
    (hp : p ∈ vpos) : ∃ v, mapGet (setGroupAll g cur vpos) p = some v := by
  rw [setGroupAll_mapGet]
  cases h : mapGet g p with
  | some v => exact ⟨v, rfl⟩
  | none => exact ⟨cur, by simp [hp]⟩

theorem findSuccExpr_eq (fset : FileSet) (s : Successors) (x : Node) :
    findSuccExpr fset s x
      = cont { s with S := addAll s.S (allPositions fset (some x)) (allPositions fset (some x)) }
          true (allPositions fset (some x)) := by
  unfold findSuccExpr
  simp only [foldl_addsucc_eq]

theorem mem_allPositionsLoop (fset : FileSet) (n : Nat) (o : Int) (last : Pos) (r : List Pos)
    (p : Pos) (h : p ∈ allPositionsLoop fset n o last r) : p ∈ r ∨ ∃ k, p = ToPos fset k := by
  induction n generalizing o last r with
  | zero => exact Or.inl h
  | succ n ih =>
    rw [allPositionsLoop_succ] at h
    split at h
    · split at h
      · cases h
      · rcases ih _ _ _ h with h' | h'
        · rcases List.mem_append.1 h' with h'' | h''
          · exact Or.inl h''
          · exact Or.inr ⟨o, by simpa [ToPos] using h''⟩
        · exact Or.inr h'
    · exact ih _ _ _ h

/-- Every element of `allPositions` is the position of some offset. -/
theorem mem_allPositions (fset : FileSet) (x : Option Node) (p : Pos)
    (h : p ∈ allPositions fset x) : ∃ k, p = ToPos fset k := by
  unfold allPositions at h
  cases x with
  | none => cases h
  | some x =>
    simp only at h
    split at h
    · cases h
    · rcases mem_allPositionsLoop fset _ _ _ _ p h with h' | h'
      · cases h'
      · exact h'

theorem foldl_addsucc_curpos (s : Successors) (cs pos : List Pos) :
    (cs.foldl (fun t p => addsucc t p pos) s).curpos = s.curpos := by
  rw [foldl_addsucc_eq]

theorem foldl_addsucc_G (s : Successors) (cs pos : List Pos) :
    (cs.foldl (fun t p => addsucc t p pos) s).G = s.G := by
  rw [foldl_addsucc_eq]

theorem foldl_addsucc_curgroup (s : Successors) (cs pos : List Pos) :
    (cs.foldl (fun t p => addsucc t p pos) s).curgroup = s.curgroup := by
  rw [foldl_addsucc_eq]

theorem inS_findSuccExpr (fset : FileSet) (s : Successors) (x : Node) (c q : Pos) :
    inS (findSuccExpr fset s x) c q
      = ((inS s c q ||
          (decide (c ∈ allPositions fset (some x)) &&
            decide (q ∈ allPositions fset (some x) ∧ q ≠ c))) ||
        (decide (c ∈ s.curpos) && decide (q ∈ allPositions fset (some x) ∧ q ≠ c))) := by
  unfold findSuccExpr
  simp only []
  rw [inS_cont, inS_foldl_addsucc, foldl_addsucc_curpos]

theorem findSuccExpr_curpos (fset : FileSet) (s : Successors) (x : Node) :
    (findSuccExpr fset s x).curpos = allPositions fset (some x) := by
  unfold findSuccExpr
  exact cont_curpos _ _ _

theorem findSuccExpr_G (fset : FileSet) (s : Successors) (x : Node) :
    (findSuccExpr fset s x).G = setGroupAll s.G s.curgroup (allPositions fset (some x)) := by
  unfold findSuccExpr
  simp only []
  rw [cont_G_true, foldl_addsucc_G, foldl_addsucc_curgroup]

theorem inS_findSuccReturn (fset : FileSet) (s : Successors) (x : Node) (c q : Pos) :
    inS (findSuccReturn fset s x) c q
      = (((inS s c q ||
          (decide (c = s.curfnend) &&
            decide (q ∈ allPositions fset (some x) ++ [s.curfnend, sentinel] ∧ q ≠ c))) ||
          (decide (c ∈ allPositions fset (some x) ++ [s.curfnend, sentinel]) &&
            decide (q ∈ allPositions fset (some x) ++ [s.curfnend, sentinel] ∧ q ≠ c))) ||
        (decide (c ∈ s.curpos) &&
          decide (q ∈ allPositions fset (some x) ++ [s.curfnend, sentinel] ∧ q ≠ c))) := by
  unfold findSuccReturn
  simp only []
  rw [inS_cont, inS_foldl_addsucc, foldl_addsucc_curpos, inS_addsucc]
  rfl

theorem findSuccReturn_curpos (fset : FileSet) (s : Successors) (x : Node) :
    (findSuccReturn fset s x).curpos = allPositions fset (some x) ++ [s.curfnend, sentinel] := by
  unfold findSuccReturn
  exact cont_curpos _ _ _

theorem contAny_tableGet (s : Successors) (c : Pos) (hc : c ∈ s.curpos) :
    tableGet (contAny s).S c = PosSet.mk none true := by
  rw [contAny_eq]
  unfold tableGet
  show (mapGet (s.curpos.foldl (fun m c => mapSet m c (PosSet.mk none true)) s.S) c).getD _ = _
  rw [foldl_setAny_mapGet, if_pos hc]
  rfl

theorem contAny_G (s : Successors) : (contAny s).G = s.G := by
  rw [contAny_eq]

theorem contAny_curpos (s : Successors) : (contAny s).curpos = s.curpos := by
  rw [contAny_eq]

theorem inS_quasiAcceptableCont (s : Successors) (ps : List Pos) (c q : Pos) :
    inS (quasiAcceptableCont s ps) c q = inS s c q := by
  rw [quasiAcceptableCont_eq]; rfl

theorem quasiAcceptableCont_curpos (s : Successors) (ps : List Pos) :
    (quasiAcceptableCont s ps).curpos = s.curpos := by
  rw [quasiAcceptableCont_eq]

theorem quasiAcceptableCont_G (s : Successors) (ps : List Pos) :
    (quasiAcceptableCont s ps).G = s.G := by
  rw [quasiAcceptableCont_eq]

theorem inSq_cont (s : Successors) (b : Bool) (ps : List Pos) (c q : Pos) :
    inSq (cont s b ps) c q = inSq s c q := by
  rw [cont_eq]; rfl

theorem inSq_alsoCont (s : Successors) (b : Bool) (ps : List Pos) (c q : Pos) :
    inSq (alsoCont s b ps) c q = inSq s c q := by
  rw [alsoCont_eq]; rfl

/-! ## Acceptance filter and file driver (C11) -/

theorem stringsIndex_neg_iff (s : String) (c : Char) :
    stringsIndex s c < 0 ↔ c ∉ s.toList := by
  unfold stringsIndex
  by_cases h : c ∈ s.toList
  · have h' := List.indexOf_lt_length.2 h
    rw [if_pos h']
    constructor
    · intro hneg
      have : (0 : Int) ≤ (List.indexOf c s.toList : Int) := Int.ofNat_nonneg _
      omega
    · intro hn; exact absurd h hn
  · have h' : ¬ List.indexOf c s.toList < s.toList.length := fun hlt =>
      h (List.indexOf_lt_length.1 hlt)
    rw [if_neg h']
    constructor
    · intro _; exact h
    · intro _; decide

theorem stringsHasSuffix_iff (s suffix : String) :
    stringsHasSuffix s suffix = true ↔ ∃ pre : String, s = pre ++ suffix := by
  unfold stringsHasSuffix
  simp only [Bool.and_eq_true, decide_eq_true_eq]
  constructor
  · rintro ⟨hlen, hdrop⟩
    refine ⟨String.mk (s.toList.take (s.toList.length - suffix.toList.length)), ?_⟩
    apply String.ext
    rw [String.data_append]
    show s.toList = s.toList.take (s.toList.length - suffix.toList.length) ++ suffix.toList
    have h := List.take_append_drop (s.toList.length - suffix.toList.length) s.toList
    rw [hdrop] at h
    exact h.symm
  · rintro ⟨pre, rfl⟩
    have hd : (pre ++ suffix).toList = pre.toList ++ suffix.toList := String.data_append _ _
    rw [hd]
    constructor
    · simp
    · simp

/-- C11: `acceptedFile(path)` is true exactly when `path` is non-empty, contains no `<`
and ends with `.go`; and `FindSuccessors` on a path that is not accepted returns the state
it was given: `S`, `Sq`, `G`, the cursor, `curfnend` and the group counter are unchanged,
whatever the parser would do and whatever functions are asked for. -/
theorem acceptedFile_spec (path : String) :
    (acceptedFile path = true ↔
      path ≠ "" ∧ '<' ∉ path.toList ∧ ∃ pre : String, path = pre ++ ".go") ∧
    (∀ (fset : FileSet) (parse : String → Option SourceFile) (s : Successors)
        (funcs : List String),
      acceptedFile path = false → FindSuccessors fset parse s path funcs = s) := by
  constructor
  · unfold acceptedFile
    simp only [Bool.and_eq_true, decide_eq_true_eq, stringsIndex_neg_iff,
      stringsHasSuffix_iff, and_assoc]
  · intro fset parse s funcs h
    unfold FindSuccessors
    rw [h]
    rfl

/-- C11, witness: `<autogenerated>` is rejected and analysing it changes nothing. -/
theorem acceptedFile_spec_witness :
    acceptedFile "<autogenerated>" = false ∧
    FindSuccessors fsetTenPerLine (fun _ => none) stateInBody "<autogenerated>" ["main.f"]
      = stateInBody :=
  ⟨by decide, (acceptedFile_spec "<autogenerated>").2 _ _ _ _ (by decide)⟩

/-! ## Simple, return and branch statements (C12, C13, C14) -/

/-- C12: walking a simple statement (expression, assignment, inc/dec) with positions
`ps = all_positions(stmt)` makes all its lines mutual successors: afterwards `q` is in
`S[p]` for all `p != q` in `ps`; every `c` of the cursor before the statement has every
`q` of `ps` with `q != c` in `S[c]`; every position of `ps` has a group; and the cursor
equals `ps`. -/
theorem simpleStmt_spec (fset : FileSet) (s : Successors) (x : Node) (stmt : Stmt)
    (hstmt : stmt = .ExprStmt x ∨ stmt = .AssignStmt x ∨ stmt = .IncDecStmt x) :
    (∀ p ∈ allPositions fset (some x), ∀ q ∈ allPositions fset (some x), p ≠ q →
      inS (findSuccStmt fset stmt s) p q = true) ∧
    (∀ c ∈ s.curpos, ∀ q ∈ allPositions fset (some x), q ≠ c →
      inS (findSuccStmt fset stmt s) c q = true) ∧
    (∀ p ∈ allPositions fset (some x), ∃ g, mapGet (findSuccStmt fset stmt s).G p = some g) ∧
    (findSuccStmt fset stmt s).curpos = allPositions fset (some x) := by
  have hw : findSuccStmt fset stmt s = findSuccExpr fset s x := by
    rcases hstmt with h | h | h <;> rw [h, findSuccStmt]
  rw [hw]
  refine ⟨?_, ?_, ?_, findSuccExpr_curpos _ _ _⟩
  · intro p hp q hq hpq
    rw [inS_findSuccExpr]
    simp [hp, hq, Ne.symm hpq]
  · intro c hc q hq hqc
    rw [inS_findSuccExpr]
    simp [hc, hq, hqc]
  · intro p hp
    rw [findSuccExpr_G]
    exact setGroupAll_isSome _ _ _ p hp

/-- C12, witness: an expression statement on lines 2 and 3 walked at the start of a body
whose cursor is line 1. -/
theorem simpleStmt_spec_witness :
    inS (findSuccStmt fsetTenPerLine (.ExprStmt (Node.mk 20 35)) stateInBody)
      (Pos.mk "f.go" 2) (Pos.mk "f.go" 3) = true ∧
    inS (findSuccStmt fsetTenPerLine (.ExprStmt (Node.mk 20 35)) stateInBody)
      (Pos.mk "f.go" 3) (Pos.mk "f.go" 2) = true ∧
    inS (findSuccStmt fsetTenPerLine (.ExprStmt (Node.mk 20 35)) stateInBody)
      (Pos.mk "f.go" 1) (Pos.mk "f.go" 3) = true ∧
    (findSuccStmt fsetTenPerLine (.ExprStmt (Node.mk 20 35)) stateInBody).curpos
      = [Pos.mk "f.go" 2, Pos.mk "f.go" 3] :=
  have h := simpleStmt_spec fsetTenPerLine stateInBody (Node.mk 20 35)
    (.ExprStmt (Node.mk 20 35)) (Or.inl rfl)
  ⟨h.1 _ (by decide) _ (by decide) (by decide), h.1 _ (by decide) _ (by decide) (by decide),
    h.2.1 _ (by decide) _ (by decide) (by decide), h.2.2.2.trans (by decide)⟩

/-- C13, as amended: walking a return statement with `ps` = `all_positions(stmt)` followed
by `fn_end_line` and the sentinel `("", -1)` (the file set never maps an offset to the
sentinel, and `fn_end_line` is not the sentinel): afterwards every line of the return
statement has the sentinel in `S`, every `p` in `ps` has every other `q` in `ps` in `S[p]`
(so `S[fn_end_line]` contains the sentinel), every position `c` that was in the cursor
before the return and is not the sentinel itself has the sentinel in `S[c]`, and the
cursor equals `ps`. -/
theorem return_spec (fset : FileSet) (s : Successors) (x : Node)
    (hfset : ∀ o, ToPos fset o ≠ sentinel) (hend : s.curfnend ≠ sentinel) :
    (∀ p ∈ allPositions fset (some x),
      inS (findSuccStmt fset (.ReturnStmt x) s) p sentinel = true) ∧
    (∀ p ∈ allPositions fset (some x) ++ [s.curfnend, sentinel],
      ∀ q ∈ allPositions fset (some x) ++ [s.curfnend, sentinel], q ≠ p →
        inS (findSuccStmt fset (.ReturnStmt x) s) p q = true) ∧
    inS (findSuccStmt fset (.ReturnStmt x) s) s.curfnend sentinel = true ∧
    (∀ c ∈ s.curpos, c ≠ sentinel →
      inS (findSuccStmt fset (.ReturnStmt x) s) c sentinel = true) ∧
    (findSuccStmt fset (.ReturnStmt x) s).curpos
      = allPositions fset (some x) ++ [s.curfnend, sentinel] := by
  rw [findSuccStmt]
  have hsent : sentinel ∈ allPositions fset (some x) ++ [s.curfnend, sentinel] := by simp
  have hpair : ∀ p ∈ allPositions fset (some x) ++ [s.curfnend, sentinel],
      ∀ q ∈ allPositions fset (some x) ++ [s.curfnend, sentinel], q ≠ p →
        inS (findSuccReturn fset s x) p q = true := by
    intro p hp q hq hqp
    rw [inS_findSuccReturn]
    simp only [hp, hq, hqp, ne_eq, not_false_eq_true, and_self, decide_True, Bool.and_self,
      Bool.or_true, Bool.true_or]
  refine ⟨?_, hpair, ?_, ?_, findSuccReturn_curpos _ _ _⟩
  · intro p hp
    obtain ⟨k, hk⟩ := mem_allPositions fset _ p hp
    exact hpair p (List.mem_append_left _ hp) sentinel hsent
      (fun e => hfset k (by rw [← hk, ← e]))
  · exact hpair s.curfnend (by simp) sentinel hsent (fun e => hend e.symm)
  · intro c hc hcs
    rw [inS_findSuccReturn]
    simp only [hc, hsent, Ne.symm hcs, ne_eq, not_false_eq_true, and_self, decide_True,
      Bool.and_self, Bool.or_true]

/-- C13, witness: a function on lines 1 to 3 whose body is `return 7` on line 2. -/
theorem return_spec_witness :
    inS (findSuccStmt fsetTenPerLine (.ReturnStmt (Node.mk 20 28)) (stateInBodyEndingAt 3))
      (Pos.mk "f.go" 2) sentinel = true ∧
    inS (findSuccStmt fsetTenPerLine (.ReturnStmt (Node.mk 20 28)) (stateInBodyEndingAt 3))
      (Pos.mk "f.go" 1) sentinel = true ∧
    (findSuccStmt fsetTenPerLine (.ReturnStmt (Node.mk 20 28)) (stateInBodyEndingAt 3)).curpos
      = [Pos.mk "f.go" 2, Pos.mk "f.go" 3, sentinel] :=
  have h := return_spec fsetTenPerLine (stateInBodyEndingAt 3) (Node.mk 20 28)
    (fun o e => by simp [ToPos, fsetTenPerLine, sentinel] at e) (by decide)
  ⟨h.1 _ (by decide), h.2.2.2.1 _ (by decide) (by decide), h.2.2.2.2.trans (by decide)⟩

/-- C13, counterexample: after `defer g()` the sentinel is in the cursor, and walking the
`return` on line 3 does not put the sentinel into `S[sentinel]`. -/
theorem return_sentinel_counterexample :
    sentinel ∈ stateAfterDefer.curpos ∧
    inS (findSuccStmt fsetTenPerLine (.ReturnStmt (Node.mk 30 36)) stateAfterDefer)
      sentinel sentinel = false := by
  decide

/-- C14: walking a branch statement (`break`, `continue`, `goto`, `fallthrough`) with
positions `ps`: afterwards `S[p]` is `Any` (the value `PosSet{Any: true}`) for every `p` in
`ps`, the cursor equals `ps`, every `p` in `ps` has a group, and every `c` of the previous
cursor that is not itself in `ps` has every `p` of `ps` in `S[c]`. -/
theorem branch_spec (fset : FileSet) (s : Successors) (x : Node) :
    (∀ p ∈ allPositions fset (some x),
      tableGet (findSuccStmt fset (.BranchStmt x) s).S p = PosSet.mk none true) ∧
    (findSuccStmt fset (.BranchStmt x) s).curpos = allPositions fset (some x) ∧
    (∀ p ∈ allPositions fset (some x),
      ∃ g, mapGet (findSuccStmt fset (.BranchStmt x) s).G p = some g) ∧
    (∀ c ∈ s.curpos, c ∉ allPositions fset (some x) → ∀ p ∈ allPositions fset (some x),
      inS (findSuccStmt fset (.BranchStmt x) s) c p = true) := by
  rw [findSuccStmt]
  refine ⟨?_, ?_, ?_, ?_⟩
  · intro p hp
    exact contAny_tableGet _ p (by rw [cont_curpos]; exact hp)
  · rw [contAny_curpos, cont_curpos]
  · intro p hp
    rw [contAny_G, cont_G_true]
    exact setGroupAll_isSome _ _ _ p hp
  · intro c hc hcn p hp
    rw [inS_contAny, cont_curpos, if_neg hcn, inS_cont]
    have hpc : p ≠ c := fun e => hcn (e ▸ hp)
    simp [hc, hp, hpc]

/-- C14, witness: after `goto L` on line 2, walked with cursor line 1, `S[line 2]` is `Any`
and line 1 has line 2 as a successor. -/
theorem branch_spec_witness :
    tableGet (findSuccStmt fsetTenPerLine (.BranchStmt (Node.mk 20 26)) stateInBody).S
      (Pos.mk "f.go" 2) = PosSet.mk none true ∧
    inS (findSuccStmt fsetTenPerLine (.BranchStmt (Node.mk 20 26)) stateInBody)
      (Pos.mk "f.go" 1) (Pos.mk "f.go" 2) = true :=
  have h := branch_spec fsetTenPerLine stateInBody (Node.mk 20 26)
  ⟨h.1 _ (by decide), h.2.2.2 _ (by decide) (by decide) _ (by decide)⟩

/-! ## Straight-line bodies (C15) -/

theorem inS_bumpGroup (s : Successors) (c q : Pos) : inS (bumpGroup s) c q = inS s c q := rfl

theorem inS_withCurpos (s : Successors) (l : List Pos) (c q : Pos) :
    inS { s with curpos := l } c q = inS s c q := rfl

theorem findSuccIfLoop_nil (fset : FileSet) (hp lic cb : List Pos) (s : Successors) :
    findSuccIfLoop fset .nil hp lic cb s = { s with curpos := (s.curpos ++ cb) ++ hp } := by
  rw [findSuccIfLoop]

theorem findSuccIfLoop_If (fset : FileSet) (Init : Option Node) (Cond : Node)
    (Lbrace Rbrace : Int) (Body : List Stmt) (Else : IfChain) (hp lic cb : List Pos)
    (s : Successors) :
    findSuccIfLoop fset (.If Init Cond Lbrace Rbrace Body Else) hp lic cb s
      = findSuccIfLoop fset Else (hp ++ allPositions fset (some Cond))
          (allPositions fset (some Cond))
          (cb ++ (ifArmState fset Init Cond Lbrace Rbrace Body s).curpos)
          (ifArmNext fset Init Cond Lbrace Rbrace Body s) := by
  rw [findSuccIfLoop]
  simp only [curposSave, cont_curpos]
  rfl

theorem findSuccIfLoop_Block (fset : FileSet) (Lbrace Rbrace : Int) (Body : List Stmt)
    (hp lic cb : List Pos) (s : Successors) :
    findSuccIfLoop fset (.Block Lbrace Rbrace Body) hp lic cb s
      = { quasiAcceptableCont (findSuccBody fset Lbrace Rbrace Body s) lic with
          curpos := (cb ++ (findSuccBody fset Lbrace Rbrace Body s).curpos) ++ hp } := by
  rw [findSuccIfLoop]
  rfl

theorem findSuccStmt_IfStmt (fset : FileSet) (x : IfChain) (s : Successors) :
    findSuccStmt fset (.IfStmt x) s = findSuccIfLoop fset x [] [] [] (bumpGroup s) := by
  rw [findSuccStmt]

theorem findSuccBody_nil (fset : FileSet) (lbrace rbrace : Int) (s : Successors) :
    findSuccBody fset lbrace rbrace [] s
      = bumpGroup (alsoCont (alsoCont (bumpGroup s) true [ToPos fset lbrace]) true
          [ToPos fset rbrace]) := by
  unfold findSuccBody
  rw [findSuccStmts]
  rfl

theorem inS_ifArmNext (fset : FileSet) (Init : Option Node) (Cond : Node)
    (Lbrace Rbrace : Int) (Body : List Stmt) (s : Successors) (c q : Pos) :
    inS (ifArmNext fset Init Cond Lbrace Rbrace Body s) c q
      = inS (ifArmState fset Init Cond Lbrace Rbrace Body s) c q := by
  unfold ifArmNext
  rw [inS_withCurpos, inS_quasiAcceptableCont]

/-! ## If chains (C16) -/

/-- C16, as amended: for the function with lines 1 `func f() {`, 2 `if c {`, 3 `x()`, 4 `}`,
5 `y()`, 6 `}`, after analysis `S[2]` contains lines 3 and 5 but not line 4 (the closing
brace of the if is in neither `S[2]` nor `Sq[2]`), `S[3]` contains 4, `S[4]` contains 5 and
`Sq[3]` contains 2.  In general, for an if without else whose then-body is empty, every
condition line other than the closing-brace line has the body's closing-brace line among
its successors. -/
theorem ifWithoutElse_spec :
    (inS ifWithoutElseResult (Pos.mk "f.go" 2) (Pos.mk "f.go" 3) = true ∧
      inS ifWithoutElseResult (Pos.mk "f.go" 2) (Pos.mk "f.go" 5) = true ∧
      inS ifWithoutElseResult (Pos.mk "f.go" 2) (Pos.mk "f.go" 4) = false ∧
      inSq ifWithoutElseResult (Pos.mk "f.go" 2) (Pos.mk "f.go" 4) = false ∧
      inS ifWithoutElseResult (Pos.mk "f.go" 3) (Pos.mk "f.go" 4) = true ∧
      inS ifWithoutElseResult (Pos.mk "f.go" 4) (Pos.mk "f.go" 5) = true ∧
      inSq ifWithoutElseResult (Pos.mk "f.go" 3) (Pos.mk "f.go" 2) = true) ∧
    (∀ (fset : FileSet) (s : Successors) (Init : Option Node) (Cond : Node)
        (Lbrace Rbrace : Int),
      ∀ c ∈ allPositions fset (some Cond), c ≠ ToPos fset Rbrace →
        inS (findSuccStmt fset (.IfStmt (.If Init Cond Lbrace Rbrace [] .nil)) s) c
          (ToPos fset Rbrace) = true) := by
  refine ⟨by decide, ?_⟩
  intro fset s Init Cond Lbrace Rbrace c hc hne
  rw [findSuccStmt_IfStmt, findSuccIfLoop_If, findSuccIfLoop_nil, inS_withCurpos,
    inS_ifArmNext]
  unfold ifArmState
  rw [findSuccBody_nil, inS_bumpGroup, inS_alsoCont, alsoCont_curpos]
  have hcur : (bumpGroup (cont (contNonEmpty (bumpGroup s) true (allPositions fset Init)) true
      (allPositions fset (some Cond)))).curpos = allPositions fset (some Cond) :=
    cont_curpos (contNonEmpty (bumpGroup s) true (allPositions fset Init)) true
      (allPositions fset (some Cond))
  rw [hcur]
  simp [hc, Ne.symm hne]

/-- C16, counterexample: in the scenario the closing-brace line 4 is neither in `S[2]` nor
in `Sq[2]`. -/
theorem ifWithoutElse_counterexample :
    inS ifWithoutElseResult (Pos.mk "f.go" 2) (Pos.mk "f.go" 4) = false ∧
    inSq ifWithoutElseResult (Pos.mk "f.go" 2) (Pos.mk "f.go" 4) = false := by
  decide

/-- C16, witness: `if c {` on line 2 closed by `}` on line 3, walked with cursor line 1: the
condition line 2 has the closing-brace line 3 in `S`. -/
theorem ifWithoutElse_spec_witness :
    inS (findSuccStmt fsetTenPerLine (.IfStmt (.If none (Node.mk 23 24) 25 30 [] .nil))
      stateInBody) (Pos.mk "f.go" 2) (Pos.mk "f.go" 3) = true :=
  ifWithoutElse_spec.2 fsetTenPerLine stateInBody none (Node.mk 23 24) 25 30
    (Pos.mk "f.go" 2) (by decide) (by decide)

/-! ## Cursor and quasi-successors after an if chain (C17, C18) -/

/-- Members of the cursor left by the loop of `findSuccIf`, started with the accumulators
`hp` (`headerPositions`) and `cb` (`curposBlockends`): the accumulated positions, the branch
frontiers and the condition positions of the chain, and for the empty chain the cursor it
was started with. -/
theorem mem_findSuccIfLoop_curpos (fset : FileSet) :
    ∀ (x : IfChain) (hp lic cb : List Pos) (s : Successors) (p : Pos),
      p ∈ (findSuccIfLoop fset x hp lic cb s).curpos ↔
        (x = .nil ∧ p ∈ s.curpos) ∨ p ∈ cb ∨ p ∈ hp ∨
          (∃ arm ∈ ifArms fset x lic s, p ∈ arm.1) ∨ p ∈ ifConds fset x
  | .nil, hp, lic, cb, s, p => by
    rw [findSuccIfLoop_nil]
    simp [ifArms, ifConds]
  | .If Init Cond Lbrace Rbrace Body Else, hp, lic, cb, s, p => by
    rw [findSuccIfLoop_If, mem_findSuccIfLoop_curpos fset Else]
    have hnext : (ifArmNext fset Init Cond Lbrace Rbrace Body s).curpos
        = allPositions fset (some Cond) := rfl
    rw [hnext]
    have hfalse : ¬ (IfChain.If Init Cond Lbrace Rbrace Body Else = IfChain.nil) :=
      fun h => IfChain.noConfusion h
    simp only [ifArms, ifConds, List.mem_append, List.mem_cons, exists_eq_or_imp, hfalse,
      false_and, false_or]
    generalize (∃ arm ∈ ifArms fset Else (allPositions fset (some Cond))
      (ifArmNext fset Init Cond Lbrace Rbrace Body s), p ∈ arm.1) = E
    tauto
  | .Block Lbrace Rbrace Body, hp, lic, cb, s, p => by
    rw [findSuccIfLoop_Block]
    have hfalse : ¬ (IfChain.Block Lbrace Rbrace Body = IfChain.nil) :=
      fun h => IfChain.noConfusion h
    simp only [ifArms, ifConds, List.mem_append, List.mem_singleton, exists_eq_left,
      List.not_mem_nil, or_false, hfalse, false_and, false_or]
    show (p ∈ cb ∨ p ∈ (findSuccBody fset Lbrace Rbrace Body s).curpos) ∨ p ∈ hp ↔ _
    tauto

/-- C17: for every if / else-if / else chain, a position is in the cursor after the chain
has been walked exactly when it is in the final frontier of some branch body (then-bodies
and the terminal else block, if any) or is a condition position of some if of the chain,
whether or not the chain ends in an else block; consequently, when the positions `ps` of
the following statement are recorded by `cont`, every position of `ps` becomes a successor
of each of those positions (other than itself). -/
theorem ifChain_cursor (fset : FileSet) (s : Successors) (Init : Option Node) (Cond : Node)
    (Lbrace Rbrace : Int) (Body : List Stmt) (Else : IfChain) :
    (∀ p, p ∈ (findSuccStmt fset (.IfStmt (.If Init Cond Lbrace Rbrace Body Else)) s).curpos ↔
      (∃ arm ∈ ifArms fset (.If Init Cond Lbrace Rbrace Body Else) [] (bumpGroup s),
        p ∈ arm.1) ∨
      p ∈ ifConds fset (.If Init Cond Lbrace Rbrace Body Else)) ∧
    (∀ (b : Bool) (ps : List Pos) (c : Pos),
      ((∃ arm ∈ ifArms fset (.If Init Cond Lbrace Rbrace Body Else) [] (bumpGroup s),
        c ∈ arm.1) ∨
      c ∈ ifConds fset (.If Init Cond Lbrace Rbrace Body Else)) →
      ∀ q ∈ ps, q ≠ c →
        inS (cont (findSuccStmt fset (.IfStmt (.If Init Cond Lbrace Rbrace Body Else)) s) b ps)
          c q = true) := by
  have hcur : ∀ p,
      p ∈ (findSuccStmt fset (.IfStmt (.If Init Cond Lbrace Rbrace Body Else)) s).curpos ↔
      (∃ arm ∈ ifArms fset (.If Init Cond Lbrace Rbrace Body Else) [] (bumpGroup s),
        p ∈ arm.1) ∨
      p ∈ ifConds fset (.If Init Cond Lbrace Rbrace Body Else) := by
    intro p
    rw [findSuccStmt_IfStmt, mem_findSuccIfLoop_curpos]
    have hfalse : ¬ (IfChain.If Init Cond Lbrace Rbrace Body Else = IfChain.nil) :=
      fun h => IfChain.noConfusion h
    simp only [hfalse, false_and, false_or, List.not_mem_nil]
  refine ⟨hcur, ?_⟩
  intro b ps c hc q hq hqc
  rw [inS_cont]
  have hc' := (hcur c).2 hc
  simp [hc', hq, hqc]

/-- C17, witness: after `if c { x() }` on lines 2 to 4, walked in the body of a function
declared on line 1, line 4 is in the cursor as a member of the then-body's frontier
`[line 3, line 4]`. -/
theorem ifChain_cursor_witness :
    ifArms fsetTenPerLine (.If none (Node.mk 23 24) 25 40 [.ExprStmt (Node.mk 30 33)] .nil) []
        (bumpGroup stateInBody)
      = [([Pos.mk "f.go" 3, Pos.mk "f.go" 4], [Pos.mk "f.go" 2])] ∧
    Pos.mk "f.go" 4 ∈
      (findSuccStmt fsetTenPerLine
        (.IfStmt (.If none (Node.mk 23 24) 25 40 [.ExprStmt (Node.mk 30 33)] .nil))
        stateInBody).curpos :=
  ⟨by decide,
    ((ifChain_cursor fsetTenPerLine stateInBody none (Node.mk 23 24) 25 40
      [.ExprStmt (Node.mk 30 33)] .nil).1 (Pos.mk "f.go" 4)).2
      (Or.inl ⟨([Pos.mk "f.go" 3, Pos.mk "f.go" 4], [Pos.mk "f.go" 2]), by decide, by decide⟩)⟩

/-! ## The switch recipe (C18, C20) -/

theorem clauseFinalLoop_eq_aux (gh : Nat) (cp tp : List Pos) (l : List Pos) (s : Successors) :
    l.foldl (fun t pos =>
        addqsucc (addsucc { t with G := mapSet t.G pos gh } pos cp) pos tp) s
      = { s with
          S := addAll s.S l cp
          Sq := addAll s.Sq l tp
          G := l.foldl (fun g pos => mapSet g pos gh) s.G } := by
  induction l generalizing s with
  | nil => rfl
  | cons a l ih =>
    rw [List.foldl_cons, ih]
    rfl

theorem clauseFinalLoop_eq (s : Successors) (gh : Nat) (cp tp : List Pos) :
    clauseFinalLoop s gh cp tp
      = { s with
          S := addAll s.S cp cp
          Sq := addAll s.Sq cp tp
          G := cp.foldl (fun g pos => mapSet g pos gh) s.G } :=
  clauseFinalLoop_eq_aux gh cp tp cp s

theorem foldl_mapSet_mapGet (gh : Nat) (l : List Pos) (g : List (Pos × Nat)) (p : Pos) :
    mapGet (l.foldl (fun g pos => mapSet g pos gh) g) p
      = if p ∈ l then some gh else mapGet g p := by
  induction l generalizing g with
  | nil => simp
  | cons a l ih =>
    rw [List.foldl_cons, ih, mapGet_mapSet]
    by_cases h1 : p ∈ l
    · simp [h1]
    · by_cases h2 : p = a
      · simp [h2]
      · simp [h1, h2]

theorem contNonEmpty_curgroup (s : Successors) (b : Bool) (ps : List Pos) :
    (contNonEmpty s b ps).curgroup = s.curgroup := by
  unfold contNonEmpty
  split
  · exact cont_curgroup _ _ _
  · rfl

theorem switchHeader_curpos (fset : FileSet) (key : Int) (init tag : Option Node)
    (s : Successors) :
    (switchHeader fset key init tag s).curpos = switchTagPositions fset key tag := by
  unfold switchHeader
  exact cont_curpos _ _ _

/-- Tables and cursor after `findSuccSwitch`, in terms of the state `r.1` and the lists
`r.2.1`, `r.2.2` left by its clause loop. -/
theorem switchFinish_eq (fset : FileSet) (key : Int) (tag : Option Node) (rbrace : Int)
    (h : Successors) (r : Successors × List Pos × List Pos) :
    switchFinish fset key tag rbrace h r
      = { r.1 with
          S := addAll (addAll (addAll r.1.S r.2.1 r.2.1) h.curpos r.2.1)
            (h.curpos ++ r.2.1) [ToPos fset rbrace]
          Sq := addAll r.1.Sq r.2.1 (switchTagPositions fset key tag)
          G := r.2.1.foldl (fun g pos => mapSet g pos h.curgroup) r.1.G
          curpos := ((h.curpos ++ r.2.1) ++ [ToPos fset rbrace]) ++ r.2.2 } := by
  unfold switchFinish
  simp only [curposSave, clauseFinalLoop_eq, alsoCont_eq]
  rfl

theorem contNonEmpty_G_keep (s : Successors) (ps : List Pos) (p : Pos) (g : Nat)
    (h : mapGet s.G p = some g) : mapGet (contNonEmpty s true ps).G p = some g := by
  unfold contNonEmpty
  split
  · rw [cont_G_true, setGroupAll_mapGet, h]
  · exact h

theorem contNonEmpty_G_true (s : Successors) (ps : List Pos) :
    (contNonEmpty s true ps).G = setGroupAll s.G s.curgroup ps := by
  unfold contNonEmpty
  split
  · exact cont_G_true _ _
  · have hps : ps = [] := by
      cases ps with
      | nil => rfl
      | cons a l => simp at *
    rw [hps]
    rfl

theorem findSuccStmt_ForStmt (fset : FileSet) (For : Int) (Init Cond Post : Option Node)
    (Lbrace Rbrace : Int) (Body : List Stmt) (s : Successors) :
    findSuccStmt fset (.ForStmt For Init Cond Post Lbrace Rbrace Body) s
      = bumpGroup (alsoCont (alsoCont
          (contNonEmpty (forBodyState fset For Init Cond Post Lbrace Rbrace Body s) false
            (allPositions fset Post))
          false (forCondPositions fset For Cond)) false [ToPos fset Rbrace]) := by
  rw [findSuccStmt]
  rfl

/-- Group of a position after the header of a for loop, when it had none on entry. -/
theorem forHeaderState_G (fset : FileSet) (For : Int) (Init Cond Post : Option Node)
    (s : Successors) (p : Pos) (hnone : mapGet s.G p = none)
    (hp : p ∈ allPositions fset Post ∨ p ∈ forCondPositions fset For Cond) :
    mapGet (forHeaderState fset For Init Cond Post s).G p
      = some ((s.curgroup + 1) % 2 ^ 64) := by
  unfold forHeaderState
  rw [setGroup_eq]
  show mapGet (setGroupAll _ _ _) p = _
  rw [setGroupAll_mapGet, cont_G_true, cont_curgroup, contNonEmpty_curgroup,
    setGroupAll_mapGet, contNonEmpty_G_true, setGroupAll_mapGet]
  have h0 : mapGet (bumpGroup s).G p = none := hnone
  have hg : (bumpGroup s).curgroup = (s.curgroup + 1) % 2 ^ 64 := rfl
  rw [h0, hg]
  by_cases h1 : p ∈ allPositions fset Init
  · simp [h1]
  · by_cases h2 : p ∈ forCondPositions fset For Cond
    · simp [h1, h2]
    · have h3 : p ∈ allPositions fset Post := hp.resolve_right h2
      simp [h1, h2, h3]

/-- C19, as amended: for every `for init; cond; post { body }`, every position `c` of the
body's final frontier gets as successors the post positions when post is non-empty and the
condition positions (condition lines plus the for-keyword line) when post is empty, and the
post positions get the condition positions as successors, in each case except the position
itself; every post or condition position that had no group on entry has the header group
(the counter after the opening bump) when the body is entered, and still has it after the
loop unless it is a clause position of a switch walked inside the body. -/
theorem for_spec (fset : FileSet) (For : Int) (Init Cond Post : Option Node)
    (Lbrace Rbrace : Int) (Body : List Stmt) (s : Successors) :
    (allPositions fset Post ≠ [] →
      ∀ c ∈ (forBodyState fset For Init Cond Post Lbrace Rbrace Body s).curpos,
      ∀ q ∈ allPositions fset Post, q ≠ c →
        inS (findSuccStmt fset (.ForStmt For Init Cond Post Lbrace Rbrace Body) s) c q
          = true) ∧
    (allPositions fset Post = [] →
      ∀ c ∈ (forBodyState fset For Init Cond Post Lbrace Rbrace Body s).curpos,
      ∀ q ∈ forCondPositions fset For Cond, q ≠ c →
        inS (findSuccStmt fset (.ForStmt For Init Cond Post Lbrace Rbrace Body) s) c q
          = true) ∧
    (∀ p ∈ allPositions fset Post, ∀ q ∈ forCondPositions fset For Cond, q ≠ p →
      inS (findSuccStmt fset (.ForStmt For Init Cond Post Lbrace Rbrace Body) s) p q
        = true) ∧
    (∀ p, p ∈ allPositions fset Post ∨ p ∈ forCondPositions fset For Cond →
      mapGet s.G p = none →
      mapGet (forHeaderState fset For Init Cond Post s).G p
          = some ((s.curgroup + 1) % 2 ^ 64) ∧
        (p ∉ stmtsClausePos fset Body →
          mapGet (findSuccStmt fset (.ForStmt For Init Cond Post Lbrace Rbrace Body) s).G p
            = some ((s.curgroup + 1) % 2 ^ 64))) := by
  rw [findSuccStmt_ForStmt]
  generalize hB : forBodyState fset For Init Cond Post Lbrace Rbrace Body s = B
  refine ⟨?_, ?_, ?_, ?_⟩
  · intro hpost c hc q hq hqc
    have hce : contNonEmpty B false (allPositions fset Post) = cont B false (allPositions fset Post) := by
      unfold contNonEmpty
      rw [if_pos (List.length_pos.2 hpost)]
    rw [inS_bumpGroup, inS_alsoCont, inS_alsoCont, hce, inS_cont]
    simp [hc, hq, hqc]
  · intro hpost c hc q hq hqc
    have hce : contNonEmpty B false (allPositions fset Post) = B := by
      unfold contNonEmpty
      rw [hpost]
      rfl
    rw [inS_bumpGroup, inS_alsoCont, inS_alsoCont, hce]
    simp [hc, hq, hqc]
  · intro p hp q hq hqp
    have hpost : allPositions fset Post ≠ [] := List.ne_nil_of_mem hp
    have hce : contNonEmpty B false (allPositions fset Post) = cont B false (allPositions fset Post) := by
      unfold contNonEmpty
      rw [if_pos (List.length_pos.2 hpost)]
    rw [inS_bumpGroup, inS_alsoCont, inS_alsoCont, hce, cont_curpos]
    simp [hp, hq, hqp]
  · intro p hp hnone
    have hhead := forHeaderState_G fset For Init Cond Post s p hnone hp
    refine ⟨hhead, fun hcl => ?_⟩
    have hBG : mapGet B.G p = some ((s.curgroup + 1) % 2 ^ 64) := by
      rw [← hB]
      exact pres_findSuccBody (groupKept_preserved p _) fset Lbrace Rbrace Body _
        (fun q hq e => hcl (e ▸ hq)) hhead
    show mapGet (alsoCont (alsoCont (contNonEmpty B false (allPositions fset Post)) false
      (forCondPositions fset For Cond)) false [ToPos fset Rbrace]).G p = _
    rw [alsoCont_G_false, alsoCont_G_false]
    unfold contNonEmpty
    split
    · rw [cont_G_false]; exact hBG
    · exact hBG

/-- C19, witness: lines 1 `func f(){`, 2 `for i:=0; i<n; i++ {`, 3 `g()`, 4 `}`, 5 `}`: the
for statement walked with cursor line 1 gives `S[3]` and `S[4]` containing line 2. -/
theorem for_spec_witness :
    inS (findSuccStmt fsetTenPerLine
        (.ForStmt 20 (some (Node.mk 21 23)) (some (Node.mk 24 26)) (some (Node.mk 27 28)) 29 40
          [.ExprStmt (Node.mk 30 33)]) stateInBody) (Pos.mk "f.go" 3) (Pos.mk "f.go" 2) = true ∧
    inS (findSuccStmt fsetTenPerLine
        (.ForStmt 20 (some (Node.mk 21 23)) (some (Node.mk 24 26)) (some (Node.mk 27 28)) 29 40
          [.ExprStmt (Node.mk 30 33)]) stateInBody) (Pos.mk "f.go" 4) (Pos.mk "f.go" 2) = true :=
  have h := for_spec fsetTenPerLine 20 (some (Node.mk 21 23)) (some (Node.mk 24 26))
    (some (Node.mk 27 28)) 29 40 [.ExprStmt (Node.mk 30 33)] stateInBody
  ⟨h.1 (by decide) _ (by decide) _ (by decide) (by decide),
    h.1 (by decide) _ (by decide) _ (by decide) (by decide)⟩

/-- C19, counterexample: in the function with the for loop on lines 2 to 4 the post
position, line 2, does not get the condition position, line 2, as a successor; and in
`for ; i < n;` / `i++ { switch { default: } }` the condition line 2 and the post line 3,
both without a group on entry, end with the different groups 2 and 4. -/
theorem for_counterexample :
    inS forLoopResult (Pos.mk "f.go" 2) (Pos.mk "f.go" 2) = false ∧
    mapGet stateInBody.G (Pos.mk "f.go" 2) = none ∧
    mapGet stateInBody.G (Pos.mk "f.go" 3) = none ∧
    mapGet (findSuccStmt fsetTenPerLine forWithSwitchOnPostLine stateInBody).G
      (Pos.mk "f.go" 2) = some 2 ∧
    mapGet (findSuccStmt fsetTenPerLine forWithSwitchOnPostLine stateInBody).G
      (Pos.mk "f.go" 3) = some 4 := by
  decide

/-- C21, counterexample: in the function whose type switch has its assignment
`v := g(y).(type)` on lines 2 and 3, line 3 is a key of `S` and a member of `S[4]`, it is
not the sentinel, and it has no entry in `G` once the function driver is done: the clause
loop records the lines of the assignment with `cont(false, ...)` and only the line of the
`switch` keyword was given a group. -/
theorem group_coverage_counterexample :
    (mapGet typeSwitchOnTwoLines.S (Pos.mk "f.go" 3)).isSome = true ∧
    inS typeSwitchOnTwoLines (Pos.mk "f.go" 4) (Pos.mk "f.go" 3) = true ∧
    Pos.mk "f.go" 3 ≠ sentinel ∧
    mapGet typeSwitchOnTwoLines.G (Pos.mk "f.go" 3) = none := by
  decide

/-- C23, counterexample: the statement at offsets 30 to 40 of the source of `fsetCrossFile`
resolves to no position.  Walked as an expression statement, as a variable declaration or
as a branch statement with the cursor at line 2 of `f.go`, it leaves the cursor empty, and
line 3 of `g.go`, the line of the statement walked next, does not become a successor of the
frontier line `f.go:2`. -/
theorem empty_positions_counterexample :
    allPositions fsetCrossFile (some (Node.mk 30 40)) = [] ∧
    stateBeforeCrossFile.curpos = [Pos.mk "f.go" 2] ∧
    (findSuccStmt fsetCrossFile (.ExprStmt (Node.mk 30 40)) stateBeforeCrossFile).curpos = [] ∧
    (findSuccStmt fsetCrossFile (.DeclStmt Token.VAR [Node.mk 30 40])
      stateBeforeCrossFile).curpos = [] ∧
    (findSuccStmt fsetCrossFile (.BranchStmt (Node.mk 30 40)) stateBeforeCrossFile).curpos
      = [] ∧
    allPositions fsetCrossFile (some (Node.mk 50 56)) = [Pos.mk "g.go" 3] ∧
    inS (findSuccStmt fsetCrossFile (.AssignStmt (Node.mk 50 56))
      (findSuccStmt fsetCrossFile (.ExprStmt (Node.mk 30 40)) stateBeforeCrossFile))
      (Pos.mk "f.go" 2) (Pos.mk "g.go" 3) = false := by
  decide

/-! ## Chains of successors to the sentinel (C22) -/

theorem chainStep_preserved (a b : Pos) :
    Preserved (fun t => chainStep t a b) (fun _ => True) where
  onAddsucc := fun s c v h => by
    rcases h with h | h | h | h
    · left
      rw [inS_addsucc, h]; rfl
    · exact Or.inr (Or.inl h)
    · right; right; left
      have : (tableGet (addAll s.S [c] v) a).Any = true := by rw [addAll_Any]; exact h
      exact this
    · exact Or.inr (Or.inr (Or.inr h))
  onAddqsucc := fun s c v h => by
    rcases h with h | h | h | h
    · exact Or.inl h
    · right; left
      rw [inSq_addqsucc, h]; rfl
    · exact Or.inr (Or.inr (Or.inl h))
    · right; right; right
      have : (tableGet (addAll s.Sq [c] v) a).Any = true := by rw [addAll_Any]; exact h
      exact this
  onSetGroup := fun s v h => by rw [setGroup_eq]; exact h
  onWriteG := fun _ _ _ _ h => h
  onSetAny := fun s c h => by
    by_cases hac : a = c
    · right; right; left
      show (tableGet (mapSet s.S c (PosSet.mk none true)) a).Any = true
      rw [tableGet_mapSet, if_pos hac]
    · rcases h with h | h | h | h
      · left
        show (tableGet (mapSet s.S c (PosSet.mk none true)) a).Contains b = true
        rw [tableGet_mapSet, if_neg hac]; exact h
      · exact Or.inr (Or.inl h)
      · right; right; left
        show (tableGet (mapSet s.S c (PosSet.mk none true)) a).Any = true
        rw [tableGet_mapSet, if_neg hac]; exact h
      · exact Or.inr (Or.inr (Or.inr h))
  onCurpos := fun _ _ h => h
  onCurgroup := fun _ _ h => h
  onCurfnend := fun _ _ h => h

theorem hasGroup_preserved (p : Pos) : Preserved (fun t => hasGroup t p) (fun _ => True) where
  onAddsucc := fun _ _ _ h => h
  onAddqsucc := fun _ _ _ h => h
  onSetGroup := fun s v h => by
    obtain ⟨g, hg⟩ := h
    refine ⟨g, ?_⟩
    rw [setGroup_eq]
    show mapGet (setGroupAll s.G s.curgroup v) p = some g
    rw [setGroupAll_mapGet, hg]
  onWriteG := fun s q g _ h => by
    obtain ⟨g', hg⟩ := h
    show ∃ g'', mapGet (mapSet s.G q g) p = some g''
    rw [mapGet_mapSet]
    by_cases hpq : p = q
    · exact ⟨g, by rw [if_pos hpq]⟩
    · exact ⟨g', by rw [if_neg hpq]; exact hg⟩
  onSetAny := fun _ _ h => h
  onCurpos := fun _ _ h => h
  onCurgroup := fun _ _ h => h
  onCurfnend := fun _ _ h => h

theorem chainTo_mono {s t : Successors} (hm : ChainMono s t) {p q : Pos} (h : chainTo s p q) :
    chainTo t p q :=
  Relation.ReflTransGen.mono hm h

theorem flowsTo_mono {s t : Successors} (hm : ChainMono s t) {p : Pos} {l l' : List Pos}
    (h : flowsTo s p l) (hl : ∀ w ∈ l, w ∈ l') : flowsTo t p l' := by
  obtain ⟨w, hw, hc⟩ := h
  exact ⟨w, hl w hw, chainTo_mono hm hc⟩

theorem flowsTo_trans {s : Successors} {p : Pos} {l l' : List Pos}
    (h : flowsTo s p l) (h2 : ∀ w ∈ l, flowsTo s w l') : flowsTo s p l' := by
  obtain ⟨w, hw, hc⟩ := h
  obtain ⟨w', hw', hc'⟩ := h2 w hw
  exact ⟨w', hw', Relation.ReflTransGen.trans hc hc'⟩

theorem flowsTo_of_mem {s : Successors} {p : Pos} {l : List Pos} (h : p ∈ l) :
    flowsTo s p l :=
  ⟨p, h, Relation.ReflTransGen.refl⟩

theorem chainMono_refl (s : Successors) : ChainMono s s := fun _ _ h => h

theorem chainMono_trans {s t u : Successors} (h1 : ChainMono s t) (h2 : ChainMono t u) :
    ChainMono s u := fun a b h => h2 a b (h1 a b h)

theorem cursorFlow_refl (s : Successors) : CursorFlow s s where
  mono := chainMono_refl s
  fwd := fun _ hw => flowsTo_of_mem hw
  fresh := fun _ h => Or.inl h

theorem cursorFlow_trans {s t u : Successors} (h1 : CursorFlow s t) (h2 : CursorFlow t u) :
    CursorFlow s u where
  mono := chainMono_trans h1.mono h2.mono
  fwd := fun w hw =>
    flowsTo_trans (flowsTo_mono h2.mono (h1.fwd w hw) (fun _ h => h)) h2.fwd
  fresh := fun p hp => by
    rcases h2.fresh p hp with h | h
    · rcases h1.fresh p h with h' | h'
      · exact Or.inl h'
      · exact Or.inr (flowsTo_trans (flowsTo_mono h2.mono h' (fun _ h => h)) h2.fwd)
    · exact Or.inr h

theorem cursorFlow_of_same {s t : Successors} (hm : ChainMono s t) (hc : t.curpos = s.curpos)
    (hg : t.G = s.G) : CursorFlow s t where
  mono := hm
  fwd := fun w hw => flowsTo_of_mem (by rw [hc]; exact hw)
  fresh := fun p hp => Or.inl (by unfold hasGroup at *; rw [← hg]; exact hp)

theorem chainMono_cont (s : Successors) (b : Bool) (ps : List Pos) :
    ChainMono s (cont s b ps) :=
  fun a c h => pres_cont (chainStep_preserved a c) s b ps h

theorem chainMono_alsoCont (s : Successors) (b : Bool) (ps : List Pos) :
    ChainMono s (alsoCont s b ps) :=
  fun a c h => pres_alsoCont (chainStep_preserved a c) s b ps h

theorem hasGroup_cont (s : Successors) (b : Bool) (ps : List Pos) (p : Pos)
    (h : hasGroup (cont s b ps) p) : hasGroup s p ∨ p ∈ ps := by
  unfold hasGroup at *
  rw [cont_eq] at h
  cases b with
  | false => exact Or.inl h
  | true =>
    obtain ⟨g, hg⟩ := h
    have hg' : mapGet (setGroupAll s.G s.curgroup ps) p = some g := hg
    rw [setGroupAll_mapGet] at hg'
    cases hm : mapGet s.G p with
    | some v => exact Or.inl ⟨v, rfl⟩
    | none =>
      rw [hm] at hg'
      by_cases hp : p ∈ ps
      · exact Or.inr hp
      · simp [hp] at hg'

theorem hasGroup_alsoCont (s : Successors) (b : Bool) (ps : List Pos) (p : Pos)
    (h : hasGroup (alsoCont s b ps) p) : hasGroup s p ∨ p ∈ ps := by
  unfold hasGroup at *
  rw [alsoCont_eq] at h
  cases b with
  | false => exact Or.inl h
  | true =>
    obtain ⟨g, hg⟩ := h
    have hg' : mapGet (setGroupAll s.G s.curgroup ps) p = some g := hg
    rw [setGroupAll_mapGet] at hg'
    cases hm : mapGet s.G p with
    | some v => exact Or.inl ⟨v, rfl⟩
    | none =>
      rw [hm] at hg'
      by_cases hp : p ∈ ps
      · exact Or.inr hp
      · simp [hp] at hg'

theorem hasGroup_setGroup (s : Successors) (ps : List Pos) (p : Pos)
    (h : hasGroup (setGroup s ps) p) : hasGroup s p ∨ p ∈ ps := by
  unfold hasGroup at *
  rw [setGroup_eq] at h
  obtain ⟨g, hg⟩ := h
  have hg' : mapGet (setGroupAll s.G s.curgroup ps) p = some g := hg
  rw [setGroupAll_mapGet] at hg'
  cases hm : mapGet s.G p with
  | some v => exact Or.inl ⟨v, rfl⟩
  | none =>
    rw [hm] at hg'
    by_cases hp : p ∈ ps
    · exact Or.inr hp
    · simp [hp] at hg'

theorem cursorFlow_cont (s : Successors) (b : Bool) (ps : List Pos) (hne : ps ≠ []) :
    CursorFlow s (cont s b ps) where
  mono := chainMono_cont s b ps
  fwd := fun w hw => by
    rw [cont_curpos]
    by_cases hwp : w ∈ ps
    · exact flowsTo_of_mem hwp
    · cases ps with
      | nil => exact absurd rfl hne
      | cons q qs =>
        have hq : q ≠ w := fun e => hwp (e ▸ List.mem_cons_self _ _)
        refine ⟨q, List.mem_cons_self _ _, Relation.ReflTransGen.single (Or.inl ?_)⟩
        rw [inS_cont]
        simp [hw, hq]
  fresh := fun p hp => by
    rcases hasGroup_cont s b ps p hp with h | h
    · exact Or.inl h
    · exact Or.inr (flowsTo_of_mem (by rw [cont_curpos]; exact h))

theorem cursorFlow_alsoCont (s : Successors) (b : Bool) (ps : List Pos) :
    CursorFlow s (alsoCont s b ps) where
  mono := chainMono_alsoCont s b ps
  fwd := fun w hw => flowsTo_of_mem (by rw [alsoCont_curpos]; exact List.mem_append_left _ hw)
  fresh := fun p hp => by
    rcases hasGroup_alsoCont s b ps p hp with h | h
    · exact Or.inl h
    · exact Or.inr (flowsTo_of_mem (by rw [alsoCont_curpos]; exact List.mem_append_right _ h))

theorem cursorFlow_bumpGroup (s : Successors) : CursorFlow s (bumpGroup s) :=
  cursorFlow_of_same (fun _ _ h => h) rfl rfl

theorem cursorFlow_quasiAcceptableCont (s : Successors) (ps : List Pos) :
    CursorFlow s (quasiAcceptableCont s ps) :=
  cursorFlow_of_same (fun a c h => pres_quasiAcceptableCont (chainStep_preserved a c) s ps h)
    (quasiAcceptableCont_curpos s ps) (quasiAcceptableCont_G s ps)

theorem cursorFlow_contAny (s : Successors) : CursorFlow s (contAny s) :=
  cursorFlow_of_same (fun a c h => pres_contAny (chainStep_preserved a c) s h)
    (contAny_curpos s) (contAny_G s)

theorem cursorFlow_contNonEmpty (s : Successors) (b : Bool) (ps : List Pos) :
    CursorFlow s (contNonEmpty s b ps) := by
  unfold contNonEmpty
  split
  · rename_i h
    exact cursorFlow_cont s b ps (fun e => by rw [e] at h; exact absurd h (by decide))
  · exact cursorFlow_refl s

theorem cursorFlow_foldl_addsucc (s : Successors) (cs pos : List Pos) :
    CursorFlow s (cs.foldl (fun t c => addsucc t c pos) s) :=
  cursorFlow_of_same (fun a c h => pres_foldl_addsucc (chainStep_preserved a c) cs pos s h)
    (foldl_addsucc_curpos s cs pos) (foldl_addsucc_G s cs pos)

theorem cursorFlow_findSuccExpr (fset : FileSet) (s : Successors) (x : Node)
    (hne : allPositions fset (some x) ≠ []) : CursorFlow s (findSuccExpr fset s x) := by
  unfold findSuccExpr
  exact cursorFlow_trans (cursorFlow_foldl_addsucc s _ _) (cursorFlow_cont _ true _ hne)

theorem cursorFlow_findSuccReturn (fset : FileSet) (s : Successors) (x : Node) :
    CursorFlow s (findSuccReturn fset s x) := by
  unfold findSuccReturn
  refine cursorFlow_trans ?_ (cursorFlow_cont _ true _ (by simp))
  refine cursorFlow_trans ?_ (cursorFlow_foldl_addsucc _ _ _)
  exact cursorFlow_of_same (fun a c h => (chainStep_preserved a c).onAddsucc s _ _ h) rfl rfl

theorem cursorFlow_bodyOpen (fset : FileSet) (lbrace : Int) (s : Successors) :
    CursorFlow s (bodyOpen fset lbrace s) :=
  cursorFlow_trans (cursorFlow_bumpGroup s) (cursorFlow_alsoCont _ true _)

theorem cursorFlow_bodyClose (fset : FileSet) (rbrace : Int) (s : Successors) :
    CursorFlow s (bodyClose fset rbrace s) :=
  cursorFlow_trans (cursorFlow_alsoCont s true _) (cursorFlow_bumpGroup _)

theorem flowsTo_through {t u : Successors} (F : CursorFlow t u) {p : Pos}
    (h : flowsTo t p t.curpos) : flowsTo u p u.curpos :=
  flowsTo_trans (flowsTo_mono F.mono h (fun _ hw => hw)) F.fwd

theorem clauseHeaderLoop_fresh_aux (fset : FileSet) (hdr : List (Option Node)) (t : Successors)
    (p : Pos)
    (h : hasGroup (hdr.foldl (fun t x =>
      { setGroup t (allPositions fset x) with
        curpos := (setGroup t (allPositions fset x)).curpos ++ allPositions fset x }) t) p) :
    hasGroup t p ∨ p ∈ hdr.foldl (fun acc x => acc ++ allPositions fset x) [] := by
  induction hdr generalizing t with
  | nil => exact Or.inl h
  | cons x hdr ih =>
    rw [List.foldl_cons] at h
    have hacc : ∀ (l : List (Option Node)) (a : List Pos),
        l.foldl (fun acc x => acc ++ allPositions fset x) a
          = a ++ l.foldl (fun acc x => acc ++ allPositions fset x) [] := by
      intro l
      induction l with
      | nil => intro a; simp
      | cons y l ihl =>
        intro a
        rw [List.foldl_cons, List.foldl_cons, ihl, ihl ([] ++ allPositions fset y)]
        simp
    rw [List.foldl_cons, hacc]
    rcases ih _ h with h' | h'
    · have h'' : hasGroup (setGroup t (allPositions fset x)) p := h'
      rcases hasGroup_setGroup t _ p h'' with h3 | h3
      · exact Or.inl h3
      · exact Or.inr (List.mem_append_left _ (by simpa using h3))
    · exact Or.inr (List.mem_append_right _ h')

theorem clauseEnter_fresh (fset : FileSet) (assign : Option Node) (s : Successors)
    (hdr : List (Option Node)) (stmtPos : Int)
    (ha : ∀ a, assign = some a → allPositions fset (some a) ≠ []) (p : Pos)
    (h : hasGroup (clauseEnter fset assign s hdr stmtPos).1 p) :
    hasGroup s p ∨
      flowsTo (clauseEnter fset assign s hdr stmtPos).1 p
        (clauseEnter fset assign s hdr stmtPos).1.curpos := by
  have h3 : ∀ q, hasGroup { setGroup (clauseHeaderLoop fset s hdr) [ToPos fset stmtPos] with
      curpos := (setGroup (clauseHeaderLoop fset s hdr) [ToPos fset stmtPos]).curpos
        ++ [ToPos fset stmtPos] } q →
      hasGroup s q ∨ q ∈ (setGroup (clauseHeaderLoop fset s hdr) [ToPos fset stmtPos]).curpos
        ++ [ToPos fset stmtPos] := by
    intro q hq
    have hq' : hasGroup (setGroup (clauseHeaderLoop fset s hdr) [ToPos fset stmtPos]) q := hq
    rcases hasGroup_setGroup _ _ q hq' with h1 | h1
    · unfold clauseHeaderLoop at h1
      rcases clauseHeaderLoop_fresh_aux fset hdr _ q h1 with h2 | h2
      · exact Or.inl h2
      · refine Or.inr (List.mem_append_left _ ?_)
        rw [setGroup_curpos]
        unfold clauseHeaderLoop
        rw [clauseHeaderLoop_curpos_aux]
        exact h2
    · exact Or.inr (List.mem_append_right _ h1)
  cases assign with
  | none =>
    rcases h3 p h with h1 | h1
    · exact Or.inl h1
    · exact Or.inr (flowsTo_of_mem h1)
  | some a =>
    have hF := cursorFlow_cont
      { setGroup (clauseHeaderLoop fset s hdr) [ToPos fset stmtPos] with
        curpos := (setGroup (clauseHeaderLoop fset s hdr) [ToPos fset stmtPos]).curpos
          ++ [ToPos fset stmtPos] } false (allPositions fset (some a)) (ha a rfl)
    rcases hF.fresh p h with h1 | h1
    · rcases h3 p h1 with h2 | h2
      · exact Or.inl h2
      · exact Or.inr (hF.fwd p h2)
    · exact Or.inr h1

theorem chainMono_clauseEnter (fset : FileSet) (assign : Option Node) (s : Successors)
    (hdr : List (Option Node)) (stmtPos : Int) :
    ChainMono s (clauseEnter fset assign s hdr stmtPos).1 :=
  fun a c h => pres_clauseEnter (chainStep_preserved a c) fset assign s hdr stmtPos h

theorem clause_flow_step {s e1 s5 s6 r1 : Successors} {cb rcb : List Pos}
    (h1 : ChainMono s e1)
    (hfresh1 : ∀ p, hasGroup e1 p → hasGroup s p ∨ flowsTo e1 p e1.curpos)
    (hB : CursorFlow e1 s5) (hqm : ChainMono s5 s6)
    (hqg : ∀ p, hasGroup s6 p → hasGroup s5 p)
    (hm : ChainMono s6 r1) (hsub : ∀ w ∈ cb ++ s5.curpos, w ∈ rcb)
    (hfr : ∀ p, hasGroup r1 p → hasGroup s6 p ∨ flowsTo r1 p rcb) :
    ChainMono s r1 ∧ (∀ w ∈ cb, w ∈ rcb) ∧
      (∀ p, hasGroup r1 p → hasGroup s p ∨ flowsTo r1 p rcb) := by
  refine ⟨chainMono_trans h1 (chainMono_trans hB.mono (chainMono_trans hqm hm)),
    fun w hw => hsub w (List.mem_append_left _ hw), fun p hp => ?_⟩
  have hto : ∀ q, flowsTo s5 q s5.curpos → flowsTo r1 q rcb := fun q hq' =>
    flowsTo_mono (chainMono_trans hqm hm) hq' (fun w hw => hsub w (List.mem_append_right _ hw))
  rcases hfr p hp with h | h
  · rcases hB.fresh p (hqg p h) with h'' | h''
    · rcases hfresh1 p h'' with h3 | h3
      · exact Or.inl h3
      · exact Or.inr (hto p (flowsTo_through hB h3))
    · exact Or.inr (hto p h'')
  · exact Or.inr h

theorem hasGroup_quasiAcceptableCont (s : Successors) (ps : List Pos) (p : Pos)
    (h : hasGroup (quasiAcceptableCont s ps) p) : hasGroup s p := by
  unfold hasGroup at *
  rw [quasiAcceptableCont_G] at h
  exact h

theorem chainMono_quasiAcceptableCont (s : Successors) (ps : List Pos) :
    ChainMono s (quasiAcceptableCont s ps) :=
  fun a c h => pres_quasiAcceptableCont (chainStep_preserved a c) s ps h

/-- Flow through a switch, select or type switch, from the facts about its clause loop. -/
theorem cursorFlow_switch (fset : FileSet) (key : Int) (init tag : Option Node) (rbrace : Int)
    (s : Successors) (r : Successors × List Pos × List Pos)
    (hm : ChainMono (switchHeader fset key init tag s) r.1)
    (hf : ∀ p, hasGroup r.1 p →
      hasGroup (switchHeader fset key init tag s) p ∨ flowsTo r.1 p r.2.2) :
    CursorFlow s (switchFinish fset key tag rbrace (switchHeader fset key init tag s) r) := by
  have hH : CursorFlow s (switchHeader fset key init tag s) := by
    unfold switchHeader
    exact cursorFlow_trans (cursorFlow_bumpGroup s)
      (cursorFlow_trans (cursorFlow_contNonEmpty _ true _)
        (cursorFlow_cont _ true _ (by unfold switchTagPositions; simp)))
  have hmt : ChainMono r.1
      (switchFinish fset key tag rbrace (switchHeader fset key init tag s) r) :=
    fun a c h => pres_switchFinish (chainStep_preserved a c) fset key tag rbrace _ r
      (fun _ _ => trivial) h
  have hcur : (switchFinish fset key tag rbrace (switchHeader fset key init tag s) r).curpos
      = (((switchHeader fset key init tag s).curpos ++ r.2.1) ++ [ToPos fset rbrace])
        ++ r.2.2 := by
    rw [switchFinish_eq]
  have hG : ∀ p, hasGroup
      (switchFinish fset key tag rbrace (switchHeader fset key init tag s) r) p →
      hasGroup r.1 p ∨ p ∈ r.2.1 := by
    intro p hp
    unfold hasGroup at hp
    rw [switchFinish_eq] at hp
    obtain ⟨g, hg⟩ := hp
    have hg' : mapGet (r.2.1.foldl (fun g pos => mapSet g pos
        (switchHeader fset key init tag s).curgroup) r.1.G) p = some g := hg
    rw [foldl_mapSet_mapGet] at hg'
    by_cases hp1 : p ∈ r.2.1
    · exact Or.inr hp1
    · rw [if_neg hp1] at hg'
      exact Or.inl ⟨g, hg'⟩
  refine ⟨chainMono_trans hH.mono (chainMono_trans hm hmt), fun w hw => ?_, fun p hp => ?_⟩
  · refine flowsTo_mono (chainMono_trans hm hmt) (hH.fwd w hw) (fun v hv => ?_)
    rw [hcur]
    simp [hv]
  · rcases hG p hp with h | h
    · rcases hf p h with h' | h'
      · rcases hH.fresh p h' with h'' | h''
        · exact Or.inl h''
        · refine Or.inr (flowsTo_mono (chainMono_trans hm hmt) h'' (fun v hv => ?_))
          rw [hcur]
          simp [hv]
      · refine Or.inr (flowsTo_mono hmt h' (fun v hv => ?_))
        rw [hcur]
        simp [hv]
    · refine Or.inr (flowsTo_of_mem ?_)
      rw [hcur]
      simp [h]

theorem chainMono_setGroup (s : Successors) (ps : List Pos) : ChainMono s (setGroup s ps) :=
  fun a c h => (chainStep_preserved a c).onSetGroup s ps h

/-- Flow through a for statement, from the flow through its body. -/
theorem cursorFlow_for (fset : FileSet) (For : Int) (Init Cond Post : Option Node)
    (Rbrace : Int) (s B : Successors)
    (hB : CursorFlow (forHeaderState fset For Init Cond Post s) B) :
    CursorFlow s
      (bumpGroup (alsoCont (alsoCont (contNonEmpty B false (allPositions fset Post)) false
        (forCondPositions fset For Cond)) false [ToPos fset Rbrace])) := by
  have F1 : CursorFlow s (cont (contNonEmpty (bumpGroup s) true (allPositions fset Init)) true
      (forCondPositions fset For Cond)) :=
    cursorFlow_trans (cursorFlow_bumpGroup s)
      (cursorFlow_trans (cursorFlow_contNonEmpty _ true _)
        (cursorFlow_cont _ true _ (by unfold forCondPositions; simp)))
  have F3 : CursorFlow (contNonEmpty B false (allPositions fset Post))
      (bumpGroup (alsoCont (alsoCont (contNonEmpty B false (allPositions fset Post)) false
        (forCondPositions fset For Cond)) false [ToPos fset Rbrace])) :=
    cursorFlow_trans (cursorFlow_alsoCont _ false _)
      (cursorFlow_trans (cursorFlow_alsoCont _ false _) (cursorFlow_bumpGroup _))
  have F2 := cursorFlow_trans hB (cursorFlow_trans (cursorFlow_contNonEmpty B false _) F3)
  have hm34 : ChainMono (cont (contNonEmpty (bumpGroup s) true (allPositions fset Init)) true
      (forCondPositions fset For Cond)) (forHeaderState fset For Init Cond Post s) :=
    chainMono_setGroup _ _
  have hc34 : (forHeaderState fset For Init Cond Post s).curpos
      = (cont (contNonEmpty (bumpGroup s) true (allPositions fset Init)) true
        (forCondPositions fset For Cond)).curpos := setGroup_curpos _ _
  have hlift : ∀ p, flowsTo (cont (contNonEmpty (bumpGroup s) true (allPositions fset Init))
      true (forCondPositions fset For Cond)) p
      (cont (contNonEmpty (bumpGroup s) true (allPositions fset Init)) true
        (forCondPositions fset For Cond)).curpos →
      flowsTo _ p (bumpGroup (alsoCont (alsoCont (contNonEmpty B false
        (allPositions fset Post)) false (forCondPositions fset For Cond)) false
        [ToPos fset Rbrace])).curpos := fun p hp =>
    flowsTo_through F2 (flowsTo_mono hm34 hp (fun w hw => by rw [hc34]; exact hw))
  refine ⟨chainMono_trans F1.mono (chainMono_trans hm34 F2.mono),
    fun w hw => hlift w (F1.fwd w hw), fun p hp => ?_⟩
  rcases F2.fresh p hp with h | h
  · rcases hasGroup_setGroup _ _ p h with h' | h'
    · rcases F1.fresh p h' with h'' | h''
      · exact Or.inl h''
      · exact Or.inr (hlift p h'')
    · right
      have hne : (allPositions fset Post).length > 0 := List.length_pos_of_mem h'
      have hcur : p ∈ (contNonEmpty B false (allPositions fset Post)).curpos := by
        unfold contNonEmpty
        rw [if_pos hne, cont_curpos]
        exact h'
      exact F3.fwd p hcur
  · exact Or.inr h

/-- Flow through a range statement, from the flow through its body. -/
theorem cursorFlow_range (fset : FileSet) (For : Int) (X : List Pos) (s B : Successors)
    (hX : X ≠ [])
    (hB : CursorFlow (cont (setGroup (bumpGroup s) X) true X) B) :
    CursorFlow s (alsoCont B false [ToPos fset For]) := by
  have F2 := cursorFlow_trans hB (cursorFlow_alsoCont B false [ToPos fset For])
  have F1 := cursorFlow_cont (setGroup (bumpGroup s) X) true X hX
  have F := cursorFlow_trans F1 F2
  have hm : ChainMono s (setGroup (bumpGroup s) X) :=
    chainMono_trans (cursorFlow_bumpGroup s).mono (chainMono_setGroup _ _)
  refine ⟨chainMono_trans hm F.mono, fun w hw => F.fwd w (by rw [setGroup_curpos]; exact hw),
    fun p hp => ?_⟩
  rcases F.fresh p hp with h | h
  · rcases hasGroup_setGroup _ _ p h with h' | h'
    · exact Or.inl h'
    · exact Or.inr (F2.fwd p (by rw [cont_curpos]; exact h'))
  · exact Or.inr h

/-- One round of the loop of `findSuccIf`, from the flow through the then-body and the
facts about the rest of the chain. -/
theorem if_flow_step (fset : FileSet) (Init : Option Node) (Cond : Node) (Lbrace Rbrace : Int)
    (Body : List Stmt) (hp cb : List Pos) (s t : Successors)
    (hcond : allPositions fset (some Cond) ≠ [])
    (hB : CursorFlow
      (cont (contNonEmpty s true (allPositions fset Init)) true (allPositions fset (some Cond)))
      (ifArmState fset Init Cond Lbrace Rbrace Body s))
    (hm : ChainMono (ifArmNext fset Init Cond Lbrace Rbrace Body s) t)
    (hfl : ∀ w, w ∈ (ifArmNext fset Init Cond Lbrace Rbrace Body s).curpos ∨
        w ∈ cb ++ (ifArmState fset Init Cond Lbrace Rbrace Body s).curpos ∨
        w ∈ hp ++ allPositions fset (some Cond) → flowsTo t w t.curpos)
    (hfr : ∀ p, hasGroup t p →
      hasGroup (ifArmNext fset Init Cond Lbrace Rbrace Body s) p ∨ flowsTo t p t.curpos) :
    ChainMono s t ∧ (∀ w, w ∈ s.curpos ∨ w ∈ cb ∨ w ∈ hp → flowsTo t w t.curpos) ∧
      (∀ p, hasGroup t p → hasGroup s p ∨ flowsTo t p t.curpos) := by
  have F : CursorFlow s (ifArmState fset Init Cond Lbrace Rbrace Body s) :=
    cursorFlow_trans (cursorFlow_trans (cursorFlow_contNonEmpty s true _)
      (cursorFlow_cont _ true _ hcond)) hB
  have hAN : ChainMono (ifArmState fset Init Cond Lbrace Rbrace Body s)
      (ifArmNext fset Init Cond Lbrace Rbrace Body s) :=
    fun a c h => chainMono_quasiAcceptableCont _ _ a c h
  have hto : ∀ q, flowsTo (ifArmState fset Init Cond Lbrace Rbrace Body s) q
      (ifArmState fset Init Cond Lbrace Rbrace Body s).curpos → flowsTo t q t.curpos :=
    fun q hq => flowsTo_trans (flowsTo_mono (chainMono_trans hAN hm) hq (fun _ h => h))
      (fun w hw => hfl w (Or.inr (Or.inl (List.mem_append_right _ hw))))
  refine ⟨chainMono_trans F.mono (chainMono_trans hAN hm), fun w hw => ?_, fun p hp' => ?_⟩
  · rcases hw with hw | hw | hw
    · exact hto w (F.fwd w hw)
    · exact hfl w (Or.inr (Or.inl (List.mem_append_left _ hw)))
    · exact hfl w (Or.inr (Or.inr (List.mem_append_left _ hw)))
  · rcases hfr p hp' with h | h
    · have hA : hasGroup (ifArmState fset Init Cond Lbrace Rbrace Body s) p :=
        hasGroup_quasiAcceptableCont _ _ p h
      rcases F.fresh p hA with h' | h'
      · exact Or.inl h'
      · exact Or.inr (hto p h')
    · exact Or.inr h

/-- The terminal else block of an if chain, from the flow through its body. -/
theorem if_flow_block (fset : FileSet) (Lbrace Rbrace : Int) (Body : List Stmt)
    (hp lic cb : List Pos) (s : Successors)
    (hB : CursorFlow s (findSuccBody fset Lbrace Rbrace Body s)) :
    ChainMono s (findSuccIfLoop fset (.Block Lbrace Rbrace Body) hp lic cb s) ∧
    (∀ w, w ∈ s.curpos ∨ w ∈ cb ∨ w ∈ hp →
      flowsTo (findSuccIfLoop fset (.Block Lbrace Rbrace Body) hp lic cb s) w
        (findSuccIfLoop fset (.Block Lbrace Rbrace Body) hp lic cb s).curpos) ∧
    (∀ p, hasGroup (findSuccIfLoop fset (.Block Lbrace Rbrace Body) hp lic cb s) p →
      hasGroup s p ∨
        flowsTo (findSuccIfLoop fset (.Block Lbrace Rbrace Body) hp lic cb s) p
          (findSuccIfLoop fset (.Block Lbrace Rbrace Body) hp lic cb s).curpos) := by
  rw [findSuccIfLoop_Block]
  have hAN : ChainMono (findSuccBody fset Lbrace Rbrace Body s)
      { quasiAcceptableCont (findSuccBody fset Lbrace Rbrace Body s) lic with
        curpos := (cb ++ (findSuccBody fset Lbrace Rbrace Body s).curpos) ++ hp } :=
    fun a c h => chainMono_quasiAcceptableCont _ _ a c h
  have hto : ∀ q, flowsTo (findSuccBody fset Lbrace Rbrace Body s) q
      (findSuccBody fset Lbrace Rbrace Body s).curpos →
      flowsTo { quasiAcceptableCont (findSuccBody fset Lbrace Rbrace Body s) lic with
        curpos := (cb ++ (findSuccBody fset Lbrace Rbrace Body s).curpos) ++ hp } q
        ((cb ++ (findSuccBody fset Lbrace Rbrace Body s).curpos) ++ hp) :=
    fun q hq => flowsTo_mono hAN hq (fun w hw => by simp [hw])
  refine ⟨chainMono_trans hB.mono hAN, fun w hw => ?_, fun p hp' => ?_⟩
  · rcases hw with hw | hw | hw
    · exact hto w (hB.fwd w hw)
    · exact flowsTo_of_mem (by simp [hw])
    · exact flowsTo_of_mem (by simp [hw])
  · have hA : hasGroup (findSuccBody fset Lbrace Rbrace Body s) p :=
      hasGroup_quasiAcceptableCont _ lic p hp'
    rcases hB.fresh p hA with h' | h'
    · exact Or.inl h'
    · exact Or.inr (hto p h')

mutual
/-- Walking a statement none of whose cursor nodes has an empty position sequence keeps the
chain steps and leads the old cursor and the newly grouped positions to the new cursor. -/
theorem flow_findSuccStmt (fset : FileSet) :
    ∀ (stmt : Stmt) (s : Successors),
      (∀ x ∈ stmtCursorNodes stmt, allPositions fset (some x) ≠ []) →
      CursorFlow s (findSuccStmt fset stmt s)
  | .DeclStmt Tok Specs, s, hN => by
    rw [findSuccStmt]
    split
    · rename_i hT
      rw [stmtCursorNodes, if_pos hT] at hN
      have : ∀ (l : List Node) (t : Successors),
          (∀ x ∈ l, allPositions fset (some x) ≠ []) →
          CursorFlow t
            (l.foldl (fun t spec => cont t true (allPositions fset (some spec))) t) := by
        intro l
        induction l with
        | nil => intro t _; exact cursorFlow_refl t
        | cons a l ih =>
          intro t hl
          exact cursorFlow_trans (cursorFlow_cont t true _ (hl a (List.mem_cons_self _ _)))
            (ih _ (fun x hx => hl x (List.mem_cons_of_mem _ hx)))
      exact this Specs s hN
    · exact cursorFlow_refl s
  | .GoStmt x, s, _ => by rw [findSuccStmt]; exact cursorFlow_cont s true _ (by simp)
  | .SendStmt x, s, _ => by rw [findSuccStmt]; exact cursorFlow_cont s true _ (by simp)
  | .DeferStmt x, s, _ => by
    rw [findSuccStmt]
    exact cursorFlow_trans (cursorFlow_cont s true _ (by simp)) (cursorFlow_alsoCont _ false _)
  | .EmptyStmt, s, _ => by rw [findSuccStmt]; exact cursorFlow_refl s
  | .ExprStmt x, s, hN => by
    rw [findSuccStmt]
    exact cursorFlow_findSuccExpr fset s x (hN x (by simp [stmtCursorNodes]))
  | .AssignStmt x, s, hN => by
    rw [findSuccStmt]
    exact cursorFlow_findSuccExpr fset s x (hN x (by simp [stmtCursorNodes]))
  | .IncDecStmt x, s, hN => by
    rw [findSuccStmt]
    exact cursorFlow_findSuccExpr fset s x (hN x (by simp [stmtCursorNodes]))
  | .ForStmt For Init Cond Post Lbrace Rbrace Body, s, hN => by
    rw [findSuccStmt_ForStmt]
    rw [stmtCursorNodes] at hN
    apply cursorFlow_for
    exact cursorFlow_trans (cursorFlow_bodyOpen fset Lbrace _)
      (cursorFlow_trans (flow_findSuccStmts fset Body _ hN) (cursorFlow_bodyClose fset Rbrace _))
  | .RangeStmt For X Lbrace Rbrace Body, s, hN => by
    rw [findSuccStmt]
    rw [stmtCursorNodes] at hN
    apply cursorFlow_range fset For (allPositions fset (some X)) s _
      (hN X (List.mem_cons_self _ _))
    exact cursorFlow_trans (cursorFlow_bodyOpen fset Lbrace _)
      (cursorFlow_trans
        (flow_findSuccStmts fset Body _ (fun x hx => hN x (List.mem_cons_of_mem _ hx)))
        (cursorFlow_bodyClose fset Rbrace _))
  | .IfStmt x, s, hN => by
    rw [findSuccStmt_IfStmt]
    rw [stmtCursorNodes] at hN
    obtain ⟨h1, h2, h3⟩ := flow_findSuccIfLoop fset x [] [] [] (bumpGroup s) hN
    exact ⟨h1, fun w hw => h2 w (Or.inl hw), h3⟩
  | .LabeledStmt Colon st, s, hN => by
    rw [findSuccStmt]
    rw [stmtCursorNodes] at hN
    exact cursorFlow_trans (cursorFlow_alsoCont s true _) (flow_findSuccStmt fset st _ hN)
  | .SelectStmt Select Rbrace Clauses, s, hN => by
    rw [findSuccStmt]
    rw [stmtCursorNodes] at hN
    obtain ⟨h1, _, h3⟩ := flow_findSuccClauses fset none Rbrace
      (switchTagPositions fset Select none) Clauses [] [] (switchHeader fset Select none none s)
      hN (fun a ha => by cases ha)
    exact cursorFlow_switch fset Select none none Rbrace s _ h1 h3
  | .SwitchStmt Switch Init Tag Rbrace Clauses, s, hN => by
    rw [findSuccStmt]
    rw [stmtCursorNodes] at hN
    obtain ⟨h1, _, h3⟩ := flow_findSuccClauses fset none Rbrace
      (switchTagPositions fset Switch Tag) Clauses [] [] (switchHeader fset Switch Init Tag s)
      hN (fun a ha => by cases ha)
    exact cursorFlow_switch fset Switch Init Tag Rbrace s _ h1 h3
  | .TypeSwitchStmt Switch Init Assign Rbrace Clauses, s, hN => by
    rw [findSuccStmt]
    rw [stmtCursorNodes] at hN
    obtain ⟨h1, _, h3⟩ := flow_findSuccClauses fset (some Assign) Rbrace
      (switchTagPositions fset Switch none) Clauses [] []
      (switchHeader fset Switch Init none s)
      (fun x hx => hN x (List.mem_cons_of_mem _ hx))
      (fun a ha => by
        injection ha with ha
        rw [← ha]
        exact hN Assign (List.mem_cons_self _ _))
    exact cursorFlow_switch fset Switch Init none Rbrace s _ h1 h3
  | .BranchStmt x, s, hN => by
    rw [findSuccStmt]
    exact cursorFlow_trans
      (cursorFlow_cont s true _ (hN x (by simp [stmtCursorNodes]))) (cursorFlow_contAny _)
  | .ReturnStmt x, s, _ => by rw [findSuccStmt]; exact cursorFlow_findSuccReturn fset s x
  | .Unknown x, s, _ => by rw [findSuccStmt]; exact cursorFlow_refl s
/-- The statement loop of a body, as `flow_findSuccStmt`. -/
theorem flow_findSuccStmts (fset : FileSet) :
    ∀ (list : List Stmt) (s : Successors),
      (∀ x ∈ stmtsCursorNodes list, allPositions fset (some x) ≠ []) →
      CursorFlow s (findSuccStmts fset list s)
  | [], s, _ => by rw [findSuccStmts]; exact cursorFlow_refl s
  | stmt :: list, s, hN => by
    rw [findSuccStmts]
    rw [stmtsCursorNodes] at hN
    exact cursorFlow_trans
      (flow_findSuccStmt fset stmt s (fun x hx => hN x (List.mem_append_left _ hx)))
      (flow_findSuccStmts fset list _ (fun x hx => hN x (List.mem_append_right _ hx)))
/-- The loop of `findSuccIf`: the cursor and the saved positions lead to the final cursor. -/
theorem flow_findSuccIfLoop (fset : FileSet) :
    ∀ (x : IfChain) (hp lic cb : List Pos) (s : Successors),
      (∀ n ∈ ifCursorNodes x, allPositions fset (some n) ≠ []) →
      ChainMono s (findSuccIfLoop fset x hp lic cb s) ∧
      (∀ w, w ∈ s.curpos ∨ w ∈ cb ∨ w ∈ hp →
        flowsTo (findSuccIfLoop fset x hp lic cb s) w
          (findSuccIfLoop fset x hp lic cb s).curpos) ∧
      (∀ p, hasGroup (findSuccIfLoop fset x hp lic cb s) p →
        hasGroup s p ∨
          flowsTo (findSuccIfLoop fset x hp lic cb s) p
            (findSuccIfLoop fset x hp lic cb s).curpos)
  | .nil, hp, lic, cb, s, _ => by
    rw [findSuccIfLoop_nil]
    refine ⟨fun _ _ h => h, fun w hw => flowsTo_of_mem ?_, fun p h => Or.inl h⟩
    show w ∈ (s.curpos ++ cb) ++ hp
    simp only [List.mem_append]
    tauto
  | .If Init Cond Lbrace Rbrace Body Else, hp, lic, cb, s, hN => by
    rw [findSuccIfLoop_If]
    rw [ifCursorNodes] at hN
    obtain ⟨h1, h2, h3⟩ := flow_findSuccIfLoop fset Else (hp ++ allPositions fset (some Cond))
      (allPositions fset (some Cond))
      (cb ++ (ifArmState fset Init Cond Lbrace Rbrace Body s).curpos)
      (ifArmNext fset Init Cond Lbrace Rbrace Body s)
      (fun n hn => hN n (List.mem_cons_of_mem _ (List.mem_append_right _ hn)))
    refine if_flow_step fset Init Cond Lbrace Rbrace Body hp cb s _
      (hN Cond (List.mem_cons_self _ _)) ?_ h1 h2 h3
    exact cursorFlow_trans (cursorFlow_bodyOpen fset Lbrace _)
      (cursorFlow_trans
        (flow_findSuccStmts fset Body _
          (fun x hx => hN x (List.mem_cons_of_mem _ (List.mem_append_left _ hx))))
        (cursorFlow_bodyClose fset Rbrace _))
  | .Block Lbrace Rbrace Body, hp, lic, cb, s, hN => by
    rw [ifCursorNodes] at hN
    apply if_flow_block
    exact cursorFlow_trans (cursorFlow_bodyOpen fset Lbrace _)
      (cursorFlow_trans (flow_findSuccStmts fset Body _ hN) (cursorFlow_bodyClose fset Rbrace _))
/-- The clause loop of `findSuccSwitch`: the saved frontiers are kept and the newly grouped
positions lead to them. -/
theorem flow_findSuccClauses (fset : FileSet) (assign : Option Node) (rbrace : Int)
    (tagPositions : List Pos) :
    ∀ (clauses : List Clause) (cp cb : List Pos) (s : Successors),
      (∀ x ∈ clausesCursorNodes clauses, allPositions fset (some x) ≠ []) →
      (∀ a, assign = some a → allPositions fset (some a) ≠ []) →
      ChainMono s (findSuccClauses fset assign rbrace tagPositions clauses cp cb s).1 ∧
      (∀ w ∈ cb, w ∈ (findSuccClauses fset assign rbrace tagPositions clauses cp cb s).2.2) ∧
      (∀ p, hasGroup (findSuccClauses fset assign rbrace tagPositions clauses cp cb s).1 p →
        hasGroup s p ∨
          flowsTo (findSuccClauses fset assign rbrace tagPositions clauses cp cb s).1 p
            (findSuccClauses fset assign rbrace tagPositions clauses cp cb s).2.2)
  | [], cp, cb, s, _, _ => by
    rw [findSuccClauses]
    exact ⟨fun _ _ h => h, fun w hw => hw, fun p h => Or.inl h⟩
  | .CaseClause Case Exprs Colon Body :: rest, cp, cb, s, hN, ha => by
    rw [findSuccClauses]
    rw [clausesCursorNodes] at hN
    obtain ⟨h1, h2, h3⟩ := flow_findSuccClauses fset assign rbrace tagPositions rest
      (cp ++ (clauseEnter fset assign s (Exprs.map some) Case).2)
      (cb ++ (bodyClose fset rbrace (findSuccStmts fset Body
        (bodyOpen fset Colon (clauseEnter fset assign s (Exprs.map some) Case).1))).curpos)
      (quasiAcceptableCont (bodyClose fset rbrace (findSuccStmts fset Body
        (bodyOpen fset Colon (clauseEnter fset assign s (Exprs.map some) Case).1)))
        tagPositions)
      (fun x hx => hN x (List.mem_append_right _ hx)) ha
    exact clause_flow_step (chainMono_clauseEnter fset assign s _ Case)
      (clauseEnter_fresh fset assign s _ Case ha)
      (cursorFlow_trans (cursorFlow_bodyOpen fset Colon _)
        (cursorFlow_trans
          (flow_findSuccStmts fset Body _ (fun x hx => hN x (List.mem_append_left _ hx)))
          (cursorFlow_bodyClose fset rbrace _)))
      (chainMono_quasiAcceptableCont _ _) (hasGroup_quasiAcceptableCont _ _) h1 h2 h3
  | .CommClause Case Comm Colon Body :: rest, cp, cb, s, hN, ha => by
    rw [findSuccClauses]
    rw [clausesCursorNodes] at hN
    obtain ⟨h1, h2, h3⟩ := flow_findSuccClauses fset assign rbrace tagPositions rest
      (cp ++ (clauseEnter fset assign s [Comm] Case).2)
      (cb ++ (bodyClose fset rbrace (findSuccStmts fset Body
        (bodyOpen fset Colon (clauseEnter fset assign s [Comm] Case).1))).curpos)
      (quasiAcceptableCont (bodyClose fset rbrace (findSuccStmts fset Body
        (bodyOpen fset Colon (clauseEnter fset assign s [Comm] Case).1)))
        tagPositions)
      (fun x hx => hN x (List.mem_append_right _ hx)) ha
    exact clause_flow_step (chainMono_clauseEnter fset assign s _ Case)
      (clauseEnter_fresh fset assign s _ Case ha)
      (cursorFlow_trans (cursorFlow_bodyOpen fset Colon _)
        (cursorFlow_trans
          (flow_findSuccStmts fset Body _ (fun x hx => hN x (List.mem_append_left _ hx)))
          (cursorFlow_bodyClose fset rbrace _)))
      (chainMono_quasiAcceptableCont _ _) (hasGroup_quasiAcceptableCont _ _) h1 h2 h3
end

theorem covered_mono {exc : List Pos} {s t : Successors} (hm : GroupMono s t) {p : Pos}
    (h : covered exc s p) : covered exc t p := by
  rcases h with h | h | h
  · exact Or.inl h
  · exact Or.inr (Or.inl (hm p h))
  · exact Or.inr (Or.inr h)

theorem groupMono_refl (s : Successors) : GroupMono s s := fun _ h => h

theorem groupMono_trans {s t u : Successors} (h1 : GroupMono s t) (h2 : GroupMono t u) :
    GroupMono s u := fun p h => h2 p (h1 p h)

/-- Generic step: the positions referenced after the step are those referenced before and
the positions of `l`, which are covered afterwards. -/
theorem coverage_step {exc : List Pos} {s t : Successors} (l : List Pos)
    (hrec : ∀ p, recorded t p ∨ p ∈ t.curpos → (recorded s p ∨ p ∈ s.curpos) ∨ p ∈ l)
    (hm : GroupMono s t) (hl : ∀ p ∈ l, covered exc t p) (h : Coverage exc s) :
    Coverage exc t := by
  intro p hp
  rcases hrec p hp with h1 | h1
  · exact covered_mono hm (h p h1)
  · exact hl p h1

theorem addAll_isSome (m : List (Pos × PosSet)) (cs pos : List Pos) (p : Pos)
    (h : (mapGet (addAll m cs pos) p).isSome = true) : (mapGet m p).isSome = true ∨ p ∈ cs := by
  by_cases hp : p ∈ cs
  · exact Or.inr hp
  · rw [addAll_mapGet_of_not_mem m cs pos p hp] at h
    exact Or.inl h

theorem addAll_member (m : List (Pos × PosSet)) (cs pos : List Pos) (c q : Pos)
    (h : (tableGet (addAll m cs pos) c).Contains q = true) :
    (tableGet m c).Contains q = true ∨ q ∈ pos := by
  rw [addAll_Contains] at h
  cases h1 : (tableGet m c).Contains q with
  | true => exact Or.inl rfl
  | false =>
    rw [h1] at h
    simp at h
    exact Or.inr h.2.1

/-- Referenced positions after replacing `S` by `addAll s.S cs pos`. -/
theorem recorded_addAllS (s : Successors) (cs pos : List Pos) (p : Pos)
    (h : recorded { s with S := addAll s.S cs pos } p) :
    recorded s p ∨ p ∈ cs ∨ p ∈ pos := by
  rcases h with h | h | ⟨c, h⟩ | h
  · rcases addAll_isSome _ _ _ _ h with h1 | h1
    · exact Or.inl (Or.inl h1)
    · exact Or.inr (Or.inl h1)
  · exact Or.inl (Or.inr (Or.inl h))
  · rcases addAll_member s.S cs pos c p h with h1 | h1
    · exact Or.inl (Or.inr (Or.inr (Or.inl ⟨c, h1⟩)))
    · exact Or.inr (Or.inr h1)
  · exact Or.inl (Or.inr (Or.inr (Or.inr h)))

/-- Referenced positions after replacing `Sq` by `addAll s.Sq cs pos`. -/
theorem recorded_addAllSq (s : Successors) (cs pos : List Pos) (p : Pos)
    (h : recorded { s with Sq := addAll s.Sq cs pos } p) :
    recorded s p ∨ p ∈ cs ∨ p ∈ pos := by
  rcases h with h | h | h | ⟨c, h⟩
  · exact Or.inl (Or.inl h)
  · rcases addAll_isSome _ _ _ _ h with h1 | h1
    · exact Or.inl (Or.inr (Or.inl h1))
    · exact Or.inr (Or.inl h1)
  · exact Or.inl (Or.inr (Or.inr (Or.inl h)))
  · rcases addAll_member s.Sq cs pos c p h with h1 | h1
    · exact Or.inl (Or.inr (Or.inr (Or.inr ⟨c, h1⟩)))
    · exact Or.inr (Or.inr h1)

theorem recorded_cont (s : Successors) (b : Bool) (ps : List Pos) (p : Pos)
    (h : recorded (cont s b ps) p ∨ p ∈ (cont s b ps).curpos) :
    (recorded s p ∨ p ∈ s.curpos) ∨ p ∈ ps := by
  rw [cont_curpos] at h
  rcases h with h | h
  · rw [cont_eq] at h
    have h' : recorded { s with S := addAll s.S s.curpos ps } p := h
    rcases recorded_addAllS s _ _ p h' with h1 | h1 | h1
    · exact Or.inl (Or.inl h1)
    · exact Or.inl (Or.inr h1)
    · exact Or.inr h1
  · exact Or.inr h

theorem recorded_alsoCont (s : Successors) (b : Bool) (ps : List Pos) (p : Pos)
    (h : recorded (alsoCont s b ps) p ∨ p ∈ (alsoCont s b ps).curpos) :
    (recorded s p ∨ p ∈ s.curpos) ∨ p ∈ ps := by
  rw [alsoCont_curpos] at h
  rcases h with h | h
  · rw [alsoCont_eq] at h
    have h' : recorded { s with S := addAll s.S s.curpos ps } p := h
    rcases recorded_addAllS s _ _ p h' with h1 | h1 | h1
    · exact Or.inl (Or.inl h1)
    · exact Or.inl (Or.inr h1)
    · exact Or.inr h1
  · rcases List.mem_append.1 h with h1 | h1
    · exact Or.inl (Or.inr h1)
    · exact Or.inr h1

theorem recorded_quasiAcceptableCont (s : Successors) (ps : List Pos) (p : Pos)
    (h : recorded (quasiAcceptableCont s ps) p ∨ p ∈ (quasiAcceptableCont s ps).curpos) :
    (recorded s p ∨ p ∈ s.curpos) ∨ p ∈ ps := by
  rw [quasiAcceptableCont_curpos] at h
  rcases h with h | h
  · rw [quasiAcceptableCont_eq] at h
    rcases recorded_addAllSq s _ _ p h with h1 | h1 | h1
    · exact Or.inl (Or.inl h1)
    · exact Or.inl (Or.inr h1)
    · exact Or.inr h1
  · exact Or.inl (Or.inr h)

theorem recorded_contAny (s : Successors) (p : Pos)
    (h : recorded (contAny s) p ∨ p ∈ (contAny s).curpos) : recorded s p ∨ p ∈ s.curpos := by
  rw [contAny_curpos] at h
  rcases h with h | h
  · rcases h with h | h | ⟨c, h⟩ | h
    · rw [contAny_eq] at h
      have h' : (mapGet (s.curpos.foldl (fun m c => mapSet m c (PosSet.mk none true)) s.S)
          p).isSome = true := h
      rw [foldl_setAny_mapGet] at h'
      by_cases hp : p ∈ s.curpos
      · exact Or.inr hp
      · rw [if_neg hp] at h'
        exact Or.inl (Or.inl h')
    · rw [contAny_eq] at h
      exact Or.inl (Or.inr (Or.inl h))
    · rw [inS_contAny] at h
      split at h
      · exact absurd h (by decide)
      · exact Or.inl (Or.inr (Or.inr (Or.inl ⟨c, h⟩)))
    · rw [contAny_eq] at h
      exact Or.inl (Or.inr (Or.inr (Or.inr h)))
  · exact Or.inr h

theorem groupMono_cont (s : Successors) (b : Bool) (ps : List Pos) : GroupMono s (cont s b ps) :=
  fun p h => pres_cont (hasGroup_preserved p) s b ps h

theorem groupMono_alsoCont (s : Successors) (b : Bool) (ps : List Pos) :
    GroupMono s (alsoCont s b ps) :=
  fun p h => pres_alsoCont (hasGroup_preserved p) s b ps h

theorem groupMono_setGroup (s : Successors) (ps : List Pos) : GroupMono s (setGroup s ps) :=
  fun p h => (hasGroup_preserved p).onSetGroup s ps h

theorem groupMono_quasiAcceptableCont (s : Successors) (ps : List Pos) :
    GroupMono s (quasiAcceptableCont s ps) :=
  fun p h => pres_quasiAcceptableCont (hasGroup_preserved p) s ps h

theorem groupMono_contNonEmpty (s : Successors) (b : Bool) (ps : List Pos) :
    GroupMono s (contNonEmpty s b ps) :=
  fun p h => pres_contNonEmpty (hasGroup_preserved p) s b ps h

theorem groupMono_findSuccBody (fset : FileSet) (lbrace rbrace : Int) (list : List Stmt)
    (s : Successors) : GroupMono s (findSuccBody fset lbrace rbrace list s) :=
  fun p h => pres_findSuccBody (hasGroup_preserved p) fset lbrace rbrace list s
    (fun _ _ => trivial) h

theorem hasGroup_setGroup_mem (s : Successors) (ps : List Pos) (p : Pos) (hp : p ∈ ps) :
    hasGroup (setGroup s ps) p := by
  unfold hasGroup
  rw [setGroup_eq]
  exact setGroupAll_isSome s.G s.curgroup ps p hp

theorem hasGroup_cont_true (s : Successors) (ps : List Pos) (p : Pos) (hp : p ∈ ps) :
    hasGroup (cont s true ps) p := by
  unfold hasGroup
  rw [cont_G_true]
  exact setGroupAll_isSome s.G s.curgroup ps p hp

theorem hasGroup_alsoCont_true (s : Successors) (ps : List Pos) (p : Pos) (hp : p ∈ ps) :
    hasGroup (alsoCont s true ps) p := by
  unfold hasGroup
  rw [alsoCont_G_true]
  exact setGroupAll_isSome s.G s.curgroup ps p hp

theorem coverage_cont {exc : List Pos} (s : Successors) (b : Bool) (ps : List Pos)
    (hps : b = true ∨ ∀ p ∈ ps, covered exc s p) (h : Coverage exc s) :
    Coverage exc (cont s b ps) := by
  refine coverage_step ps (recorded_cont s b ps) (groupMono_cont s b ps) (fun p hp => ?_) h
  rcases hps with hb | hl
  · subst hb
    exact Or.inr (Or.inl (hasGroup_cont_true s ps p hp))
  · exact covered_mono (groupMono_cont s b ps) (hl p hp)

theorem coverage_alsoCont {exc : List Pos} (s : Successors) (b : Bool) (ps : List Pos)
    (hps : b = true ∨ ∀ p ∈ ps, covered exc s p) (h : Coverage exc s) :
    Coverage exc (alsoCont s b ps) := by
  refine coverage_step ps (recorded_alsoCont s b ps) (groupMono_alsoCont s b ps)
    (fun p hp => ?_) h
  rcases hps with hb | hl
  · subst hb
    exact Or.inr (Or.inl (hasGroup_alsoCont_true s ps p hp))
  · exact covered_mono (groupMono_alsoCont s b ps) (hl p hp)

theorem coverage_contNonEmpty {exc : List Pos} (s : Successors) (b : Bool) (ps : List Pos)
    (hps : b = true ∨ ∀ p ∈ ps, covered exc s p) (h : Coverage exc s) :
    Coverage exc (contNonEmpty s b ps) := by
  unfold contNonEmpty
  split
  · exact coverage_cont s b ps hps h
  · exact h

theorem coverage_quasiAcceptableCont {exc : List Pos} (s : Successors) (ps : List Pos)
    (hps : ∀ p ∈ ps, covered exc s p) (h : Coverage exc s) :
    Coverage exc (quasiAcceptableCont s ps) :=
  coverage_step ps (recorded_quasiAcceptableCont s ps) (groupMono_quasiAcceptableCont s ps)
    (fun p hp => covered_mono (groupMono_quasiAcceptableCont s ps) (hps p hp)) h

theorem coverage_contAny {exc : List Pos} (s : Successors) (h : Coverage exc s) :
    Coverage exc (contAny s) :=
  coverage_step [] (fun p hp => Or.inl (recorded_contAny s p hp))
    (fun p hp => pres_contAny (hasGroup_preserved p) s hp) (fun _ hp => by cases hp) h

theorem coverage_bumpGroup {exc : List Pos} (s : Successors) (h : Coverage exc s) :
    Coverage exc (bumpGroup s) := h

theorem coverage_setGroup {exc : List Pos} (s : Successors) (ps : List Pos)
    (h : Coverage exc s) : Coverage exc (setGroup s ps) := by
  refine coverage_step [] (fun p hp => Or.inl ?_) (groupMono_setGroup s ps)
    (fun _ hp => by cases hp) h
  rw [setGroup_eq] at hp
  exact hp

theorem coverage_curpos {exc : List Pos} (s : Successors) (l : List Pos)
    (hl : ∀ p ∈ l, covered exc s p) (h : Coverage exc s) :
    Coverage exc { s with curpos := l } := by
  intro p hp
  rcases hp with hp | hp
  · exact h p (Or.inl hp)
  · exact hl p hp

theorem recorded_foldl_addsucc (s : Successors) (cs pos : List Pos) (p : Pos)
    (h : recorded (cs.foldl (fun t c => addsucc t c pos) s) p ∨
      p ∈ (cs.foldl (fun t c => addsucc t c pos) s).curpos) :
    (recorded s p ∨ p ∈ s.curpos) ∨ p ∈ cs ++ pos := by
  rw [foldl_addsucc_curpos] at h
  rcases h with h | h
  · rw [foldl_addsucc_eq] at h
    rcases recorded_addAllS s _ _ p h with h1 | h1 | h1
    · exact Or.inl (Or.inl h1)
    · exact Or.inr (List.mem_append_left _ h1)
    · exact Or.inr (List.mem_append_right _ h1)
  · exact Or.inl (Or.inr h)

theorem coverage_findSuccExpr {exc : List Pos} (fset : FileSet) (s : Successors) (x : Node)
    (h : Coverage exc s) : Coverage exc (findSuccExpr fset s x) := by
  unfold findSuccExpr
  simp only []
  refine coverage_step (allPositions fset (some x)) (fun p hp => ?_)
    (groupMono_trans (fun p hp => pres_foldl_addsucc (hasGroup_preserved p) _ _ s hp)
      (groupMono_cont _ true _))
    (fun p hp => Or.inr (Or.inl (hasGroup_cont_true _ _ p hp))) h
  rcases recorded_cont _ _ _ p hp with h1 | h1
  · rcases recorded_foldl_addsucc s _ _ p h1 with h2 | h2
    · exact Or.inl h2
    · exact Or.inr (by simpa using h2)
  · exact Or.inr h1

theorem coverage_findSuccReturn {exc : List Pos} (fset : FileSet) (s : Successors) (x : Node)
    (h : Coverage exc s) : Coverage exc (findSuccReturn fset s x) := by
  unfold findSuccReturn
  simp only []
  refine coverage_step (allPositions fset (some x) ++ [s.curfnend, sentinel]) (fun p hp => ?_)
    (groupMono_trans (fun p hp => (hasGroup_preserved p).onAddsucc s _ _ hp)
      (groupMono_trans (fun p hp => pres_foldl_addsucc (hasGroup_preserved p) _ _ _ hp)
        (groupMono_cont _ true _)))
    (fun p hp => Or.inr (Or.inl (hasGroup_cont_true _ _ p hp))) h
  rcases recorded_cont _ _ _ p hp with h1 | h1
  · rcases recorded_foldl_addsucc _ _ _ p h1 with h2 | h2
    · have h3 := recorded_foldl_addsucc s [s.curfnend]
        (allPositions fset (some x) ++ [s.curfnend, sentinel]) p h2
      rcases h3 with h4 | h4
      · exact Or.inl h4
      · refine Or.inr ?_
        simp only [List.mem_append, List.mem_cons, List.mem_singleton, List.not_mem_nil,
          or_false] at h4 ⊢
        tauto
    · refine Or.inr ?_
      simp only [List.mem_append, List.mem_cons, List.mem_singleton, List.not_mem_nil,
        or_false] at h2 ⊢
      tauto
  · exact Or.inr h1

theorem coverage_bodyOpen {exc : List Pos} (fset : FileSet) (lbrace : Int) (s : Successors)
    (h : Coverage exc s) : Coverage exc (bodyOpen fset lbrace s) :=
  coverage_alsoCont _ true _ (Or.inl rfl) (coverage_bumpGroup s h)

theorem coverage_bodyClose {exc : List Pos} (fset : FileSet) (rbrace : Int) (s : Successors)
    (h : Coverage exc s) : Coverage exc (bodyClose fset rbrace s) :=
  coverage_bumpGroup _ (coverage_alsoCont s true _ (Or.inl rfl) h)

theorem hasGroup_bodyClose (fset : FileSet) (rbrace : Int) (s : Successors) :
    hasGroup (bodyClose fset rbrace s) (ToPos fset rbrace) :=
  hasGroup_alsoCont_true s _ _ (List.mem_singleton.2 rfl)

theorem coverage_forHeaderState {exc : List Pos} (fset : FileSet) (For : Int)
    (Init Cond Post : Option Node) (s : Successors) (h : Coverage exc s) :
    Coverage exc (forHeaderState fset For Init Cond Post s) :=
  coverage_setGroup _ _ (coverage_cont _ true _ (Or.inl rfl)
    (coverage_contNonEmpty _ true _ (Or.inl rfl) (coverage_bumpGroup s h)))

/-- Coverage after a for statement, from the coverage after its body. -/
theorem coverage_for {exc : List Pos} (fset : FileSet) (For : Int)
    (Init Cond Post : Option Node) (Rbrace : Int) (s B : Successors)
    (hB : Coverage exc B) (hm : GroupMono (forHeaderState fset For Init Cond Post s) B)
    (hrb : hasGroup B (ToPos fset Rbrace)) :
    Coverage exc
      (bumpGroup (alsoCont (alsoCont (contNonEmpty B false (allPositions fset Post)) false
        (forCondPositions fset For Cond)) false [ToPos fset Rbrace])) := by
  have hpost : ∀ p ∈ allPositions fset Post, covered exc B p := fun p hp =>
    Or.inr (Or.inl (hm p (hasGroup_setGroup_mem _ _ p hp)))
  have hcond : ∀ p ∈ forCondPositions fset For Cond, covered exc B p := fun p hp =>
    Or.inr (Or.inl (hm p (groupMono_setGroup _ _ p (hasGroup_cont_true _ _ p hp))))
  have h6 := coverage_contNonEmpty B false (allPositions fset Post) (Or.inr hpost) hB
  have m6 := groupMono_contNonEmpty B false (allPositions fset Post)
  have h7 := coverage_alsoCont _ false (forCondPositions fset For Cond)
    (Or.inr (fun p hp => covered_mono m6 (hcond p hp))) h6
  have m7 := groupMono_alsoCont (contNonEmpty B false (allPositions fset Post)) false
    (forCondPositions fset For Cond)
  refine coverage_bumpGroup _ (coverage_alsoCont _ false _ (Or.inr (fun p hp => ?_)) h7)
  rw [List.mem_singleton] at hp
  rw [hp]
  exact Or.inr (Or.inl (m7 _ (m6 _ hrb)))

/-- Coverage after a range statement, from the coverage after its body. -/
theorem coverage_range {exc : List Pos} (fset : FileSet) (For : Int) (B : Successors)
    (hB : Coverage exc B) (hFor : ToPos fset For ∈ exc) :
    Coverage exc (alsoCont B false [ToPos fset For]) := by
  refine coverage_alsoCont B false _ (Or.inr (fun p hp => ?_)) hB
  rw [List.mem_singleton] at hp
  rw [hp]
  exact Or.inr (Or.inr hFor)

theorem coverage_ifHead {exc : List Pos} (fset : FileSet) (Init : Option Node) (Cond : Node)
    (s : Successors) (h : Coverage exc s) :
    Coverage exc
      (cont (contNonEmpty s true (allPositions fset Init)) true
        (allPositions fset (some Cond))) :=
  coverage_cont _ true _ (Or.inl rfl) (coverage_contNonEmpty s true _ (Or.inl rfl) h)

/-- Facts handed to the rest of an if chain after one then-body. -/
theorem if_coverage_next {exc : List Pos} (fset : FileSet) (Init : Option Node) (Cond : Node)
    (Lbrace Rbrace : Int) (Body : List Stmt) (hp cb : List Pos) (s : Successors)
    (hA : Coverage exc (ifArmState fset Init Cond Lbrace Rbrace Body s))
    (hhp : ∀ p ∈ hp, covered exc s p) (hcb : ∀ p ∈ cb, covered exc s p) :
    Coverage exc (ifArmNext fset Init Cond Lbrace Rbrace Body s) ∧
    (∀ p ∈ hp ++ allPositions fset (some Cond),
      covered exc (ifArmNext fset Init Cond Lbrace Rbrace Body s) p) ∧
    (∀ p ∈ allPositions fset (some Cond),
      covered exc (ifArmNext fset Init Cond Lbrace Rbrace Body s) p) ∧
    (∀ p ∈ cb ++ (ifArmState fset Init Cond Lbrace Rbrace Body s).curpos,
      covered exc (ifArmNext fset Init Cond Lbrace Rbrace Body s) p) := by
  have m1 : GroupMono s (ifArmState fset Init Cond Lbrace Rbrace Body s) :=
    groupMono_trans (groupMono_contNonEmpty s true _)
      (groupMono_trans (groupMono_cont _ true _) (groupMono_findSuccBody fset _ _ _ _))
  have m2 : GroupMono (ifArmState fset Init Cond Lbrace Rbrace Body s)
      (ifArmNext fset Init Cond Lbrace Rbrace Body s) :=
    fun p h => groupMono_quasiAcceptableCont _ _ p h
  have hcondA : ∀ p ∈ allPositions fset (some Cond),
      covered exc (ifArmState fset Init Cond Lbrace Rbrace Body s) p := fun p hp' =>
    Or.inr (Or.inl (groupMono_findSuccBody fset _ _ _ _ p (hasGroup_cont_true _ _ p hp')))
  have hcondN : ∀ p ∈ allPositions fset (some Cond),
      covered exc (ifArmNext fset Init Cond Lbrace Rbrace Body s) p := fun p hp' =>
    covered_mono m2 (hcondA p hp')
  refine ⟨?_, fun p hp' => ?_, hcondN, fun p hp' => ?_⟩
  · exact coverage_curpos _ _
      (fun p hp' => covered_mono (groupMono_quasiAcceptableCont _ _) (hcondA p hp'))
      (coverage_quasiAcceptableCont _ _ hcondA hA)
  · rcases List.mem_append.1 hp' with h | h
    · exact covered_mono (groupMono_trans m1 m2) (hhp p h)
    · exact hcondN p h
  · rcases List.mem_append.1 hp' with h | h
    · exact covered_mono (groupMono_trans m1 m2) (hcb p h)
    · exact covered_mono m2 (hA p (Or.inr h))

/-- Coverage after the terminal else block of an if chain. -/
theorem if_coverage_block {exc : List Pos} (fset : FileSet) (Lbrace Rbrace : Int)
    (Body : List Stmt) (hp lic cb : List Pos) (s : Successors)
    (hA : Coverage exc (findSuccBody fset Lbrace Rbrace Body s))
    (hhp : ∀ p ∈ hp, covered exc s p) (hlic : ∀ p ∈ lic, covered exc s p)
    (hcb : ∀ p ∈ cb, covered exc s p) :
    Coverage exc (findSuccIfLoop fset (.Block Lbrace Rbrace Body) hp lic cb s) := by
  rw [findSuccIfLoop_Block]
  have m1 := groupMono_findSuccBody fset Lbrace Rbrace Body s
  have m2 := groupMono_quasiAcceptableCont (findSuccBody fset Lbrace Rbrace Body s) lic
  refine coverage_curpos _ _ (fun p hp' => ?_)
    (coverage_quasiAcceptableCont _ _ (fun p hp' => covered_mono m1 (hlic p hp')) hA)
  simp only [List.mem_append] at hp'
  rcases hp' with (h | h) | h
  · exact covered_mono (groupMono_trans m1 m2) (hcb p h)
  · exact covered_mono m2 (hA p (Or.inr h))
  · exact covered_mono (groupMono_trans m1 m2) (hhp p h)

theorem coverage_clauseHeaderLoop_aux {exc : List Pos} (fset : FileSet)
    (hdr : List (Option Node)) (t : Successors) (h : Coverage exc t) :
    Coverage exc (hdr.foldl (fun t x =>
      { setGroup t (allPositions fset x) with
        curpos := (setGroup t (allPositions fset x)).curpos ++ allPositions fset x }) t) := by
  induction hdr generalizing t with
  | nil => exact h
  | cons x hdr ih =>
    rw [List.foldl_cons]
    apply ih
    refine coverage_curpos _ _ (fun p hp => ?_) (coverage_setGroup t _ h)
    rcases List.mem_append.1 hp with h1 | h1
    · rw [setGroup_curpos] at h1
      exact covered_mono (groupMono_setGroup t _) (h p (Or.inr h1))
    · exact Or.inr (Or.inl (hasGroup_setGroup_mem t _ p h1))

/-- Coverage on entry to a clause body; the cursor appended to `clausePositions` is covered
as well. -/
theorem coverage_clauseEnter {exc : List Pos} (fset : FileSet) (assign : Option Node)
    (s : Successors) (hdr : List (Option Node)) (stmtPos : Int)
    (ha : ∀ p ∈ allPositions fset assign, p ∈ exc) (h : Coverage exc s) :
    Coverage exc (clauseEnter fset assign s hdr stmtPos).1 ∧
    (∀ p ∈ (clauseEnter fset assign s hdr stmtPos).2,
      covered exc (clauseEnter fset assign s hdr stmtPos).1 p) := by
  have h1 : Coverage exc (clauseHeaderLoop fset s hdr) := by
    unfold clauseHeaderLoop
    exact coverage_clauseHeaderLoop_aux fset hdr _
      (coverage_curpos s [] (fun _ hp => by cases hp) h)
  have h3 : Coverage exc
      { setGroup (clauseHeaderLoop fset s hdr) [ToPos fset stmtPos] with
        curpos := (setGroup (clauseHeaderLoop fset s hdr) [ToPos fset stmtPos]).curpos
          ++ [ToPos fset stmtPos] } := by
    refine coverage_curpos _ _ (fun p hp => ?_) (coverage_setGroup _ _ h1)
    rcases List.mem_append.1 hp with h2 | h2
    · rw [setGroup_curpos] at h2
      exact covered_mono (groupMono_setGroup _ _) (h1 p (Or.inr h2))
    · exact Or.inr (Or.inl (hasGroup_setGroup_mem _ _ p h2))
  cases assign with
  | none => exact ⟨h3, fun p hp => h3 p (Or.inr hp)⟩
  | some a =>
    refine ⟨coverage_cont _ false _ (Or.inr (fun p hp => Or.inr (Or.inr (ha p hp)))) h3,
      fun p hp => covered_mono (groupMono_cont _ false _) (h3 p (Or.inr hp))⟩

theorem groupMono_clauseEnter (fset : FileSet) (assign : Option Node) (s : Successors)
    (hdr : List (Option Node)) (stmtPos : Int) :
    GroupMono s (clauseEnter fset assign s hdr stmtPos).1 :=
  fun p h => pres_clauseEnter (hasGroup_preserved p) fset assign s hdr stmtPos h

theorem groupMono_bodyOpen (fset : FileSet) (lbrace : Int) (s : Successors) :
    GroupMono s (bodyOpen fset lbrace s) :=
  fun p h => pres_bodyOpen (hasGroup_preserved p) fset lbrace s h

theorem groupMono_bodyClose (fset : FileSet) (rbrace : Int) (s : Successors) :
    GroupMono s (bodyClose fset rbrace s) :=
  fun p h => pres_bodyClose (hasGroup_preserved p) fset rbrace s h

theorem groupMono_findSuccStmts (fset : FileSet) (list : List Stmt) (s : Successors) :
    GroupMono s (findSuccStmts fset list s) :=
  fun p h => pres_findSuccStmts (hasGroup_preserved p) fset list s (fun _ _ => trivial) h

/-- Referenced positions of a state whose `S` is `addAll s.S cs pos` and whose `Sq` is that
of `s`. -/
theorem recorded_of_tables (s : Successors) {t : Successors} (cs pos : List Pos) (p : Pos)
    (h : recorded t p) (hS : t.S = addAll s.S cs pos) (hSq : t.Sq = s.Sq) :
    recorded s p ∨ p ∈ cs ∨ p ∈ pos := by
  apply recorded_addAllS s cs pos p
  unfold recorded inS inSq at h ⊢
  rw [hS, hSq] at h
  exact h

theorem groupMono_switchFinish (fset : FileSet) (key : Int) (tag : Option Node) (rbrace : Int)
    (h : Successors) (r : Successors × List Pos × List Pos) :
    GroupMono r.1 (switchFinish fset key tag rbrace h r) :=
  fun p hp => pres_switchFinish (hasGroup_preserved p) fset key tag rbrace h r
    (fun _ _ => trivial) hp

/-- Coverage after the part of `findSuccSwitch` that follows the clause loop. -/
theorem coverage_switchFinish {exc : List Pos} (fset : FileSet) (key : Int)
    (tag : Option Node) (rbrace : Int) (h : Successors)
    (r : Successors × List Pos × List Pos) (hr : Coverage exc r.1)
    (hcp : ∀ p ∈ r.2.1, covered exc r.1 p) (hH : ∀ p ∈ h.curpos, covered exc r.1 p)
    (htp : ∀ p ∈ switchTagPositions fset key tag, covered exc r.1 p)
    (hcb : ∀ p ∈ r.2.2, covered exc r.1 p) (hrb : covered exc r.1 (ToPos fset rbrace)) :
    Coverage exc (switchFinish fset key tag rbrace h r) := by
  refine coverage_step
    (r.2.1 ++ (h.curpos ++ (switchTagPositions fset key tag ++ (r.2.2 ++ [ToPos fset rbrace]))))
    (fun p hp => ?_) (groupMono_switchFinish fset key tag rbrace h r) (fun p hp => ?_) hr
  · rw [switchFinish_eq] at hp
    rcases hp with hp | hp
    · have e3 := recorded_of_tables
        { r.1 with
          S := addAll (addAll r.1.S r.2.1 r.2.1) h.curpos r.2.1
          Sq := addAll r.1.Sq r.2.1 (switchTagPositions fset key tag) }
        (h.curpos ++ r.2.1) [ToPos fset rbrace] p hp rfl rfl
      rcases e3 with h2 | h2 | h2
      · have e2 := recorded_of_tables
          { r.1 with
            S := addAll r.1.S r.2.1 r.2.1
            Sq := addAll r.1.Sq r.2.1 (switchTagPositions fset key tag) }
          h.curpos r.2.1 p h2 rfl rfl
        rcases e2 with h3 | h3 | h3
        · have e1 := recorded_of_tables
            { r.1 with Sq := addAll r.1.Sq r.2.1 (switchTagPositions fset key tag) }
            r.2.1 r.2.1 p h3 rfl rfl
          rcases e1 with h4 | h4 | h4
          · rcases recorded_addAllSq r.1 _ _ p h4 with h5 | h5 | h5
            · exact Or.inl (Or.inl h5)
            · exact Or.inr (by simp [h5])
            · exact Or.inr (by simp [h5])
          · exact Or.inr (by simp [h4])
          · exact Or.inr (by simp [h4])
        · exact Or.inr (by simp [h3])
        · exact Or.inr (by simp [h3])
      · refine Or.inr ?_
        simp only [List.mem_append] at h2 ⊢
        tauto
      · refine Or.inr ?_
        simp only [List.mem_append, List.mem_singleton] at h2 ⊢
        tauto
    · refine Or.inr ?_
      have hp' : p ∈ ((h.curpos ++ r.2.1) ++ [ToPos fset rbrace]) ++ r.2.2 := hp
      simp only [List.mem_append] at hp' ⊢
      tauto
  · refine covered_mono (groupMono_switchFinish fset key tag rbrace h r) ?_
    simp only [List.mem_append, List.mem_singleton] at hp
    rcases hp with hp | hp | hp | hp | hp
    · exact hcp p hp
    · exact hH p hp
    · exact htp p hp
    · exact hcb p hp
    · rw [hp]; exact hrb

theorem coverage_switchHeader {exc : List Pos} (fset : FileSet) (key : Int)
    (init tag : Option Node) (s : Successors) (h : Coverage exc s) :
    Coverage exc (switchHeader fset key init tag s) :=
  coverage_cont _ true _ (Or.inl rfl)
    (coverage_contNonEmpty _ true _ (Or.inl rfl) (coverage_bumpGroup s h))

/-- Coverage after a switch, select or type switch, from the facts about its clause
loop. -/
theorem coverage_switch {exc : List Pos} (fset : FileSet) (key : Int)
    (init tag assign : Option Node) (rbrace : Int) (clauses : List Clause) (s : Successors)
    (r : Successors × List Pos × List Pos)
    (hU : ∀ p ∈ switchUngrouped fset assign rbrace clauses, p ∈ exc)
    (hs : Coverage exc s)
    (hr : Coverage exc r.1 ∧ (∀ p ∈ r.2.1, covered exc r.1 p) ∧
      (∀ p ∈ r.2.2, covered exc r.1 p) ∧
      GroupMono (switchHeader fset key init tag s) r.1 ∧
      (clauses ≠ [] → hasGroup r.1 (ToPos fset rbrace))) :
    Coverage exc (switchFinish fset key tag rbrace (switchHeader fset key init tag s) r) := by
  have hh := coverage_switchHeader fset key init tag s hs
  obtain ⟨h1, h2, h3, h4, h5⟩ := hr
  refine coverage_switchFinish fset key tag rbrace _ r h1 h2
    (fun p hp => covered_mono h4 (hh p (Or.inr hp)))
    (fun p hp => covered_mono h4 (hh p (Or.inr (by rw [switchHeader_curpos]; exact hp))))
    h3 ?_
  cases clauses with
  | nil => exact Or.inr (Or.inr (hU _ (by simp [switchUngrouped])))
  | cons c rest => exact Or.inr (Or.inl (h5 (by simp)))

mutual
/-- Walking a statement keeps group coverage, the positions `stmtUngrouped` of the
statement being among the exceptions. -/
theorem coverage_findSuccStmt (fset : FileSet) (exc : List Pos) :
    ∀ (stmt : Stmt) (s : Successors), (∀ p ∈ stmtUngrouped fset stmt, p ∈ exc) →
      Coverage exc s → Coverage exc (findSuccStmt fset stmt s)
  | .DeclStmt Tok Specs, s, _, h => by
    rw [findSuccStmt]
    split
    · have : ∀ (l : List Node) (t : Successors), Coverage exc t →
          Coverage exc
            (l.foldl (fun t spec => cont t true (allPositions fset (some spec))) t) := by
        intro l
        induction l with
        | nil => intro t ht; exact ht
        | cons a l ih => intro t ht; exact ih _ (coverage_cont t true _ (Or.inl rfl) ht)
      exact this Specs s h
    · exact h
  | .GoStmt x, s, _, h => by rw [findSuccStmt]; exact coverage_cont s true _ (Or.inl rfl) h
  | .SendStmt x, s, _, h => by rw [findSuccStmt]; exact coverage_cont s true _ (Or.inl rfl) h
  | .DeferStmt x, s, _, h => by
    rw [findSuccStmt]
    refine coverage_alsoCont _ false _ (Or.inr (fun p hp => ?_))
      (coverage_cont s true _ (Or.inl rfl) h)
    exact Or.inl (List.mem_singleton.1 hp)
  | .EmptyStmt, s, _, h => by rw [findSuccStmt]; exact h
  | .ExprStmt x, s, _, h => by rw [findSuccStmt]; exact coverage_findSuccExpr fset s x h
  | .AssignStmt x, s, _, h => by rw [findSuccStmt]; exact coverage_findSuccExpr fset s x h
  | .IncDecStmt x, s, _, h => by rw [findSuccStmt]; exact coverage_findSuccExpr fset s x h
  | .ForStmt For Init Cond Post Lbrace Rbrace Body, s, hU, h => by
    rw [findSuccStmt_ForStmt]
    rw [stmtUngrouped] at hU
    apply coverage_for fset For Init Cond Post Rbrace s
    · exact coverage_bodyClose fset Rbrace _
        (coverage_findSuccStmts fset exc Body _ hU
          (coverage_bodyOpen fset Lbrace _ (coverage_forHeaderState fset For Init Cond Post s h)))
    · exact groupMono_findSuccBody fset Lbrace Rbrace Body _
    · exact hasGroup_bodyClose fset Rbrace _
  | .RangeStmt For X Lbrace Rbrace Body, s, hU, h => by
    rw [findSuccStmt]
    rw [stmtUngrouped] at hU
    apply coverage_range fset For _ _ (hU _ (List.mem_cons_self _ _))
    exact coverage_bodyClose fset Rbrace _
      (coverage_findSuccStmts fset exc Body _ (fun p hp => hU p (List.mem_cons_of_mem _ hp))
        (coverage_bodyOpen fset Lbrace _
          (coverage_cont _ true _ (Or.inl rfl)
            (coverage_setGroup _ _ (coverage_bumpGroup s h)))))
  | .IfStmt x, s, hU, h => by
    rw [findSuccStmt_IfStmt]
    rw [stmtUngrouped] at hU
    exact coverage_findSuccIfLoop fset exc x [] [] [] (bumpGroup s) hU
      (coverage_bumpGroup s h) (fun _ hp => by cases hp) (fun _ hp => by cases hp)
      (fun _ hp => by cases hp)
  | .LabeledStmt Colon st, s, hU, h => by
    rw [findSuccStmt]
    rw [stmtUngrouped] at hU
    exact coverage_findSuccStmt fset exc st _ hU (coverage_alsoCont s true _ (Or.inl rfl) h)
  | .SelectStmt Select Rbrace Clauses, s, hU, h => by
    rw [findSuccStmt]
    rw [stmtUngrouped] at hU
    have hh := coverage_switchHeader fset Select none none s h
    refine coverage_switch fset Select none none none Rbrace Clauses s _
      (fun p hp => hU p (List.mem_append_left _ hp)) h ?_
    exact coverage_findSuccClauses fset exc none Rbrace (switchTagPositions fset Select none)
      Clauses [] [] _ (fun p hp => hU p (List.mem_append_right _ hp))
      (fun _ p hp => by simp [allPositions] at hp) hh
      (fun _ hp => by cases hp) (fun _ hp => by cases hp)
      (fun p hp => hh p (Or.inr (by rw [switchHeader_curpos]; exact hp)))
  | .SwitchStmt Switch Init Tag Rbrace Clauses, s, hU, h => by
    rw [findSuccStmt]
    rw [stmtUngrouped] at hU
    have hh := coverage_switchHeader fset Switch Init Tag s h
    refine coverage_switch fset Switch Init Tag none Rbrace Clauses s _
      (fun p hp => hU p (List.mem_append_left _ hp)) h ?_
    exact coverage_findSuccClauses fset exc none Rbrace (switchTagPositions fset Switch Tag)
      Clauses [] [] _ (fun p hp => hU p (List.mem_append_right _ hp))
      (fun _ p hp => by simp [allPositions] at hp) hh
      (fun _ hp => by cases hp) (fun _ hp => by cases hp)
      (fun p hp => hh p (Or.inr (by rw [switchHeader_curpos]; exact hp)))
  | .TypeSwitchStmt Switch Init Assign Rbrace Clauses, s, hU, h => by
    rw [findSuccStmt]
    rw [stmtUngrouped] at hU
    have hh := coverage_switchHeader fset Switch Init none s h
    refine coverage_switch fset Switch Init none (some Assign) Rbrace Clauses s _
      (fun p hp => hU p (List.mem_append_left _ hp)) h ?_
    refine coverage_findSuccClauses fset exc (some Assign) Rbrace
      (switchTagPositions fset Switch none)
      Clauses [] [] _ (fun p hp => hU p (List.mem_append_right _ hp))
      (fun hne p hp => ?_) hh
      (fun _ hp => by cases hp) (fun _ hp => by cases hp)
      (fun p hp => hh p (Or.inr (by rw [switchHeader_curpos]; exact hp)))
    apply hU p
    apply List.mem_append_left
    cases Clauses with
    | nil => exact absurd rfl hne
    | cons c rest => exact hp
  | .BranchStmt x, s, _, h => by
    rw [findSuccStmt]
    exact coverage_contAny _ (coverage_cont s true _ (Or.inl rfl) h)
  | .ReturnStmt x, s, _, h => by rw [findSuccStmt]; exact coverage_findSuccReturn fset s x h
  | .Unknown x, s, _, h => by rw [findSuccStmt]; exact h
/-- The statement loop of a body keeps group coverage. -/
theorem coverage_findSuccStmts (fset : FileSet) (exc : List Pos) :
    ∀ (list : List Stmt) (s : Successors), (∀ p ∈ stmtsUngrouped fset list, p ∈ exc) →
      Coverage exc s → Coverage exc (findSuccStmts fset list s)
  | [], s, _, h => by rw [findSuccStmts]; exact h
  | stmt :: list, s, hU, h => by
    rw [findSuccStmts]
    rw [stmtsUngrouped] at hU
    exact coverage_findSuccStmts fset exc list _ (fun p hp => hU p (List.mem_append_right _ hp))
      (coverage_findSuccStmt fset exc stmt s (fun p hp => hU p (List.mem_append_left _ hp)) h)
/-- The loop of `findSuccIf` keeps group coverage when its saved positions are covered. -/
theorem coverage_findSuccIfLoop (fset : FileSet) (exc : List Pos) :
    ∀ (x : IfChain) (hp lic cb : List Pos) (s : Successors),
      (∀ p ∈ ifUngrouped fset x, p ∈ exc) → Coverage exc s →
      (∀ p ∈ hp, covered exc s p) → (∀ p ∈ lic, covered exc s p) →
      (∀ p ∈ cb, covered exc s p) →
      Coverage exc (findSuccIfLoop fset x hp lic cb s)
  | .nil, hp, lic, cb, s, _, h, hhp, _, hcb => by
    rw [findSuccIfLoop_nil]
    refine coverage_curpos s _ (fun p hp' => ?_) h
    simp only [List.mem_append] at hp'
    rcases hp' with (h1 | h1) | h1
    · exact h p (Or.inr h1)
    · exact hcb p h1
    · exact hhp p h1
  | .If Init Cond Lbrace Rbrace Body Else, hp, lic, cb, s, hU, h, hhp, _, hcb => by
    rw [findSuccIfLoop_If]
    rw [ifUngrouped] at hU
    have hA : Coverage exc (ifArmState fset Init Cond Lbrace Rbrace Body s) :=
      coverage_bodyClose fset Rbrace _
        (coverage_findSuccStmts fset exc Body _ (fun p hp => hU p (List.mem_append_left _ hp))
          (coverage_bodyOpen fset Lbrace _ (coverage_ifHead fset Init Cond s h)))
    obtain ⟨h1, h2, h3, h4⟩ :=
      if_coverage_next fset Init Cond Lbrace Rbrace Body hp cb s hA hhp hcb
    exact coverage_findSuccIfLoop fset exc Else _ _ _ _
      (fun p hp => hU p (List.mem_append_right _ hp)) h1 h2 h3 h4
  | .Block Lbrace Rbrace Body, hp, lic, cb, s, hU, h, hhp, hlic, hcb => by
    rw [ifUngrouped] at hU
    apply if_coverage_block fset Lbrace Rbrace Body hp lic cb s _ hhp hlic hcb
    exact coverage_bodyClose fset Rbrace _
      (coverage_findSuccStmts fset exc Body _ hU (coverage_bodyOpen fset Lbrace _ h))
/-- The clause loop of `findSuccSwitch` keeps group coverage, also of its locals, and sets
the group of the closing brace when there is a clause. -/
theorem coverage_findSuccClauses (fset : FileSet) (exc : List Pos) (assign : Option Node)
    (rbrace : Int) (tagPositions : List Pos) :
    ∀ (clauses : List Clause) (cp cb : List Pos) (s : Successors),
      (∀ p ∈ clausesUngrouped fset clauses, p ∈ exc) →
      (clauses ≠ [] → ∀ p ∈ allPositions fset assign, p ∈ exc) →
      Coverage exc s → (∀ p ∈ cp, covered exc s p) → (∀ p ∈ cb, covered exc s p) →
      (∀ p ∈ tagPositions, covered exc s p) →
      Coverage exc (findSuccClauses fset assign rbrace tagPositions clauses cp cb s).1 ∧
      (∀ p ∈ (findSuccClauses fset assign rbrace tagPositions clauses cp cb s).2.1,
        covered exc (findSuccClauses fset assign rbrace tagPositions clauses cp cb s).1 p) ∧
      (∀ p ∈ (findSuccClauses fset assign rbrace tagPositions clauses cp cb s).2.2,
        covered exc (findSuccClauses fset assign rbrace tagPositions clauses cp cb s).1 p) ∧
      GroupMono s (findSuccClauses fset assign rbrace tagPositions clauses cp cb s).1 ∧
      (clauses ≠ [] →
        hasGroup (findSuccClauses fset assign rbrace tagPositions clauses cp cb s).1
          (ToPos fset rbrace))
  | [], cp, cb, s, _, _, h, hcp, hcb, _ => by
    rw [findSuccClauses]
    exact ⟨h, hcp, hcb, groupMono_refl s, fun hne => absurd rfl hne⟩
  | .CaseClause Case Exprs Colon Body :: rest, cp, cb, s, hU, ha, h, hcp, hcb, htp => by
    rw [findSuccClauses]
    rw [clausesUngrouped] at hU
    obtain ⟨he1, he2⟩ := coverage_clauseEnter fset assign s (Exprs.map some) Case
      (ha (by simp)) h
    have m1 := groupMono_clauseEnter fset assign s (Exprs.map some) Case
    have m2 := groupMono_findSuccBody fset Colon rbrace Body
      (clauseEnter fset assign s (Exprs.map some) Case).1
    have m3 := groupMono_quasiAcceptableCont
      (findSuccBody fset Colon rbrace Body (clauseEnter fset assign s (Exprs.map some) Case).1)
      tagPositions
    have h5 : Coverage exc
        (findSuccBody fset Colon rbrace Body (clauseEnter fset assign s (Exprs.map some) Case).1) :=
      coverage_bodyClose fset rbrace _
        (coverage_findSuccStmts fset exc Body _ (fun p hp => hU p (List.mem_append_left _ hp))
          (coverage_bodyOpen fset Colon _ he1))
    have h6 := coverage_quasiAcceptableCont _ tagPositions
      (fun p hp => covered_mono (groupMono_trans m1 m2) (htp p hp)) h5
    obtain ⟨r1, r2, r3, r4, _⟩ := coverage_findSuccClauses fset exc assign rbrace tagPositions
      rest (cp ++ (clauseEnter fset assign s (Exprs.map some) Case).2)
      (cb ++ (findSuccBody fset Colon rbrace Body
        (clauseEnter fset assign s (Exprs.map some) Case).1).curpos)
      (quasiAcceptableCont (findSuccBody fset Colon rbrace Body
        (clauseEnter fset assign s (Exprs.map some) Case).1) tagPositions)
      (fun p hp => hU p (List.mem_append_right _ hp)) (fun _ => ha (by simp)) h6
      (fun p hp => by
        rcases List.mem_append.1 hp with h' | h'
        · exact covered_mono (groupMono_trans m1 (groupMono_trans m2 m3)) (hcp p h')
        · exact covered_mono (groupMono_trans m2 m3) (he2 p h'))
      (fun p hp => by
        rcases List.mem_append.1 hp with h' | h'
        · exact covered_mono (groupMono_trans m1 (groupMono_trans m2 m3)) (hcb p h')
        · exact covered_mono m3 (h5 p (Or.inr h')))
      (fun p hp => covered_mono (groupMono_trans m1 (groupMono_trans m2 m3)) (htp p hp))
    exact ⟨r1, r2, r3, groupMono_trans m1 (groupMono_trans m2 (groupMono_trans m3 r4)),
      fun _ => r4 _ (m3 _ (hasGroup_bodyClose fset rbrace _))⟩
  | .CommClause Case Comm Colon Body :: rest, cp, cb, s, hU, ha, h, hcp, hcb, htp => by
    rw [findSuccClauses]
    rw [clausesUngrouped] at hU
    obtain ⟨he1, he2⟩ := coverage_clauseEnter fset assign s [Comm] Case
      (ha (by simp)) h
    have m1 := groupMono_clauseEnter fset assign s [Comm] Case
    have m2 := groupMono_findSuccBody fset Colon rbrace Body
      (clauseEnter fset assign s [Comm] Case).1
    have m3 := groupMono_quasiAcceptableCont
      (findSuccBody fset Colon rbrace Body (clauseEnter fset assign s [Comm] Case).1)
      tagPositions
    have h5 : Coverage exc
        (findSuccBody fset Colon rbrace Body (clauseEnter fset assign s [Comm] Case).1) :=
      coverage_bodyClose fset rbrace _
        (coverage_findSuccStmts fset exc Body _ (fun p hp => hU p (List.mem_append_left _ hp))
          (coverage_bodyOpen fset Colon _ he1))
    have h6 := coverage_quasiAcceptableCont _ tagPositions
      (fun p hp => covered_mono (groupMono_trans m1 m2) (htp p hp)) h5
    obtain ⟨r1, r2, r3, r4, _⟩ := coverage_findSuccClauses fset exc assign rbrace tagPositions
      rest (cp ++ (clauseEnter fset assign s [Comm] Case).2)
      (cb ++ (findSuccBody fset Colon rbrace Body
        (clauseEnter fset assign s [Comm] Case).1).curpos)
      (quasiAcceptableCont (findSuccBody fset Colon rbrace Body
        (clauseEnter fset assign s [Comm] Case).1) tagPositions)
      (fun p hp => hU p (List.mem_append_right _ hp)) (fun _ => ha (by simp)) h6
      (fun p hp => by
        rcases List.mem_append.1 hp with h' | h'
        · exact covered_mono (groupMono_trans m1 (groupMono_trans m2 m3)) (hcp p h')
        · exact covered_mono (groupMono_trans m2 m3) (he2 p h'))
      (fun p hp => by
        rcases List.mem_append.1 hp with h' | h'
        · exact covered_mono (groupMono_trans m1 (groupMono_trans m2 m3)) (hcb p h')
        · exact covered_mono m3 (h5 p (Or.inr h')))
      (fun p hp => covered_mono (groupMono_trans m1 (groupMono_trans m2 m3)) (htp p hp))
    exact ⟨r1, r2, r3, groupMono_trans m1 (groupMono_trans m2 (groupMono_trans m3 r4)),
      fun _ => r4 _ (m3 _ (hasGroup_bodyClose fset rbrace _))⟩
end

theorem coverage_findSuccBody (fset : FileSet) (exc : List Pos) (lbrace rbrace : Int)
    (list : List Stmt) (s : Successors) (hU : ∀ p ∈ stmtsUngrouped fset list, p ∈ exc)
    (h : Coverage exc s) : Coverage exc (findSuccBody fset lbrace rbrace list s) :=
  coverage_bodyClose fset rbrace _
    (coverage_findSuccStmts fset exc list _ hU (coverage_bodyOpen fset lbrace s h))

/-- Group coverage after the function driver, from the coverage of the tables before. -/
theorem coverage_findSuccFunc (fset : FileSet) (exc : List Pos) (s : Successors)
    (pos end_ lbrace rbrace : Int) (body : List Stmt)
    (hU : ∀ p ∈ stmtsUngrouped fset body, p ∈ exc)
    (hs : ∀ p, recorded s p → covered exc s p) :
    Coverage exc (findSuccFunc fset s pos end_ lbrace rbrace body) := by
  have h3 : Coverage exc
      (setGroup { { s with curpos := [ToPos fset pos] } with curfnend := ToPos fset end_ }
        [ToPos fset pos]) := by
    intro p hp
    rcases hp with hp | hp
    · rw [setGroup_eq] at hp
      exact covered_mono (fun q hq => groupMono_setGroup
        { { s with curpos := [ToPos fset pos] } with curfnend := ToPos fset end_ } _ q hq)
        (hs p hp)
    · rw [setGroup_curpos] at hp
      exact Or.inr (Or.inl (hasGroup_setGroup_mem _ _ p hp))
  have h5 := coverage_cont _ false [sentinel]
    (Or.inr (fun p hp => Or.inl (List.mem_singleton.1 hp)))
    (coverage_findSuccBody fset exc lbrace rbrace body _ hU h3)
  exact h5

/-- C21, as amended: when the function driver has analysed a function, starting from tables
in which this holds, every position that is a key of `S` or `Sq` or a member of some `S[c]`
or `Sq[c]` is the sentinel, or has an entry in `G`, or is one of the positions the walker
records only with `set_group = false`: the line of the `for` keyword of a range statement,
a line of the assignment of a type switch that has clauses, or the closing brace of a
switch, select or type switch without clauses (`exc` is any list that holds these
positions of the function). -/
theorem group_coverage (fset : FileSet) (exc : List Pos) (s : Successors)
    (pos end_ lbrace rbrace : Int) (body : List Stmt)
    (hU : ∀ p ∈ stmtsUngrouped fset body, p ∈ exc)
    (hs : ∀ p, recorded s p → p = sentinel ∨ hasGroup s p ∨ p ∈ exc) (p : Pos)
    (hp : recorded (findSuccFunc fset s pos end_ lbrace rbrace body) p) :
    p = sentinel ∨ hasGroup (findSuccFunc fset s pos end_ lbrace rbrace body) p ∨ p ∈ exc :=
  coverage_findSuccFunc fset exc s pos end_ lbrace rbrace body hU hs p (Or.inl hp)

/-- C21, witness: in the function whose type switch has its assignment on lines 2 and 3,
analysed from empty tables, the exceptions are lines 2 and 3, and line 5 (the clause body),
a key of `S`, has a group. -/
theorem group_coverage_witness :
    Pos.mk "f.go" 5 = sentinel ∨ hasGroup typeSwitchOnTwoLines (Pos.mk "f.go" 5) ∨
      Pos.mk "f.go" 5 ∈ [Pos.mk "f.go" 2, Pos.mk "f.go" 3] :=
  group_coverage fsetTenPerLine [Pos.mk "f.go" 2, Pos.mk "f.go" 3] emptyState 10 71 18 70
    [.TypeSwitchStmt 20 none (Node.mk 27 38) 60
      [.CaseClause 40 [Node.mk 45 48] 48 [.AssignStmt (Node.mk 50 55)]]]
    (by decide)
    (fun p hp => by
      rcases hp with h | h | ⟨c, h⟩ | ⟨c, h⟩
      · cases h
      · cases h
      · cases h
      · cases h)
    (Pos.mk "f.go" 5) (Or.inl (by decide))

/-! ## Statements without positions (C23) -/

theorem cont_nil (s : Successors) :
    cont s true [] = { s with S := addAll s.S s.curpos [], curpos := [] } := by
  rw [cont_eq]
  rfl

/-- A simple statement, single variable spec or branch statement without positions leaves
the state as `cont(true)` without positions does. -/
theorem findSuccStmt_empty (fset : FileSet) (s : Successors) (x : Node) (st : Stmt)
    (hx : allPositions fset (some x) = [])
    (hst : st = .ExprStmt x ∨ st = .AssignStmt x ∨ st = .IncDecStmt x ∨
      st = .DeclStmt Token.VAR [x] ∨ st = .BranchStmt x) :
    findSuccStmt fset st s = { s with S := addAll s.S s.curpos [], curpos := [] } := by
  have he : findSuccExpr fset s x = { s with S := addAll s.S s.curpos [], curpos := [] } := by
    rw [findSuccExpr_eq, hx, cont_nil]
    rfl
  rcases hst with h | h | h | h | h
  · rw [h, findSuccStmt]; exact he
  · rw [h, findSuccStmt]; exact he
  · rw [h, findSuccStmt]; exact he
  · rw [h, findSuccStmt, if_pos rfl]
    show cont s true (allPositions fset (some x)) = _
    rw [hx, cont_nil]
  · rw [h, findSuccStmt, hx, cont_nil, contAny_eq]
    rfl

/-- C23, as amended: for every simple statement, single variable spec or branch statement
whose positions resolve to the empty sequence, walking that statement leaves `Sq` and `G`
as they were and adds no member and no `Any` flag to any entry of `S`, but it replaces the
cursor by the empty sequence, so the lines of the old frontier do not become predecessors
of the next statement: the `cont` or `alsoCont` that comes next adds no member to any
entry of `S`. -/
theorem empty_positions_spec (fset : FileSet) (s : Successors) (x : Node) (st : Stmt)
    (hx : allPositions fset (some x) = [])
    (hst : st = .ExprStmt x ∨ st = .AssignStmt x ∨ st = .IncDecStmt x ∨
      st = .DeclStmt Token.VAR [x] ∨ st = .BranchStmt x) :
    (findSuccStmt fset st s).Sq = s.Sq ∧
    (findSuccStmt fset st s).G = s.G ∧
    (∀ c q, inS (findSuccStmt fset st s) c q = inS s c q) ∧
    (∀ c, (tableGet (findSuccStmt fset st s).S c).Any = (tableGet s.S c).Any) ∧
    (findSuccStmt fset st s).curpos = [] ∧
    (∀ (b : Bool) (ps : List Pos) (c q : Pos),
      inS (cont (findSuccStmt fset st s) b ps) c q = inS s c q ∧
      inS (alsoCont (findSuccStmt fset st s) b ps) c q = inS s c q) := by
  rw [findSuccStmt_empty fset s x st hx hst]
  have hin : ∀ c q, inS { s with S := addAll s.S s.curpos [], curpos := [] } c q = inS s c q := by
    intro c q
    show (tableGet (addAll s.S s.curpos []) c).Contains q = _
    rw [addAll_Contains]
    simp [inS]
  refine ⟨rfl, rfl, hin, fun c => addAll_Any s.S s.curpos [] c, rfl, fun b ps c q => ?_⟩
  rw [inS_cont, inS_alsoCont, hin]
  simp

/-- C23, witness: the call spanning two files in the source of `fsetCrossFile`, walked with
the cursor at line 2 of `f.go`, keeps `G`, empties the cursor, and the next `cont` does not
make line 3 of `g.go` a successor of `f.go:2`. -/
theorem empty_positions_spec_witness :
    (findSuccStmt fsetCrossFile (.ExprStmt (Node.mk 30 40)) stateBeforeCrossFile).G
      = stateBeforeCrossFile.G ∧
    (findSuccStmt fsetCrossFile (.ExprStmt (Node.mk 30 40)) stateBeforeCrossFile).curpos = [] ∧
    inS (cont (findSuccStmt fsetCrossFile (.ExprStmt (Node.mk 30 40)) stateBeforeCrossFile)
      true [Pos.mk "g.go" 3]) (Pos.mk "f.go" 2) (Pos.mk "g.go" 3) = false :=
  have h := empty_positions_spec fsetCrossFile stateBeforeCrossFile (Node.mk 30 40)
    (.ExprStmt (Node.mk 30 40)) (by decide) (Or.inl rfl)
  ⟨h.2.1, h.2.2.2.2.1, (h.2.2.2.2.2 true [Pos.mk "g.go" 3] _ _).1.trans (by decide)⟩

/-! ## Transition check (C24) -/

theorem foldl_min_le_init (f : Pos → Nat) (ks : List Pos) (c : Nat) :
    ks.foldl (fun penalty k => if f k < penalty then f k else penalty) c ≤ c := by
  induction ks generalizing c with
  | nil => exact Nat.le_refl _
  | cons a ks ih =>
    rw [List.foldl_cons]
    refine Nat.le_trans (ih _) ?_
    split <;> omega

theorem foldl_min_le_mem (f : Pos → Nat) (ks : List Pos) (c : Nat) (k : Pos) (hk : k ∈ ks) :
    ks.foldl (fun penalty k => if f k < penalty then f k else penalty) c ≤ f k := by
  induction ks generalizing c with
  | nil => cases hk
  | cons a ks ih =>
    rw [List.foldl_cons]
    rcases List.mem_cons.1 hk with h | h
    · subst h
      refine Nat.le_trans (foldl_min_le_init f ks _) ?_
      split <;> omega
    · exact ih _ h

theorem foldl_min_attained (f : Pos → Nat) (ks : List Pos) (c : Nat) :
    ks.foldl (fun penalty k => if f k < penalty then f k else penalty) c = c ∨
      ∃ k ∈ ks, ks.foldl (fun penalty k => if f k < penalty then f k else penalty) c = f k := by
  induction ks generalizing c with
  | nil => exact Or.inl rfl
  | cons a ks ih =>
    rw [List.foldl_cons]
    rcases ih (if f a < c then f a else c) with h | ⟨k, hk, h⟩
    · rw [h]
      by_cases hlt : f a < c
      · rw [if_pos hlt]; exact Or.inr ⟨a, List.mem_cons_self _ _, rfl⟩
      · rw [if_neg hlt]; exact Or.inl rfl
    · exact Or.inr ⟨k, List.mem_cons_of_mem _ hk, h⟩

theorem transitionGrade_eq (s : Successors) (ge : Nat) (k : Pos) :
    transitionGrade s ge k = penaltyGrade (groupOf s k) ge := rfl

theorem penaltyGrade_pos (a b : Nat) : 0 < penaltyGrade a b := by
  unfold penaltyGrade
  split
  · decide
  · split <;> decide

theorem sentinel_iff (p : Pos) : (p.File = "" ∧ p.Line = -1) ↔ p = sentinel := by
  cases p with
  | mk f l =>
    unfold sentinel
    constructor
    · rintro ⟨h1, h2⟩
      simp only [] at h1 h2
      subst h1; subst h2; rfl
    · intro h
      injection h with h1 h2
      exact ⟨h1, h2⟩

theorem checkTransition_zero (s : Successors) (start end_ : Pos) (pc : Nat)
    (h : acceptedFile start.File = false ∨ (tableGet s.S start).Any = true ∨
      inS s start end_ = true ∨ inSq s start end_ = true) :
    checkTransition s start end_ pc = 0 := by
  unfold checkTransition inS inSq at *
  by_cases h1 : acceptedFile start.File = false
  · simp [h1]
  · rcases h with h | h | h | h
    · exact absurd h h1
    · simp [h]
    · simp [h]
    · simp [h]

theorem checkTransition_pos (s : Successors) (start end_ : Pos) (pc : Nat)
    (h1 : acceptedFile start.File = true) (h2 : (tableGet s.S start).Any = false)
    (h3 : inS s start end_ = false) (h4 : inSq s start end_ = false) :
    checkTransition s start end_ pc =
      (tableGet s.S start).keys.foldl
        (fun penalty k =>
          if penaltyGrade (groupOf s k) (groupOf s end_) < penalty
          then penaltyGrade (groupOf s k) (groupOf s end_) else penalty) (penaltyCap end_) := by
  unfold checkTransition
  unfold inS at h3
  unfold inSq at h4
  simp only [h1, h2, h3, h4, Bool.not_true, Bool.false_eq_true, if_false, Bool.or_self,
    transitionGrade_eq]
  have hc : (if end_.File = "" ∧ end_.Line = -1 then OutOfGroupPenalty else OutOfFunctionPenalty)
      = penaltyCap end_ := by
    unfold penaltyCap
    by_cases he : end_ = sentinel
    · rw [if_pos he, if_pos ((sentinel_iff _).2 he)]; rfl
    · rw [if_neg he, if_neg (fun h => he ((sentinel_iff _).1 h))]; rfl
  rw [hc]


theorem mapGet_isSome_iff {ν : Type} (m : List (Pos × ν)) (k : Pos) :
    (mapGet m k).isSome = true ↔ k ∈ m.map Prod.fst := by
  induction m with
  | nil => simp [mapGet]
  | cons a m ih =>
    obtain ⟨k', v⟩ := a
    rw [mapGet]
    by_cases h : k = k'
    · simp [h]
    · rw [if_neg h, ih]
      simp [h]

theorem mem_keys_iff (set : PosSet) (k : Pos) :
    k ∈ set.keys ↔ ∃ m, set.Set = some m ∧ (mapGet m k).isSome = true := by
  unfold PosSet.keys
  cases h : set.Set with
  | none => simp
  | some m => simp [mapGet_isSome_iff]

theorem groupOf_eq (s : Successors) (p : Pos) : groupOf s p = groupOrZero s.G p := by
  unfold groupOf groupOrZero
  cases mapGet s.G p <;> rfl

/-- C24: `checkTransition(start, end)` returns 0 whenever the file of `start` is not
accepted, or `S[start]` is `Any` or contains `end`, or `Sq[start]` contains `end`.  In every
other case the result is strictly positive and is the minimum of the cap (10 when `end` is
the sentinel, 100 otherwise) and the grades of the recorded successors `k` of `S[start]`,
the entries of its map: it is at most the cap, at most the grade of every entry, and equal
to the cap or to the grade of some entry, where the grade is 1 if `G[k] = G[end]`, 10 if the
two groups agree only in their upper 32 bits and 100 otherwise, a position without a group
counting as group 0. -/
theorem checkTransition_spec (s : Successors) (start end_ : Pos) (pc : Nat) :
    ((acceptedFile start.File = false ∨ (tableGet s.S start).Any = true ∨
        inS s start end_ = true ∨ inSq s start end_ = true) →
      checkTransition s start end_ pc = 0) ∧
    (¬ (acceptedFile start.File = false ∨ (tableGet s.S start).Any = true ∨
        inS s start end_ = true ∨ inSq s start end_ = true) →
      0 < checkTransition s start end_ pc ∧
      checkTransition s start end_ pc ≤ penaltyCap end_ ∧
      (∀ m k, (tableGet s.S start).Set = some m → (mapGet m k).isSome = true →
        checkTransition s start end_ pc
          ≤ penaltyGrade (groupOrZero s.G k) (groupOrZero s.G end_)) ∧
      (checkTransition s start end_ pc = penaltyCap end_ ∨
        ∃ m k, (tableGet s.S start).Set = some m ∧ (mapGet m k).isSome = true ∧
          checkTransition s start end_ pc
            = penaltyGrade (groupOrZero s.G k) (groupOrZero s.G end_))) := by
  refine ⟨checkTransition_zero s start end_ pc, fun h => ?_⟩
  have h1 : acceptedFile start.File = true := by
    cases hh : acceptedFile start.File
    · exact absurd (Or.inl hh) h
    · rfl
  have h2 : (tableGet s.S start).Any = false := by
    cases hh : (tableGet s.S start).Any
    · rfl
    · exact absurd (Or.inr (Or.inl hh)) h
  have h3 : inS s start end_ = false := by
    cases hh : inS s start end_
    · rfl
    · exact absurd (Or.inr (Or.inr (Or.inl hh))) h
  have h4 : inSq s start end_ = false := by
    cases hh : inSq s start end_
    · rfl
    · exact absurd (Or.inr (Or.inr (Or.inr hh))) h
  rw [checkTransition_pos s start end_ pc h1 h2 h3 h4]
  simp only [groupOf_eq]
  have hatt := foldl_min_attained
    (fun k => penaltyGrade (groupOrZero s.G k) (groupOrZero s.G end_))
    (tableGet s.S start).keys (penaltyCap end_)
  refine ⟨?_,
    foldl_min_le_init (fun k => penaltyGrade (groupOrZero s.G k) (groupOrZero s.G end_)) _ _,
    fun m k hm hk =>
      foldl_min_le_mem (fun k => penaltyGrade (groupOrZero s.G k) (groupOrZero s.G end_)) _ _ k
        ((mem_keys_iff _ k).2 ⟨m, hm, hk⟩), ?_⟩
  · rcases hatt with h | ⟨k, _, h⟩
    · rw [h]; unfold penaltyCap; split <;> decide
    · rw [h]; exact penaltyGrade_pos _ _
  · rcases hatt with h | ⟨k, hk, h⟩
    · exact Or.inl h
    · obtain ⟨m, hm, hk'⟩ := (mem_keys_iff _ k).1 hk
      exact Or.inr ⟨m, k, hm, hk', h⟩

/-- C24, witness: with one function on lines 1 to 4 and another on lines 5 to 8, the only
recorded successor of line 2 is line 3 (group 1).  A step from line 2 to line 4 (group 1)
costs 1, to line 1 (group 0, same function) 10, to line 6 (another function) 100, to the
sentinel (no group, cap 10) 10; a step to line 3 and a step from a file that is not
accepted cost 0. -/
theorem checkTransition_spec_witness :
    checkTransition stateTwoFunctions (Pos.mk "f.go" 2) (Pos.mk "f.go" 4) 0 = 1 ∧
    checkTransition stateTwoFunctions (Pos.mk "f.go" 2) (Pos.mk "f.go" 1) 0 = 10 ∧
    checkTransition stateTwoFunctions (Pos.mk "f.go" 2) (Pos.mk "f.go" 6) 0 = 100 ∧
    checkTransition stateTwoFunctions (Pos.mk "f.go" 2) sentinel 0 = 10 ∧
    checkTransition stateTwoFunctions (Pos.mk "f.go" 2) (Pos.mk "f.go" 3) 0 = 0 ∧
    checkTransition stateTwoFunctions (Pos.mk "f.s" 2) (Pos.mk "f.go" 4) 0 = 0 := by
  have hS : (tableGet stateTwoFunctions.S (Pos.mk "f.go" 2)).Set
      = some [(Pos.mk "f.go" 3, true)] := by decide
  have hkey : ∀ m k, (tableGet stateTwoFunctions.S (Pos.mk "f.go" 2)).Set = some m →
      (mapGet m k).isSome = true → k = Pos.mk "f.go" 3 := by
    intro m k hm hk
    rw [hS] at hm
    injection hm with hm
    subst hm
    by_cases h3 : k = Pos.mk "f.go" 3
    · exact h3
    · simp [mapGet, h3] at hk
  have a := (checkTransition_spec stateTwoFunctions (Pos.mk "f.go" 2) (Pos.mk "f.go" 4) 0).2
    (by decide)
  have b := (checkTransition_spec stateTwoFunctions (Pos.mk "f.go" 2) (Pos.mk "f.go" 1) 0).2
    (by decide)
  have c := (checkTransition_spec stateTwoFunctions (Pos.mk "f.go" 2) (Pos.mk "f.go" 6) 0).2
    (by decide)
  have d := (checkTransition_spec stateTwoFunctions (Pos.mk "f.go" 2) sentinel 0).2
    (by decide)
  refine ⟨?_, ?_, ?_, ?_,
    (checkTransition_spec stateTwoFunctions (Pos.mk "f.go" 2) (Pos.mk "f.go" 3) 0).1
      (Or.inr (Or.inr (Or.inl (by decide)))),
    (checkTransition_spec stateTwoFunctions (Pos.mk "f.s" 2) (Pos.mk "f.go" 4) 0).1
      (Or.inl (by decide))⟩
  · exact Nat.le_antisymm ((a.2.2.1 _ (Pos.mk "f.go" 3) hS (by decide)).trans (by decide)) a.1
  · rcases b.2.2.2 with h | ⟨m, k, hm, hk, h⟩
    · exact absurd ((b.2.2.1 _ (Pos.mk "f.go" 3) hS (by decide)).trans (by decide : _ ≤ 10))
        (by rw [h]; decide)
    · rw [hkey m k hm hk] at h
      exact h.trans (by decide)
  · rcases c.2.2.2 with h | ⟨m, k, hm, hk, h⟩
    · exact h.trans (by decide)
    · rw [hkey m k hm hk] at h
      exact h.trans (by decide)
  · rcases d.2.2.2 with h | ⟨m, k, hm, hk, h⟩
    · exact h.trans (by decide)
    · rw [hkey m k hm hk] at h
      exact h.trans (by decide)

/-! ## The sentinel after a return (C25) -/

theorem findSuccReturn_G (fset : FileSet) (s : Successors) (x : Node) :
    (findSuccReturn fset s x).G
      = setGroupAll s.G s.curgroup (allPositions fset (some x) ++ [s.curfnend, sentinel]) := by
  unfold findSuccReturn
  simp only []
  rw [cont_G_true, foldl_addsucc_G, foldl_addsucc_curgroup]
  rfl

theorem mem_allPositions_ne_sentinel (fset : FileSet) (x : Node)
    (hfset : ∀ o, ToPos fset o ≠ sentinel) (q : Pos) (hq : q ∈ allPositions fset (some x)) :
    q ≠ sentinel := by
  obtain ⟨o, ho⟩ := mem_allPositions fset x q hq
  rw [ho]
  exact hfset o


/-- C25: after a return statement is walked (in a file set that maps no offset to the
sentinel and a function whose end line is not the sentinel) the sentinel has an entry in
`G`, which is the current group if it had none; `S[sentinel]` contains every line of the
return statement and the end line of the function; the sentinel is a member of the cursor;
and the lines of a simple statement walked next, like the positions other than the sentinel
given to the next `cont` or `alsoCont`, are members of `S[sentinel]`. -/
theorem return_sentinel_ordinary (fset : FileSet) (s : Successors) (x : Node)
    (hfset : ∀ o, ToPos fset o ≠ sentinel) (hend : s.curfnend ≠ sentinel) :
    (∃ g, mapGet (findSuccStmt fset (.ReturnStmt x) s).G sentinel = some g) ∧
    (mapGet s.G sentinel = none →
      mapGet (findSuccStmt fset (.ReturnStmt x) s).G sentinel = some s.curgroup) ∧
    (∀ q ∈ allPositions fset (some x),
      inS (findSuccStmt fset (.ReturnStmt x) s) sentinel q = true) ∧
    inS (findSuccStmt fset (.ReturnStmt x) s) sentinel s.curfnend = true ∧
    sentinel ∈ (findSuccStmt fset (.ReturnStmt x) s).curpos ∧
    (∀ y : Node, ∀ q ∈ allPositions fset (some y),
      inS (findSuccStmt fset (.ExprStmt y) (findSuccStmt fset (.ReturnStmt x) s)) sentinel q
        = true) ∧
    (∀ (b : Bool) (ps : List Pos), ∀ q ∈ ps, q ≠ sentinel →
      inS (cont (findSuccStmt fset (.ReturnStmt x) s) b ps) sentinel q = true ∧
      inS (alsoCont (findSuccStmt fset (.ReturnStmt x) s) b ps) sentinel q = true) := by
  have hr : findSuccStmt fset (.ReturnStmt x) s = findSuccReturn fset s x := by
    rw [findSuccStmt]
  have hcur : sentinel ∈ (findSuccReturn fset s x).curpos := by
    rw [findSuccReturn_curpos]; simp
  have hmem : sentinel ∈ allPositions fset (some x) ++ [s.curfnend, sentinel] := by simp
  rw [hr]
  refine ⟨?_, ?_, ?_, ?_, hcur, ?_, ?_⟩
  · rw [findSuccReturn_G]
    exact setGroupAll_isSome _ _ _ _ hmem
  · intro hnone
    rw [findSuccReturn_G, setGroupAll_mapGet, hnone]
    simp
  · intro q hq
    have hne := mem_allPositions_ne_sentinel fset x hfset q hq
    rw [inS_findSuccReturn]
    simp [hq, hne]
  · rw [inS_findSuccReturn]
    simp [hend]
  · intro y q hq
    have hne := mem_allPositions_ne_sentinel fset y hfset q hq
    have he : findSuccStmt fset (.ExprStmt y) (findSuccReturn fset s x)
        = findSuccExpr fset (findSuccReturn fset s x) y := by
      rw [findSuccStmt]
    rw [he, inS_findSuccExpr]
    simp [hq, hne, hcur]
  · intro b ps q hq hne
    rw [inS_cont, inS_alsoCont]
    simp [hq, hne, hcur]

/-- C25, witness: `return x` on line 2 of a function ending on line 4, walked as the first
statement of the body: the sentinel gets group 1, `S[sentinel]` contains lines 2 and 4, and
after `g()` on line 3 is walked it contains line 3. -/
theorem return_sentinel_ordinary_witness :
    mapGet (findSuccStmt fsetTenPerLine (.ReturnStmt (Node.mk 20 28)) (stateInBodyEndingAt 4)).G
      sentinel = some 1 ∧
    inS (findSuccStmt fsetTenPerLine (.ReturnStmt (Node.mk 20 28)) (stateInBodyEndingAt 4))
      sentinel (Pos.mk "f.go" 2) = true ∧
    inS (findSuccStmt fsetTenPerLine (.ReturnStmt (Node.mk 20 28)) (stateInBodyEndingAt 4))
      sentinel (Pos.mk "f.go" 4) = true ∧
    inS (findSuccStmt fsetTenPerLine (.ExprStmt (Node.mk 30 35))
      (findSuccStmt fsetTenPerLine (.ReturnStmt (Node.mk 20 28)) (stateInBodyEndingAt 4)))
      sentinel (Pos.mk "f.go" 3) = true :=
  have h := return_sentinel_ordinary fsetTenPerLine (stateInBodyEndingAt 4) (Node.mk 20 28)
    (fun o e => by simp [ToPos, fsetTenPerLine, sentinel] at e) (by decide)
  ⟨h.2.1 (by decide), h.2.2.1 _ (by decide), h.2.2.2.1, h.2.2.2.2.2.1 _ _ (by decide)⟩
